import Mathlib

/-!
# Planning: conversations, messages, keyset pagination and the connection hub

A shallow embedding of the chat core of `kareempaes/Planning`:

* `internal/model`: the row types and the error values;
* `internal/repo`: the SQL repositories, as functions on a relational state `Db`
  (one list of rows per table, in table order);
* `internal/service`: `MessageService`, `ConversationService`, `UserService` and
  `AuthService`, written, as in the source, against the repository interfaces, and the
  repositories of `auth_test.go`;
* `internal/infra`: the connection hub, as functions on the registry and on the state of
  the channels of the clients;
* `internal/handler`: the send path of `MessageHandler`.

Conventions.  `uuid.UUID` is a natural number (only equality and the byte order of
UUIDs are used), `time.Time` is an instant counted from the zero `Time`, Go `string`s
that come from JSON are Lean `String`s (valid Unicode) and `len` is the UTF-8 byte
length.  `time.Now()` and `uuid.New()` are inputs of the operations that call them.
-/

namespace Planning

/-! ## internal/model -/

/-- A `uuid.UUID`; the order on naturals is the byte order of the 128-bit value. -/
abbrev UUID := Nat

/-- A `time.Time`, as an instant: nanoseconds from the zero `Time`. -/
abbrev Time := Int

/-- The error values of `internal/model/errors.go`, together with the wrapped driver
errors the repositories build with `fmt.Errorf("repo: ...: %w", err)`. -/
inductive Error where
  | ErrNotFound
  | ErrValidation
  | ErrConflict
  | ValidationError (Field : String) (Message : String)
  | Wrapped (context : String)
  deriving DecidableEq, Repr

deriving instance DecidableEq for Except

/-- The method `(*ValidationError).Unwrap`: a `ValidationError` unwraps to `ErrValidation`; the
sentinels unwrap to nothing. -/
def Error.Unwrap : Error → Option Error
  | .ValidationError _ _ => some .ErrValidation
  | _ => none

/-- Go `errors.Is(err, target)` for the error values above (chains have length at most two). -/
def Error.Is (err target : Error) : Bool :=
  decide (err = target) || decide (err.Unwrap = some target)

/-- Row of `conversations`; `Typ` is the field `Type`. -/
structure Conversation where
  ID : UUID
  Typ : String
  Name : Option String
  CreatedBy : UUID
  CreatedAt : Time
  UpdatedAt : Time
  deriving DecidableEq, Repr

/-- Row of `conversation_participants`; `LeftAt = none` is an active membership. -/
structure ConversationParticipant where
  ID : UUID
  ConversationID : UUID
  UserID : UUID
  Role : String
  JoinedAt : Time
  LeftAt : Option Time
  deriving DecidableEq, Repr

/-- Row of `messages`. -/
structure Message where
  ID : UUID
  ConversationID : UUID
  SenderID : UUID
  Body : String
  Status : String
  CreatedAt : Time
  UpdatedAt : Time
  deriving DecidableEq, Repr

/-- Row of `message_deliveries`.  `Status = none` stands for the column default, which
the insert in `CreateDeliveries` does not set. -/
structure MessageDelivery where
  ID : UUID
  MessageID : UUID
  UserID : UUID
  Status : Option String
  DeliveredAt : Option Time
  ReadAt : Option Time
  deriving DecidableEq, Repr

/-- The fields of `model.ConversationSummary` that `ListByUser` fills in. -/
structure ConversationSummary where
  ID : UUID
  Typ : String
  Name : Option String
  deriving DecidableEq, Repr

/-- The generic `model.Page[T]`. -/
structure Page (α : Type) where
  Items : List α
  NextCursor : Option String
  HasMore : Bool
  deriving DecidableEq, Repr

/-- Row of `users` (`model.User`). -/
structure User where
  ID : UUID
  Email : String
  PasswordHash : String
  DisplayName : String
  AvatarURL : Option String
  Status : String
  CreatedAt : Time
  UpdatedAt : Time
  deriving DecidableEq, Repr

/-- The struct `model.UserSearchResult`. -/
structure UserSearchResult where
  ID : UUID
  DisplayName : String
  AvatarURL : Option String
  deriving DecidableEq, Repr

/-! ## Library functions used by the repository code -/

/-- Go `unicode.IsSpace`: the Unicode White_Space property. -/
def isSpace (c : Char) : Bool :=
  let n := c.toNat
  (9 ≤ n && n ≤ 13) || n == 32 || n == 0x85 || n == 0xA0 || n == 0x1680 ||
    (0x2000 ≤ n && n ≤ 0x200A) || n == 0x2028 || n == 0x2029 || n == 0x202F ||
    n == 0x205F || n == 0x3000

/-- Drop the leading and the trailing white space of a list of characters. -/
def trimSpaceChars (cs : List Char) : List Char :=
  ((cs.dropWhile isSpace).reverse.dropWhile isSpace).reverse

/-- Go `strings.TrimSpace`. -/
def TrimSpace (s : String) : String := ⟨trimSpaceChars s.data⟩

/-- Go's `len(s)`: the number of bytes of the UTF-8 encoding. -/
def len (s : String) : Nat := (s.data.map Char.utf8Size).sum

/-- The codecs of the Go standard library and of `google/uuid` that the cursor code
calls; they are not part of the repository and are taken as parameters. -/
structure Codec where
  /-- Go: `base64.URLEncoding.EncodeToString([]byte(s))`. -/
  base64Encode : String → String
  /-- Go: `base64.URLEncoding.DecodeString(s)`, read back as a string. -/
  base64Decode : String → Option String
  /-- Go: `t.Format(time.RFC3339Nano)`. -/
  formatTime : Time → String
  /-- Go: `time.Parse(time.RFC3339Nano, s)`. -/
  parseTime : String → Option Time
  /-- Go: `id.String()`. -/
  uuidString : UUID → String
  /-- Go: `uuid.Parse(s)`. -/
  uuidParse : String → Option UUID

/-- Go `strings.SplitN(s, "|", 2)` on the characters of `s`: the text before the first
separator and the text after it, or `none` when there is no separator (one part). -/
def splitBar : List Char → Option (List Char × List Char)
  | [] => none
  | c :: cs =>
    if c = '|' then some ([], cs)
    else match splitBar cs with
      | none => none
      | some (a, b) => some (c :: a, b)

/-- The function `decodeTimeCursor` of `internal/repo/conversation.go`. -/
def decodeTimeCursor (k : Codec) (cursor : String) : Except Error (Time × UUID) :=
  match k.base64Decode cursor with
  | none => .error (.Wrapped "invalid cursor")
  | some raw =>
    match splitBar raw.data with
    | none => .error (.Wrapped "invalid cursor format")
    | some (p0, p1) =>
      match k.parseTime ⟨p0⟩ with
      | none => .error (.Wrapped "invalid cursor time")
      | some t =>
        match k.uuidParse ⟨p1⟩ with
        | none => .error (.Wrapped "invalid cursor uuid")
        | some id => .ok (t, id)

/-- The function `encodeTimeCursor` of `internal/repo/conversation.go`. -/
def encodeTimeCursor (k : Codec) (t : Time) (id : UUID) : String :=
  k.base64Encode (k.formatTime t ++ "|" ++ k.uuidString id)

/-- The function `decodeCursor` of `internal/repo/user.go`. -/
def decodeCursor (k : Codec) (cursor : String) : Except Error (String × UUID) :=
  match k.base64Decode cursor with
  | none => .error (.Wrapped "invalid cursor")
  | some raw =>
    match splitBar raw.data with
    | none => .error (.Wrapped "invalid cursor format")
    | some (p0, p1) =>
      match k.uuidParse ⟨p1⟩ with
      | none => .error (.Wrapped "invalid cursor uuid")
      | some id => .ok (⟨p0⟩, id)

/-- The function `encodeCursor` of `internal/repo/user.go`. -/
def encodeCursor (k : Codec) (displayName : String) (id : UUID) : String :=
  k.base64Encode (displayName ++ "|" ++ k.uuidString id)

/-- The text operators of the SQL engine that the query of `Search` uses; they depend
on the collation of the database and are taken as parameters. -/
structure SqlText where
  /-- SQL: `value ILIKE pattern`. -/
  ilike : String → String → Bool
  /-- SQL: `a < b` on text. -/
  textLt : String → String → Bool

/-- Go `strings.ToLower` on the ASCII letters; other characters are left as they are
(a reference instance of the lower-casing that `Create` takes as a parameter). -/
def asciiLower (s : String) : String := String.mk (s.data.map Char.toLower)

/-! ## internal/repo: the repository interfaces -/

/-- The interface `repo.ConversationRepository`.  A query returns its result, a
statement returns the new state; both may fail. -/
structure ConversationRepository (σ : Type) where
  Create : σ → Conversation → Except Error σ
  GetByID : σ → UUID → Except Error Conversation
  ListByUser : σ → UUID → String → Int → Except Error (Page ConversationSummary)
  Update : σ → UUID → String → Except Error (Conversation × σ)
  FindDirectBetween : σ → UUID → UUID → Except Error Conversation
  AddParticipant : σ → ConversationParticipant → Except Error σ
  RemoveParticipant : σ → UUID → UUID → Except Error σ
  GetParticipants : σ → UUID → Except Error (List ConversationParticipant)
  IsParticipant : σ → UUID → UUID → Except Error Bool

/-- The interface `repo.MessageRepository`. -/
structure MessageRepository (σ : Type) where
  Create : σ → Message → Except Error σ
  GetByID : σ → UUID → Except Error Message
  ListByConversation : σ → UUID → String → Int → Except Error (Page Message)
  CreateDeliveries : σ → UUID → List UUID → Except Error σ
  UpdateDeliveryStatus : σ → UUID → UUID → String → Except Error σ

/-! ## internal/repo: the SQL repositories -/

/-- The four tables of the chat core and the table `users`; each list is a table in row
order.  An insert checks the primary
key of its table and the two unique constraints of section 6 of the specification;
referential constraints and failures of the connection are not part of this state (the
properties stated for every implementation of the interfaces cover repositories that
fail for any reason). -/
structure Db where
  conversations : List Conversation
  conversation_participants : List ConversationParticipant
  messages : List Message
  message_deliveries : List MessageDelivery
  users : List User := []
  deriving DecidableEq, Repr

/-- The row comparison `(a.1, a.2) < (b.1, b.2)` of SQL on a (timestamp, id) pair. -/
def rowLt (a b : Time × UUID) : Bool :=
  decide (a.1 < b.1) || (decide (a.1 = b.1) && decide (a.2 < b.2))

/-- The sort key of a message in `ORDER BY created_at DESC, id DESC`. -/
def Message.key (m : Message) : Time × UUID := (m.CreatedAt, m.ID)

/-- Row `a` is not after row `b` in `ORDER BY created_at DESC, id DESC`. -/
def msgDesc (a b : Message) : Prop := rowLt a.key b.key = false

instance : DecidableRel msgDesc := fun a b => inferInstanceAs (Decidable (rowLt a.key b.key = false))

/-- The sort key of a conversation in `ORDER BY c.updated_at DESC, c.id DESC`. -/
def Conversation.key (c : Conversation) : Time × UUID := (c.UpdatedAt, c.ID)

/-- Row `a` is not after row `b` in `ORDER BY c.updated_at DESC, c.id DESC`. -/
def convDesc (a b : Conversation) : Prop := rowLt a.key b.key = false

instance : DecidableRel convDesc := fun a b => inferInstanceAs (Decidable (rowLt a.key b.key = false))

/-- The subquery `conversation_id = $1 AND user_id = $2 AND left_at IS NULL`. -/
def activeRow (conversationID userID : UUID) (p : ConversationParticipant) : Bool :=
  decide (p.ConversationID = conversationID) && decide (p.UserID = userID) && p.LeftAt.isNone

namespace conversationRepo

/-- Modelled from the spec: the schema of `conversations` (the migrations are not in
the sources); section 6 gives the table a primary key `id`. -/
def insertable (db : Db) (convo : Conversation) : Bool :=
  !(db.conversations.any fun c => decide (c.ID = convo.ID))

/-- The method `conversationRepo.Create`. -/
def Create (db : Db) (convo : Conversation) : Except Error Db :=
  if insertable db convo then
    .ok { db with conversations := db.conversations ++ [convo] }
  else .error (.Wrapped "repo: create conversation")

/-- The method `conversationRepo.GetByID`. -/
def GetByID (db : Db) (id : UUID) : Except Error Conversation :=
  match db.conversations.find? fun c => decide (c.ID = id) with
  | none => .error .ErrNotFound
  | some c => .ok c

/-- The rows of the join in `ListByUser`, one per pair of a conversation and an
active participant row of the user, before cursor filter and ordering. -/
def joinRows (db : Db) (userID : UUID) : List Conversation :=
  db.conversations.flatMap fun c =>
    (db.conversation_participants.filter fun cp =>
      decide (cp.ConversationID = c.ID) && decide (cp.UserID = userID) && cp.LeftAt.isNone).map
      fun _ => c

/-- The method `conversationRepo.ListByUser`. -/
def ListByUser (k : Codec) (db : Db) (userID : UUID) (cursor : String) (limit : Int) :
    Except Error (Page ConversationSummary) :=
  let limit : Int := if limit ≤ 0 ∨ limit > 100 then 20 else limit
  let fetchLimit := limit + 1
  let whereCursor : Except Error (Option (Time × UUID)) :=
    if cursor ≠ "" then
      match decodeTimeCursor k cursor with
      | .error _ => .error (.ValidationError "cursor" "invalid cursor")
      | .ok c => .ok (some c)
    else .ok none
  match whereCursor with
  | .error e => .error e
  | .ok cur =>
    let rows := (joinRows db userID).filter fun c =>
      match cur with
      | none => true
      | some cu => rowLt c.key cu
    let fetched := (rows.insertionSort convDesc).take fetchLimit.toNat
    let results : List ConversationSummary :=
      fetched.map fun c => { ID := c.ID, Typ := c.Typ, Name := c.Name }
    let hasMore := decide ((results.length : Int) > limit)
    let results := if hasMore then results.take limit.toNat else results
    let nextCursor : Option String :=
      if hasMore ∧ results.length > 0 then
        match results.getLast? with
        | none => none
        | some last =>
          let lastUpdatedAt : Time :=
            match db.conversations.find? fun c => decide (c.ID = last.ID) with
            | none => 0
            | some c => c.UpdatedAt
          some (encodeTimeCursor k lastUpdatedAt last.ID)
      else none
    .ok { Items := results, NextCursor := nextCursor, HasMore := hasMore }

/-- The method `conversationRepo.Update`; `now` is the `time.Now().UTC()` of the call. -/
def Update (now : Time) (db : Db) (id : UUID) (name : String) :
    Except Error (Conversation × Db) :=
  match db.conversations.find? fun c => decide (c.ID = id) with
  | none => .error .ErrNotFound
  | some c =>
    let c1 := { c with Name := some name, UpdatedAt := now }
    .ok (c1, { db with conversations := db.conversations.map fun x =>
      if x.ID = id then { x with Name := some name, UpdatedAt := now } else x })

/-- The method `conversationRepo.FindDirectBetween`. -/
def FindDirectBetween (db : Db) (userA userB : UUID) : Except Error Conversation :=
  match db.conversations.find? fun c =>
      decide (c.Typ = "direct") &&
        db.conversation_participants.any (activeRow c.ID userA) &&
        db.conversation_participants.any (activeRow c.ID userB) with
  | none => .error .ErrNotFound
  | some c => .ok c

/-- Modelled from the spec: the schema of `conversation_participants` (the migrations
are not in the sources); section 6 gives the table a primary key `id` and a unique
constraint on (conversation_id, user_id) for active participants. -/
def insertable_participant (db : Db) (p : ConversationParticipant) : Bool :=
  !(db.conversation_participants.any fun q => decide (q.ID = p.ID)) &&
    !(db.conversation_participants.any (activeRow p.ConversationID p.UserID))

/-- The method `conversationRepo.AddParticipant`; a violated constraint is reported by
the driver as a duplicate key and becomes `ErrConflict`.  The insert sets no `left_at`. -/
def AddParticipant (db : Db) (participant : ConversationParticipant) : Except Error Db :=
  if insertable_participant db participant then
    .ok { db with conversation_participants :=
      db.conversation_participants ++ [{ participant with LeftAt := none }] }
  else .error .ErrConflict

/-- The method `conversationRepo.RemoveParticipant`; `now` is the `time.Now().UTC()` of
the call. -/
def RemoveParticipant (now : Time) (db : Db) (conversationID userID : UUID) : Except Error Db :=
  if db.conversation_participants.any (activeRow conversationID userID) then
    .ok { db with conversation_participants := db.conversation_participants.map fun p =>
      if activeRow conversationID userID p then { p with LeftAt := some now } else p }
  else .error .ErrNotFound

/-- The method `conversationRepo.GetParticipants`. -/
def GetParticipants (db : Db) (conversationID : UUID) :
    Except Error (List ConversationParticipant) :=
  .ok (db.conversation_participants.filter fun p =>
    decide (p.ConversationID = conversationID) && p.LeftAt.isNone)

/-- The method `conversationRepo.IsParticipant`. -/
def IsParticipant (db : Db) (conversationID userID : UUID) : Except Error Bool :=
  .ok (db.conversation_participants.any (activeRow conversationID userID))

end conversationRepo

/-- The constructor `NewConversationRepo`: the SQL implementation of the interface. -/
def NewConversationRepo (k : Codec) (now : Time) : ConversationRepository Db where
  Create := conversationRepo.Create
  GetByID := conversationRepo.GetByID
  ListByUser := conversationRepo.ListByUser k
  Update := conversationRepo.Update now
  FindDirectBetween := conversationRepo.FindDirectBetween
  AddParticipant := conversationRepo.AddParticipant
  RemoveParticipant := conversationRepo.RemoveParticipant now
  GetParticipants := conversationRepo.GetParticipants
  IsParticipant := conversationRepo.IsParticipant

namespace messageRepo

/-- Modelled from the spec: the schema of `messages` (the migrations are not in the
sources); section 6 gives the table a primary key `id`. -/
def insertable (db : Db) (msg : Message) : Bool :=
  !(db.messages.any fun m => decide (m.ID = msg.ID))

/-- The method `messageRepo.Create`. -/
def Create (db : Db) (msg : Message) : Except Error Db :=
  if insertable db msg then
    .ok { db with messages := db.messages ++ [msg] }
  else .error (.Wrapped "repo: create message")

/-- The method `messageRepo.GetByID`. -/
def GetByID (db : Db) (id : UUID) : Except Error Message :=
  match db.messages.find? fun m => decide (m.ID = id) with
  | none => .error .ErrNotFound
  | some m => .ok m

/-- The method `messageRepo.ListByConversation`. -/
def ListByConversation (k : Codec) (db : Db) (conversationID : UUID) (cursor : String)
    (limit : Int) : Except Error (Page Message) :=
  let limit : Int := if limit ≤ 0 ∨ limit > 100 then 50 else limit
  let fetchLimit := limit + 1
  let whereCursor : Except Error (Option (Time × UUID)) :=
    if cursor ≠ "" then
      match decodeTimeCursor k cursor with
      | .error _ => .error (.ValidationError "cursor" "invalid cursor")
      | .ok c => .ok (some c)
    else .ok none
  match whereCursor with
  | .error e => .error e
  | .ok cur =>
    let rows := db.messages.filter fun m =>
      decide (m.ConversationID = conversationID) &&
        match cur with
        | none => true
        | some cu => rowLt m.key cu
    let results := (rows.insertionSort msgDesc).take fetchLimit.toNat
    let hasMore := decide ((results.length : Int) > limit)
    let results := if hasMore then results.take limit.toNat else results
    let nextCursor : Option String :=
      if hasMore ∧ results.length > 0 then
        match results.getLast? with
        | none => none
        | some last => some (encodeTimeCursor k last.CreatedAt last.ID)
      else none
    .ok { Items := results, NextCursor := nextCursor, HasMore := hasMore }

/-- Modelled from the spec: the schema of `message_deliveries` (the migrations are not
in the sources); section 6 gives the table a primary key `id` and a unique constraint
on (message_id, user_id).  The row `d` violates a constraint against `rows`. -/
def violates (rows : List MessageDelivery) (d : MessageDelivery) : Bool :=
  rows.any fun r =>
    decide (r.ID = d.ID) || (decide (r.MessageID = d.MessageID) && decide (r.UserID = d.UserID))

/-- Insert the rows of one `INSERT ... VALUES` statement in order; `none` when a row
violates a constraint (the statement then inserts nothing). -/
def insertAll : List MessageDelivery → List MessageDelivery → Option (List MessageDelivery)
  | rows, [] => some rows
  | rows, d :: ds => if violates rows d then none else insertAll (rows ++ [d]) ds

/-- The rows `(gen_random_uuid(), $messageID, $uid)` of the bulk insert; `gen i` is the
id the database draws for the `i`-th row, counted from `start`. -/
def deliveryRows (gen : Nat → UUID) (messageID : UUID) : Nat → List UUID → List MessageDelivery
  | _, [] => []
  | start, uid :: rest =>
    { ID := gen start, MessageID := messageID, UserID := uid, Status := none,
      DeliveredAt := none, ReadAt := none } :: deliveryRows gen messageID (start + 1) rest

/-- The method `messageRepo.CreateDeliveries`. -/
def CreateDeliveries (gen : Nat → UUID) (db : Db) (messageID : UUID) (userIDs : List UUID) :
    Except Error Db :=
  if userIDs.length = 0 then .ok db
  else
    match insertAll db.message_deliveries (deliveryRows gen messageID 0 userIDs) with
    | none => .error (.Wrapped "repo: create deliveries")
    | some rows => .ok { db with message_deliveries := rows }

/-- The method `messageRepo.UpdateDeliveryStatus`; `now` is the `time.Now().UTC()` of the
call. -/
def UpdateDeliveryStatus (now : Time) (db : Db) (messageID userID : UUID) (status : String) :
    Except Error Db :=
  if db.message_deliveries.any
      (fun d => decide (d.MessageID = messageID) && decide (d.UserID = userID)) then
    .ok { db with message_deliveries := db.message_deliveries.map fun d =>
      if d.MessageID = messageID ∧ d.UserID = userID then
        { d with Status := some status, DeliveredAt := some now }
      else d }
  else .error .ErrNotFound

end messageRepo

/-- The row comparison `(a.1, a.2) > (b.1, b.2)` of SQL on a (display name, id) pair. -/
def userRowGt (q : SqlText) (a b : String × UUID) : Bool :=
  q.textLt b.1 a.1 || (decide (a.1 = b.1) && decide (a.2 > b.2))

/-- The sort key of a user in `ORDER BY display_name ASC, id ASC`. -/
def User.key (u : User) : String × UUID := (u.DisplayName, u.ID)

/-- Row `a` is not after row `b` in `ORDER BY display_name ASC, id ASC`. -/
def userAsc (q : SqlText) (a b : User) : Prop := userRowGt q a.key b.key = false

instance (q : SqlText) : DecidableRel (userAsc q) :=
  fun a b => inferInstanceAs (Decidable (userRowGt q a.key b.key = false))

namespace userRepo

/-- The method `userRepo.Search`. -/
def Search (q : SqlText) (k : Codec) (db : Db) (query : String) (cursor : String) (limit : Int) :
    Except Error (Page UserSearchResult) :=
  let limit : Int := if limit ≤ 0 ∨ limit > 100 then 20 else limit
  let fetchLimit := limit + 1
  let whereCursor : Except Error (Option (String × UUID)) :=
    if cursor ≠ "" then
      match decodeCursor k cursor with
      | .error _ => .error (.ValidationError "cursor" "invalid cursor")
      | .ok c => .ok (some c)
    else .ok none
  match whereCursor with
  | .error e => .error e
  | .ok cur =>
    let rows := db.users.filter fun u =>
      q.ilike u.DisplayName (query ++ "%") &&
        match cur with
        | none => true
        | some cu => userRowGt q u.key cu
    let fetched := (rows.insertionSort (userAsc q)).take fetchLimit.toNat
    let results : List UserSearchResult :=
      fetched.map fun u => { ID := u.ID, DisplayName := u.DisplayName, AvatarURL := u.AvatarURL }
    let hasMore := decide ((results.length : Int) > limit)
    let results := if hasMore then results.take limit.toNat else results
    let nextCursor : Option String :=
      if hasMore ∧ results.length > 0 then
        match results.getLast? with
        | none => none
        | some last => some (encodeCursor k last.DisplayName last.ID)
      else none
    .ok { Items := results, NextCursor := nextCursor, HasMore := hasMore }

end userRepo

/-- The constructor `NewMessageRepo`: the SQL implementation of the interface. -/
def NewMessageRepo (k : Codec) (now : Time) (gen : Nat → UUID) : MessageRepository Db where
  Create := messageRepo.Create
  GetByID := messageRepo.GetByID
  ListByConversation := messageRepo.ListByConversation k
  CreateDeliveries := messageRepo.CreateDeliveries gen
  UpdateDeliveryStatus := messageRepo.UpdateDeliveryStatus now

/-! ## internal/service -/

/-- The struct `service.MessageService`. -/
structure MessageService (σ : Type) where
  messages : MessageRepository σ
  convos : ConversationRepository σ

/-- The struct `service.ConversationService`. -/
structure ConversationService (σ : Type) where
  convos : ConversationRepository σ

variable {σ : Type}

/-- The recipients computed by the loop of `Send`: the user ids of the participants,
in order, without the sender. -/
def recipientIDs (participants : List ConversationParticipant) (senderID : UUID) : List UUID :=
  (participants.filter fun p => decide (p.UserID ≠ senderID)).map fun p => p.UserID

/-- The method `MessageService.Send`.  `now` is `time.Now().UTC()` and `newID` is
`uuid.New()`.  The result is the returned pair, as an `Except`, and the state of the
store when the call returns. -/
def MessageService.Send (s : MessageService σ) (st : σ) (now : Time) (newID : UUID)
    (senderID conversationID : UUID) (body : String) : Except Error Message × σ :=
  let body := TrimSpace body
  if body = "" then
    (.error (.ValidationError "body" "must not be empty"), st)
  else if len body > 10000 then
    (.error (.ValidationError "body" "must be 10000 characters or fewer"), st)
  else
    match s.convos.IsParticipant st conversationID senderID with
    | .error err => (.error err, st)
    | .ok false => (.error .ErrNotFound, st)
    | .ok true =>
      let msg : Message :=
        { ID := newID, ConversationID := conversationID, SenderID := senderID, Body := body,
          Status := "sent", CreatedAt := now, UpdatedAt := now }
      match s.messages.Create st msg with
      | .error err => (.error err, st)
      | .ok st1 =>
        match s.convos.GetParticipants st1 conversationID with
        | .error err => (.error err, st1)
        | .ok participants =>
          let recipients := recipientIDs participants senderID
          if recipients.length > 0 then
            match s.messages.CreateDeliveries st1 msg.ID recipients with
            | .error err => (.error err, st1)
            | .ok st2 => (.ok msg, st2)
          else (.ok msg, st1)

/-- The method `MessageService.GetHistory`. -/
def MessageService.GetHistory (s : MessageService σ) (st : σ) (userID conversationID : UUID)
    (cursor : String) (limit : Int) : Except Error (Page Message) :=
  match s.convos.IsParticipant st conversationID userID with
  | .error err => .error err
  | .ok false => .error .ErrNotFound
  | .ok true =>
    let limit : Int := if limit ≤ 0 then 50 else limit
    let limit : Int := if limit > 100 then 100 else limit
    s.messages.ListByConversation st conversationID cursor limit

/-- The method `MessageService.GetByID`. -/
def MessageService.GetByID (s : MessageService σ) (st : σ) (userID conversationID messageID : UUID) :
    Except Error Message :=
  match s.convos.IsParticipant st conversationID userID with
  | .error err => .error err
  | .ok false => .error .ErrNotFound
  | .ok true =>
    match s.messages.GetByID st messageID with
    | .error err => .error err
    | .ok msg =>
      if msg.ConversationID ≠ conversationID then .error .ErrNotFound
      else .ok msg

/-- The method `ConversationService.GetByID`. -/
def ConversationService.GetByID (s : ConversationService σ) (st : σ)
    (userID conversationID : UUID) :
    Except Error (Conversation × List ConversationParticipant) :=
  match s.convos.IsParticipant st conversationID userID with
  | .error err => .error err
  | .ok false => .error .ErrNotFound
  | .ok true =>
    match s.convos.GetByID st conversationID with
    | .error err => .error err
    | .ok convo =>
      match s.convos.GetParticipants st conversationID with
      | .error err => .error err
      | .ok participants => .ok (convo, participants)

/-- The method `ConversationService.Update`. -/
def ConversationService.Update (s : ConversationService σ) (st : σ)
    (userID conversationID : UUID) (name : String) : Except Error Conversation × σ :=
  let name := TrimSpace name
  if name = "" then
    (.error (.ValidationError "name" "must not be empty"), st)
  else
    match s.convos.IsParticipant st conversationID userID with
    | .error err => (.error err, st)
    | .ok false => (.error .ErrNotFound, st)
    | .ok true =>
      match s.convos.Update st conversationID name with
      | .error err => (.error err, st)
      | .ok (c, st1) => (.ok c, st1)

/-- The loop of `ConversationService.AddParticipants` over `newUserIDs`; `uuidNew i` is
the `uuid.New()` of the `i`-th iteration.  It returns the error that ends the loop, if
any, and the state reached. -/
def addParticipantsLoop (convos : ConversationRepository σ) (conversationID : UUID) (now : Time)
    (uuidNew : Nat → UUID) : Nat → List UUID → σ → Option Error × σ
  | _, [], st => (none, st)
  | i, uid :: rest, st =>
    let p : ConversationParticipant :=
      { ID := uuidNew i, ConversationID := conversationID, UserID := uid, Role := "member",
        JoinedAt := now, LeftAt := none }
    match convos.AddParticipant st p with
    | .error err =>
      if err.Is .ErrConflict then addParticipantsLoop convos conversationID now uuidNew (i + 1) rest st
      else (some err, st)
    | .ok st1 => addParticipantsLoop convos conversationID now uuidNew (i + 1) rest st1

/-- The method `ConversationService.AddParticipants`. -/
def ConversationService.AddParticipants (s : ConversationService σ) (st : σ) (now : Time)
    (uuidNew : Nat → UUID) (userID conversationID : UUID) (newUserIDs : List UUID) :
    Except Error (List ConversationParticipant) × σ :=
  if newUserIDs.length = 0 then
    (.error (.ValidationError "user_ids" "must provide at least one user"), st)
  else
    match s.convos.IsParticipant st conversationID userID with
    | .error err => (.error err, st)
    | .ok false => (.error .ErrNotFound, st)
    | .ok true =>
      match s.convos.GetByID st conversationID with
      | .error err => (.error err, st)
      | .ok convo =>
        if convo.Typ ≠ "group" then
          (.error (.ValidationError "type" "can only add participants to group conversations"), st)
        else
          match addParticipantsLoop s.convos conversationID now uuidNew 0 newUserIDs st with
          | (some err, st1) => (.error err, st1)
          | (none, st1) => (s.convos.GetParticipants st1 conversationID, st1)

/-- The method `ConversationService.RemoveParticipant`. -/
def ConversationService.RemoveParticipant (s : ConversationService σ) (st : σ)
    (userID conversationID targetUserID : UUID) : Except Error Unit × σ :=
  match s.convos.IsParticipant st conversationID userID with
  | .error err => (.error err, st)
  | .ok false => (.error .ErrNotFound, st)
  | .ok true =>
    match s.convos.GetByID st conversationID with
    | .error err => (.error err, st)
    | .ok convo =>
      if convo.Typ ≠ "group" then
        (.error (.ValidationError "type" "can only remove participants from group conversations"),
          st)
      else
        match s.convos.RemoveParticipant st conversationID targetUserID with
        | .error err => (.error err, st)
        | .ok st1 => (.ok (), st1)

/-- The struct `service.CreateResult`. -/
structure CreateResult where
  Conversation : Conversation
  Participants : List ConversationParticipant
  Existing : Bool
  deriving DecidableEq, Repr

/-- The loop of `ConversationService.Create` that adds the listed users as members;
`uuidNew i` is the `uuid.New()` of the iteration that handles the `i`-th remaining id,
counted from the first argument, and `all` is `allParticipants` so far.  It returns the
error that ends the loop or the final `allParticipants`, and the state reached. -/
def createMembersLoop (convos : ConversationRepository σ) (conversationID : UUID) (now : Time)
    (uuidNew : Nat → UUID) :
    Nat → List UUID → σ → List ConversationParticipant →
      Except Error (List ConversationParticipant) × σ
  | _, [], st, all => (.ok all, st)
  | i, pid :: rest, st, all =>
    let p : ConversationParticipant :=
      { ID := uuidNew i, ConversationID := conversationID, UserID := pid, Role := "member",
        JoinedAt := now, LeftAt := none }
    match convos.AddParticipant st p with
    | .error err => (.error err, st)
    | .ok st1 => createMembersLoop convos conversationID now uuidNew (i + 1) rest st1 (all ++ [p])

/-- The part of `ConversationService.Create` after the validation: insert the
conversation, the owner and the members.  The calls of `uuid.New()` are `uuidNew 0` for
the conversation, `uuidNew 1` for the owner and `uuidNew (2 + i)` for the `i`-th
listed id. -/
def createNew (convos : ConversationRepository σ) (st : σ) (now : Time) (uuidNew : Nat → UUID)
    (userID : UUID) (convoType : String) (name : Option String) (participantIDs : List UUID) :
    Except Error CreateResult × σ :=
  let convo : Conversation :=
    { ID := uuidNew 0, Typ := convoType, Name := name, CreatedBy := userID, CreatedAt := now,
      UpdatedAt := now }
  match convos.Create st convo with
  | .error err => (.error err, st)
  | .ok st1 =>
    let ownerParticipant : ConversationParticipant :=
      { ID := uuidNew 1, ConversationID := convo.ID, UserID := userID, Role := "owner",
        JoinedAt := now, LeftAt := none }
    match convos.AddParticipant st1 ownerParticipant with
    | .error err => (.error err, st1)
    | .ok st2 =>
      match createMembersLoop convos convo.ID now uuidNew 2 participantIDs st2
          [ownerParticipant] with
      | (.error err, st3) => (.error err, st3)
      | (.ok allParticipants, st3) =>
        (.ok { Conversation := convo, Participants := allParticipants, Existing := false }, st3)

/-- The method `ConversationService.Create`.  `ToLower` is `strings.ToLower`, `now` is
`time.Now().UTC()` and `uuidNew` gives the results of the calls of `uuid.New()`. -/
def ConversationService.Create (s : ConversationService σ) (st : σ) (ToLower : String → String)
    (now : Time) (uuidNew : Nat → UUID) (userID : UUID) (convoType : String)
    (name : Option String) (participantIDs : List UUID) : Except Error CreateResult × σ :=
  let convoType := TrimSpace (ToLower convoType)
  if convoType ≠ "direct" ∧ convoType ≠ "group" then
    (.error (.ValidationError "type" "must be 'direct' or 'group'"), st)
  else if convoType = "direct" then
    match participantIDs with
    | [other] =>
      if other = userID then
        (.error (.ValidationError "participant_ids"
          "cannot create a direct conversation with yourself"), st)
      else
        match s.convos.FindDirectBetween st userID other with
        | .ok existing =>
          let participants : List ConversationParticipant :=
            match s.convos.GetParticipants st existing.ID with
            | .ok ps => ps
            | .error _ => []
          (.ok { Conversation := existing, Participants := participants, Existing := true }, st)
        | .error err =>
          if !err.Is .ErrNotFound then (.error err, st)
          else createNew s.convos st now uuidNew userID convoType name participantIDs
    | _ =>
      (.error (.ValidationError "participant_ids"
        "direct conversations require exactly one other participant"), st)
  else if convoType = "group" ∧ participantIDs.length = 0 then
    (.error (.ValidationError "participant_ids"
      "group conversations require at least one other participant"), st)
  else createNew s.convos st now uuidNew userID convoType name participantIDs

/-- The method `ConversationService.List`.  It is declared after the other methods of
the service, whose signatures use the type of lists. -/
def ConversationService.List (s : ConversationService σ) (st : σ) (userID : UUID)
    (cursor : String) (limit : Int) : Except Error (Page ConversationSummary) :=
  let limit : Int := if limit ≤ 0 then 20 else limit
  let limit : Int := if limit > 100 then 100 else limit
  s.convos.ListByUser st userID cursor limit

/-- The services of the running program: both are built on the SQL repositories. -/
def sqlMessageService (k : Codec) (now : Time) (gen : Nat → UUID) : MessageService Db :=
  { messages := NewMessageRepo k now gen, convos := NewConversationRepo k now }

/-- The conversation service on the SQL repository. -/
def sqlConversationService (k : Codec) (now : Time) : ConversationService Db :=
  { convos := NewConversationRepo k now }

/-! ## internal/model: sessions and profile updates -/

/-- Row of `sessions` (`model.Session`). -/
structure Session where
  ID : UUID
  UserID : UUID
  RefreshTokenHash : String
  ExpiresAt : Time
  CreatedAt : Time
  RevokedAt : Option Time
  deriving DecidableEq, Repr

/-- The struct `model.UpdateProfileParams`. -/
structure UpdateProfileParams where
  DisplayName : Option String
  AvatarURL : Option String
  deriving DecidableEq, Repr

/-! ## internal/repo: the user and session interfaces -/

/-- The interface `repo.UserRepository`. -/
structure UserRepository (σ : Type) where
  Create : σ → User → Except Error σ
  GetByID : σ → UUID → Except Error User
  GetByEmail : σ → String → Except Error User
  Update : σ → UUID → UpdateProfileParams → Except Error (User × σ)
  Search : σ → String → String → Int → Except Error (Page UserSearchResult)

/-- The interface `repo.SessionRepository`. -/
structure SessionRepository (σ : Type) where
  Create : σ → Session → Except Error σ
  GetByToken : σ → String → Except Error Session
  Revoke : σ → UUID → Except Error σ
  RevokeAllForUser : σ → UUID → Except Error σ

/-! ## internal/service: users and authentication -/

/-- The struct `service.UserService`. -/
structure UserService (σ : Type) where
  repo : UserRepository σ

/-- The method `UserService.SearchUsers`. -/
def UserService.SearchUsers (s : UserService σ) (st : σ) (query : String) (cursor : String)
    (limit : Int) : Except Error (Page UserSearchResult) :=
  let query := TrimSpace query
  if query = "" then .error (.ValidationError "q" "search query must not be empty")
  else if len query > 100 then .error (.ValidationError "q" "search query too long")
  else
    let limit : Int := if limit ≤ 0 then 20 else limit
    let limit : Int := if limit > 100 then 100 else limit
    s.repo.Search st query cursor limit

/-- The struct `service.AuthConfig`; the expiries are `time.Duration` values, in
nanoseconds. -/
structure AuthConfig where
  JWTSecret : String
  AccessTokenExpiry : Int
  RefreshTokenExpiry : Int
  deriving DecidableEq, Repr

/-- The struct `service.AuthTokens`. -/
structure AuthTokens where
  AccessToken : String
  RefreshToken : String
  ExpiresIn : Int
  deriving DecidableEq, Repr

/-- The struct `service.AuthResult`. -/
structure AuthResult where
  User : User
  Tokens : AuthTokens
  deriving DecidableEq, Repr

/-- The library functions the authentication service calls: `strings.ToLower`,
`bcrypt.GenerateFromPassword` and `bcrypt.CompareHashAndPassword` (`true` when it returns
no error), the signing of the access token for a secret, a subject and the instants of
issue and expiry, `sha256.Sum256` and `hex.EncodeToString`. -/
structure AuthLib where
  ToLower : String → String
  GenerateFromPassword : String → Option String
  CompareHashAndPassword : String → String → Bool
  SignedString : String → UUID → Time → Time → Option String
  Sum256 : String → List Nat
  EncodeToString : List Nat → String

/-- The struct `service.AuthService`. -/
structure AuthService (σ : Type) where
  users : UserRepository σ
  sessions : SessionRepository σ
  config : AuthConfig

/-- The constructor `NewAuthService`, with its default expiries of 15 minutes and 7 days. -/
def NewAuthService (users : UserRepository σ) (sessions : SessionRepository σ)
    (config : AuthConfig) : AuthService σ :=
  let config : AuthConfig :=
    if config.AccessTokenExpiry = 0 then
      { config with AccessTokenExpiry := 15 * 60 * 1000000000 }
    else config
  let config : AuthConfig :=
    if config.RefreshTokenExpiry = 0 then
      { config with RefreshTokenExpiry := 7 * 24 * 3600 * 1000000000 }
    else config
  { users := users, sessions := sessions, config := config }

/-- The function `hashToken`. -/
def hashToken (lib : AuthLib) (token : String) : String :=
  lib.EncodeToString (lib.Sum256 token)

/-- The method `AuthService.issueTokens`.  `now` is its `time.Now().UTC()`, `rand` the
32 bytes read by `rand.Read` (`none` when it fails) and `sessionID` its `uuid.New()`. -/
def AuthService.issueTokens (s : AuthService σ) (lib : AuthLib) (st : σ) (now : Time)
    (rand : Option (List Nat)) (sessionID : UUID) (userID : UUID) :
    Except Error AuthTokens × σ :=
  match lib.SignedString s.config.JWTSecret userID now (now + s.config.AccessTokenExpiry) with
  | none => (.error (.Wrapped "auth: sign access token"), st)
  | some accessToken =>
    match rand with
    | none => (.error (.Wrapped "auth: generate refresh token"), st)
    | some refreshBytes =>
      let refreshToken := lib.EncodeToString refreshBytes
      let session : Session :=
        { ID := sessionID, UserID := userID, RefreshTokenHash := hashToken lib refreshToken,
          ExpiresAt := now + s.config.RefreshTokenExpiry, CreatedAt := now, RevokedAt := none }
      match s.sessions.Create st session with
      | .error err => (.error err, st)
      | .ok st1 =>
        (.ok { AccessToken := accessToken, RefreshToken := refreshToken,
               ExpiresIn := s.config.AccessTokenExpiry.tdiv 1000000000 }, st1)

/-- The method `AuthService.Register`.  `now 0` is its `time.Now().UTC()` and `now 1`
the one of `issueTokens`; `uuidNew 0` is the id of the user and `uuidNew 1` the id of the
session. -/
def AuthService.Register (s : AuthService σ) (lib : AuthLib) (st : σ) (now : Nat → Time)
    (rand : Option (List Nat)) (uuidNew : Nat → UUID) (email password displayName : String) :
    Except Error AuthResult × σ :=
  let email := TrimSpace (lib.ToLower email)
  let displayName := TrimSpace displayName
  if email = "" then (.error (.ValidationError "email" "must not be empty"), st)
  else if password = "" then (.error (.ValidationError "password" "must not be empty"), st)
  else if len password < 8 then
    (.error (.ValidationError "password" "must be at least 8 characters"), st)
  else if displayName = "" then
    (.error (.ValidationError "display_name" "must not be empty"), st)
  else
    match lib.GenerateFromPassword password with
    | none => (.error (.Wrapped "auth: hash password"), st)
    | some hash =>
      let user : User :=
        { ID := uuidNew 0, Email := email, PasswordHash := hash, DisplayName := displayName,
          AvatarURL := none, Status := "offline", CreatedAt := now 0, UpdatedAt := now 0 }
      match s.users.Create st user with
      | .error err => (.error err, st)
      | .ok st1 =>
        match s.issueTokens lib st1 (now 1) rand (uuidNew 1) user.ID with
        | (.error err, st2) => (.error err, st2)
        | (.ok tokens, st2) => (.ok { User := user, Tokens := tokens }, st2)

/-- The method `AuthService.Login`.  `now` is the `time.Now().UTC()` of `issueTokens`
and `sessionID` its `uuid.New()`. -/
def AuthService.Login (s : AuthService σ) (lib : AuthLib) (st : σ) (now : Time)
    (rand : Option (List Nat)) (sessionID : UUID) (email password : String) :
    Except Error AuthResult × σ :=
  let email := TrimSpace (lib.ToLower email)
  if email = "" then (.error (.ValidationError "email" "must not be empty"), st)
  else if password = "" then (.error (.ValidationError "password" "must not be empty"), st)
  else
    match s.users.GetByEmail st email with
    | .error err => (.error err, st)
    | .ok user =>
      if !lib.CompareHashAndPassword user.PasswordHash password then (.error .ErrNotFound, st)
      else
        match s.issueTokens lib st now rand sessionID user.ID with
        | (.error err, st1) => (.error err, st1)
        | (.ok tokens, st1) => (.ok { User := user, Tokens := tokens }, st1)

/-! ## internal/service: the repositories of the tests -/

/-- The state of `mockUserRepo` and `mockSessionRepo` of `auth_test.go`.  `users` holds
the user objects in the order of their creation: `byEmail` points to the object with an
email (there is at most one, since `Create` refuses a known email) and `byID` to the last
object created with an id.  `sessions` is the slice of `mockSessionRepo`. -/
structure MockStore where
  users : List User
  sessions : List Session
  deriving DecidableEq, Repr

/-- Apply `f` to the first element of the list that satisfies `p`. -/
def updateFirst {α : Type} (p : α → Bool) (f : α → α) : List α → List α
  | [] => []
  | a :: rest => if p a then f a :: rest else a :: updateFirst p f rest

namespace mockUserRepo

/-- The method `mockUserRepo.Create`. -/
def Create (st : MockStore) (user : User) : Except Error MockStore :=
  if st.users.any fun u => decide (u.Email = user.Email) then .error .ErrConflict
  else .ok { st with users := st.users ++ [user] }

/-- The method `mockUserRepo.GetByID`. -/
def GetByID (st : MockStore) (id : UUID) : Except Error User :=
  match st.users.reverse.find? fun u => decide (u.ID = id) with
  | none => .error .ErrNotFound
  | some u => .ok u

/-- The method `mockUserRepo.GetByEmail`. -/
def GetByEmail (st : MockStore) (email : String) : Except Error User :=
  match st.users.find? fun u => decide (u.Email = email) with
  | none => .error .ErrNotFound
  | some u => .ok u

/-- The change `mockUserRepo.Update` makes to the user object. -/
def apply (now : Time) (params : UpdateProfileParams) (u : User) : User :=
  let u : User :=
    match params.DisplayName with
    | some name => { u with DisplayName := name }
    | none => u
  let u : User :=
    match params.AvatarURL with
    | some url => { u with AvatarURL := some url }
    | none => u
  { u with UpdatedAt := now }

/-- The method `mockUserRepo.Update`; `now` is its `time.Now().UTC()`. -/
def Update (now : Time) (st : MockStore) (id : UUID) (params : UpdateProfileParams) :
    Except Error (User × MockStore) :=
  match st.users.reverse.find? fun u => decide (u.ID = id) with
  | none => .error .ErrNotFound
  | some u =>
    let users :=
      (updateFirst (fun u => decide (u.ID = id)) (apply now params) st.users.reverse).reverse
    .ok (apply now params u, { st with users := users })

/-- The method `mockUserRepo.Search`. -/
def Search (_st : MockStore) (_query _cursor : String) (_limit : Int) :
    Except Error (Page UserSearchResult) :=
  .ok { Items := [], NextCursor := none, HasMore := false }

end mockUserRepo

namespace mockSessionRepo

/-- The method `mockSessionRepo.Create`. -/
def Create (st : MockStore) (session : Session) : Except Error MockStore :=
  .ok { st with sessions := st.sessions ++ [session] }

/-- The method `mockSessionRepo.GetByToken`. -/
def GetByToken (st : MockStore) (tokenHash : String) : Except Error Session :=
  match st.sessions.find? fun s =>
      decide (s.RefreshTokenHash = tokenHash) && s.RevokedAt.isNone with
  | none => .error .ErrNotFound
  | some s => .ok s

/-- The method `mockSessionRepo.Revoke`; `now` is its `time.Now().UTC()`. -/
def Revoke (now : Time) (st : MockStore) (id : UUID) : Except Error MockStore :=
  if st.sessions.any fun s => decide (s.ID = id) && s.RevokedAt.isNone then
    let sessions := updateFirst (fun s => decide (s.ID = id) && s.RevokedAt.isNone)
      (fun s => { s with RevokedAt := some now }) st.sessions
    .ok { st with sessions := sessions }
  else .error .ErrNotFound

/-- The method `mockSessionRepo.RevokeAllForUser`; `now` is its `time.Now().UTC()`. -/
def RevokeAllForUser (now : Time) (st : MockStore) (userID : UUID) : Except Error MockStore :=
  let sessions := st.sessions.map fun s =>
    if s.UserID = userID ∧ s.RevokedAt.isNone then { s with RevokedAt := some now } else s
  .ok { st with sessions := sessions }

end mockSessionRepo

/-- The constructor `newMockUserRepo`, as an implementation of the interface. -/
def newMockUserRepo (now : Time) : UserRepository MockStore where
  Create := mockUserRepo.Create
  GetByID := mockUserRepo.GetByID
  GetByEmail := mockUserRepo.GetByEmail
  Update := mockUserRepo.Update now
  Search := mockUserRepo.Search

/-- The constructor `newMockSessionRepo`, as an implementation of the interface. -/
def newMockSessionRepo (now : Time) : SessionRepository MockStore where
  Create := mockSessionRepo.Create
  GetByToken := mockSessionRepo.GetByToken
  Revoke := mockSessionRepo.Revoke now
  RevokeAllForUser := mockSessionRepo.RevokeAllForUser now

/-- The function `testAuthConfig`. -/
def testAuthConfig : AuthConfig :=
  { JWTSecret := "test-secret", AccessTokenExpiry := 15 * 60 * 1000000000,
    RefreshTokenExpiry := 7 * 24 * 3600 * 1000000000 }

/-! ## internal/infra: the connection hub -/

/-- The struct `infra.Event`; `Typ` is the field `Type`, `Data` the raw JSON text. -/
structure Event where
  Typ : String
  Data : String
  deriving DecidableEq, Repr

/-- A `*infra.Client`: the identity `ptr` of the pointer and the field `UserID`.  The
socket `Conn` is not part of the state; the channel `Send` of a client is kept in the
state of the hub. -/
structure Client where
  ptr : Nat
  UserID : UUID
  deriving DecidableEq, Repr

/-- The run-time panics of Go channel operations. -/
inductive Panic where
  | sendOnClosedChannel
  | closeOfClosedChannel
  deriving DecidableEq, Repr

/-- A Go channel `chan []byte`: the frames in its buffer, oldest first, the capacity it
was made with, and whether it was closed. -/
structure Chan where
  buf : List String
  cap : Nat
  closed : Bool
  deriving DecidableEq, Repr

/-- The channel after the frame `data` was put into its buffer. -/
def Chan.push (ch : Chan) (data : String) : Chan :=
  { ch with buf := ch.buf ++ [data] }

/-- The statement `select { case ch <- data: default: }` with no receiver waiting: the
frame is put into the buffer if there is room and is dropped otherwise; on a closed
channel the send panics. -/
def Chan.trySend (ch : Chan) (data : String) : Except Panic Chan :=
  if ch.closed then .error .sendOnClosedChannel
  else if ch.buf.length < ch.cap then .ok (ch.push data)
  else .ok ch

/-- The built-in `close(ch)`: closing a closed channel panics. -/
def Chan.close (ch : Chan) : Except Panic Chan :=
  if ch.closed then .error .closeOfClosedChannel
  else .ok { ch with closed := true }

/-- The state the hub works on: the field `clients` of `infra.Hub`, a map from user ids
to sets of clients (a set is the list of its members, in some order, without
repetition), and the state of the channel `Send` of every client. -/
structure Hub where
  clients : UUID → Option (List Client)
  Send : Client → Chan

/-- The constructor `NewHub`: no client is registered.  The channel of a client is the
one `upgradeConnection` makes for it with `make(chan []byte, 256)`. -/
def NewHub : Hub :=
  { clients := fun _ => none, Send := fun _ => { buf := [], cap := 256, closed := false } }

/-- The values sent on the channels `register` and `unregister` of the hub by the methods
`Hub.Register` and `Hub.Unregister`. -/
inductive HubMsg where
  | register (client : Client)
  | unregister (client : Client)
  deriving DecidableEq, Repr

/-- One iteration of the loop of `Hub.Run`, for the value it receives. -/
def Hub.step (h : Hub) : HubMsg → Except Panic Hub
  | .register client =>
    let conns : List Client :=
      match h.clients client.UserID with
      | none => []
      | some conns => conns
    let conns := if client ∈ conns then conns else conns ++ [client]
    .ok { h with clients := fun u => if u = client.UserID then some conns else h.clients u }
  | .unregister client =>
    match h.clients client.UserID with
    | none => .ok h
    | some conns =>
      if client ∈ conns then
        let conns := conns.erase client
        match (h.Send client).close with
        | .error p => .error p
        | .ok ch =>
          .ok { clients := fun u =>
                  if u = client.UserID then (if conns.length = 0 then none else some conns)
                  else h.clients u
                Send := fun c => if c = client then ch else h.Send c }
      else .ok h

/-- The loop of `Hub.Run` over the values it receives, in order. -/
def Hub.Run (h : Hub) : List HubMsg → Except Panic Hub
  | [] => .ok h
  | m :: rest =>
    match h.step m with
    | .error p => .error p
    | .ok h1 => h1.Run rest

/-- The inner loop of `SendToUsers` over the clients of one user. -/
def sendToConns (data : String) : List Client → (Client → Chan) → Except Panic (Client → Chan)
  | [], send => .ok send
  | client :: rest, send =>
    match (send client).trySend data with
    | .error p => .error p
    | .ok ch => sendToConns data rest fun c => if c = client then ch else send c

/-- The outer loop of `SendToUsers` over the user ids. -/
def sendToUserIDs (clients : UUID → Option (List Client)) (data : String) :
    List UUID → (Client → Chan) → Except Panic (Client → Chan)
  | [], send => .ok send
  | uid :: rest, send =>
    match clients uid with
    | none => sendToUserIDs clients data rest send
    | some conns =>
      match sendToConns data conns send with
      | .error p => .error p
      | .ok send1 => sendToUserIDs clients data rest send1

/-- The method `Hub.SendToUsers`; `marshal` is `json.Marshal` on events (`none` when it
returns an error). -/
def Hub.SendToUsers (marshal : Event → Option String) (h : Hub) (userIDs : List UUID)
    (event : Event) : Except Panic Hub :=
  match marshal event with
  | none => .ok h
  | some data =>
    match sendToUserIDs h.clients data userIDs h.Send with
    | .error p => .error p
    | .ok send => .ok { h with Send := send }

/-! ## internal/handler: sending a message -/

/-- The struct `dto.MessageResponse`. -/
structure MessageResponse where
  ID : UUID
  ConversationID : UUID
  SenderID : UUID
  Body : String
  Status : String
  CreatedAt : Time
  deriving DecidableEq, Repr

/-- The function `toMessageResponse`. -/
def toMessageResponse (m : Message) : MessageResponse :=
  { ID := m.ID, ConversationID := m.ConversationID, SenderID := m.SenderID, Body := m.Body,
    Status := m.Status, CreatedAt := m.CreatedAt }

/-- The struct `handler.ErrorDetail`. -/
structure ErrorDetail where
  Code : String
  Message : String
  deriving DecidableEq, Repr

/-- What a handler writes: the status and the JSON value of `writeJSON`. -/
inductive Response where
  | errorBody (status : Nat) (detail : ErrorDetail)
  | message (status : Nat) (msg : MessageResponse)
  deriving DecidableEq, Repr

/-- The function `writeError`. -/
def writeError : Error → Response
  | .ValidationError field message =>
    .errorBody 422 { Code := "validation_error", Message := field ++ ": " ++ message }
  | .ErrNotFound => .errorBody 404 { Code := "not_found", Message := "resource not found" }
  | .ErrConflict => .errorBody 409 { Code := "conflict", Message := "resource already exists" }
  | _ => .errorBody 500 { Code := "internal_error", Message := "internal server error" }

/-- The two uses of `json.Marshal` on the send path: on an event and on a message
response (`none` when it returns an error). -/
structure Json where
  marshalEvent : Event → Option String
  marshalMessage : MessageResponse → Option String

/-- The struct `handler.MessageHandler`; its hub is the state of type `Hub` handed to
`broadcastMessage`. -/
structure MessageHandler (σ : Type) where
  messages : MessageService σ
  convos : ConversationService σ

/-- The arguments of a started `go h.broadcastMessage(ctx, userID, convoID, msg)`. -/
structure Broadcast where
  senderID : UUID
  convoID : UUID
  msg : Message
  deriving DecidableEq, Repr

/-- The method `MessageHandler.broadcastMessage`, run on the store `st` and the hub
`hub` it finds when it is scheduled.  The error of `json.Marshal` on the message is
dropped, which leaves `data` empty. -/
def MessageHandler.broadcastMessage (h : MessageHandler σ) (json : Json) (st : σ) (hub : Hub)
    (senderID convoID : UUID) (msg : Message) : Except Panic Hub :=
  match h.convos.GetByID st senderID convoID with
  | .error _ => .ok hub
  | .ok (_, participants) =>
    let recipientIDs := (participants.filter fun p => decide (p.UserID ≠ senderID)).map
      fun p => p.UserID
    if recipientIDs.length = 0 then .ok hub
    else
      let data : String := (json.marshalMessage (toMessageResponse msg)).getD ""
      hub.SendToUsers json.marshalEvent recipientIDs { Typ := "message", Data := data }

/-- The method `MessageHandler.Send`.  `userID` is `UserIDFromContext`, `idParam` the
result of `uuid.Parse` on the URL parameter and `body` the field `Body` of the request
decoded by `decodeJSON` (`none` when they fail); `now` and `newID` are the clock and the
`uuid.New()` of `MessageService.Send`.  The result is the response, the store, and the
`broadcastMessage` that was started, if any. -/
def MessageHandler.Send (h : MessageHandler σ) (st : σ) (now : Time) (newID : UUID)
    (userID : UUID) (idParam : Option UUID) (body : Option String) :
    Response × σ × Option Broadcast :=
  match idParam with
  | none =>
    (.errorBody 400 { Code := "bad_request", Message := "invalid conversation ID" }, st, none)
  | some convoID =>
    match body with
    | none =>
      (.errorBody 400 { Code := "bad_request", Message := "invalid request body" }, st, none)
    | some body =>
      match h.messages.Send st now newID userID convoID body with
      | (.error err, st1) => (writeError err, st1, none)
      | (.ok msg, st1) =>
        (.message 201 (toMessageResponse msg), st1,
          some { senderID := userID, convoID := convoID, msg := msg })

/-- The message handler of the running program, on the SQL repositories. -/
def sqlMessageHandler (k : Codec) (now : Time) (gen : Nat → UUID) : MessageHandler Db :=
  { messages := sqlMessageService k now gen, convos := sqlConversationService k now }

/-! ## A reference instance of the library codecs -/

namespace Ref

/-- The UTF-8 bytes of a character. -/
def utf8EncodeChar (c : Char) : List Nat :=
  let n := c.toNat
  if n < 0x80 then [n]
  else if n < 0x800 then [0xC0 + n / 64, 0x80 + n % 64]
  else if n < 0x10000 then [0xE0 + n / 4096, 0x80 + n / 64 % 64, 0x80 + n % 64]
  else [0xF0 + n / 262144, 0x80 + n / 4096 % 64, 0x80 + n / 64 % 64, 0x80 + n % 64]

/-- Read UTF-8 bytes back as characters; `none` on a malformed sequence. -/
def utf8Decode : List Nat → Option (List Char)
  | [] => some []
  | b0 :: rest =>
    if b0 < 0x80 then (utf8Decode rest).map (Char.ofNat b0 :: ·)
    else if b0 < 0xC0 then none
    else if b0 < 0xE0 then
      match rest with
      | b1 :: r1 => (utf8Decode r1).map (Char.ofNat ((b0 - 0xC0) * 64 + (b1 - 0x80)) :: ·)
      | _ => none
    else if b0 < 0xF0 then
      match rest with
      | b1 :: b2 :: r2 =>
        (utf8Decode r2).map
          (Char.ofNat ((b0 - 0xE0) * 4096 + (b1 - 0x80) * 64 + (b2 - 0x80)) :: ·)
      | _ => none
    else
      match rest with
      | b1 :: b2 :: b3 :: r3 =>
        (utf8Decode r3).map
          (Char.ofNat ((b0 - 0xF0) * 262144 + (b1 - 0x80) * 4096 + (b2 - 0x80) * 64 +
            (b3 - 0x80)) :: ·)
      | _ => none

/-- The URL-safe base64 alphabet. -/
def alphabet : List Char :=
  "ABCDEFGHIJKLMNOPQRSTUVWXYZabcdefghijklmnopqrstuvwxyz0123456789-_".data

/-- The character of a 6-bit value. -/
def sextetChar (n : Nat) : Char := alphabet.getD n 'A'

/-- The 6-bit value of a character of the alphabet. -/
def sextetVal (c : Char) : Option Nat :=
  let i := alphabet.indexOf c
  if i < 64 then some i else none

/-- Padded base64 of a list of bytes. -/
def encodeBytes : List Nat → List Char
  | [] => []
  | [a] => [sextetChar (a / 4), sextetChar (a % 4 * 16), '=', '=']
  | [a, b] => [sextetChar (a / 4), sextetChar (a % 4 * 16 + b / 16), sextetChar (b % 16 * 4), '=']
  | a :: b :: c :: rest =>
    sextetChar (a / 4) :: sextetChar (a % 4 * 16 + b / 16) ::
      sextetChar (b % 16 * 4 + c / 64) :: sextetChar (c % 64) :: encodeBytes rest

/-- Decode padded base64; `none` on a character outside the alphabet or a wrong length. -/
def decodeChars : List Char → Option (List Nat)
  | [] => some []
  | [c0, c1, '=', '='] =>
    match sextetVal c0, sextetVal c1 with
    | some v0, some v1 => some [v0 * 4 + v1 / 16]
    | _, _ => none
  | [c0, c1, c2, '='] =>
    match sextetVal c0, sextetVal c1, sextetVal c2 with
    | some v0, some v1, some v2 => some [v0 * 4 + v1 / 16, v1 % 16 * 16 + v2 / 4]
    | _, _, _ => none
  | c0 :: c1 :: c2 :: c3 :: rest =>
    match sextetVal c0, sextetVal c1, sextetVal c2, sextetVal c3, decodeChars rest with
    | some v0, some v1, some v2, some v3, some bs =>
      some ((v0 * 4 + v1 / 16) :: (v1 % 16 * 16 + v2 / 4) :: (v2 % 4 * 64 + v3) :: bs)
    | _, _, _, _, _ => none
  | _ => none

/-- Fixed-width decimal digits of `n`, most significant first. -/
def digits : Nat → Nat → List Char
  | 0, _ => []
  | w + 1, n => digits w (n / 10) ++ [Char.ofNat (48 + n % 10)]

/-- The number written by decimal digits; `none` on a character that is not a digit. -/
def number : List Char → Option Nat
  | cs => cs.foldl (fun acc c =>
      match acc with
      | none => none
      | some n => if '0' ≤ c ∧ c ≤ '9' then some (n * 10 + (c.toNat - 48)) else none) (some 0)

/-- Civil date (year, month, day) of a day count from 0001-01-01. -/
def civil (d : Nat) : Nat × Nat × Nat :=
  let z := d + 306
  let era := z / 146097
  let doe := z % 146097
  let yoe := (doe - doe / 1460 + doe / 36524 - doe / 146096) / 365
  let doy := doe - (365 * yoe + yoe / 4 - yoe / 100)
  let mp := (5 * doy + 2) / 153
  let day := doy - (153 * mp + 2) / 5 + 1
  let month := if mp < 10 then mp + 3 else mp - 9
  let year := yoe + era * 400 + (if month ≤ 2 then 1 else 0)
  (year, month, day)

/-- Day count from 0001-01-01 of a civil date. -/
def dayCount (y m d : Nat) : Option Nat :=
  if m < 1 ∨ 12 < m ∨ d < 1 ∨ 31 < d ∨ y < 1 then none
  else
    let y1 := if m ≤ 2 then y - 1 else y
    let era := y1 / 400
    let yoe := y1 % 400
    let doy := (153 * (if m > 2 then m - 3 else m + 9) + 2) / 5 + d - 1
    let doe := yoe * 365 + yoe / 4 - yoe / 100 + doy
    some (era * 146097 + doe - 306)

/-- Drop trailing zeros. -/
def dropZeros (cs : List Char) : List Char := (cs.reverse.dropWhile (· = '0')).reverse

/-- RFC 3339 text of an instant, in UTC with up to nine fractional digits. -/
def formatTime (t : Time) : String :=
  if t < 0 then String.mk ('-' :: digits 19 t.natAbs)
  else
    let n := t.toNat
    let secs := n / 1000000000
    let nanos := n % 1000000000
    let (y, m, d) := civil (secs / 86400)
    let sod := secs % 86400
    let year := if y < 10000 then digits 4 y else digits 5 y
    let frac := if nanos = 0 then [] else '.' :: dropZeros (digits 9 nanos)
    String.mk (year ++ '-' :: digits 2 m ++ '-' :: digits 2 d ++ 'T' :: digits 2 (sod / 3600) ++
      ':' :: digits 2 (sod / 60 % 60) ++ ':' :: digits 2 (sod % 60) ++ frac ++ ['Z'])

/-- Pad a fraction to nine digits. -/
def padNine (cs : List Char) : List Char := cs ++ List.replicate (9 - cs.length) '0'

/-- Parse the UTC form `YYYY-MM-DDTHH:MM:SS[.f]Z`. -/
def parseTime (s : String) : Option Time :=
  match s.data with
  | y0 :: y1 :: y2 :: y3 :: '-' :: m0 :: m1 :: '-' :: d0 :: d1 :: 'T' :: h0 :: h1 :: ':' ::
      i0 :: i1 :: ':' :: s0 :: s1 :: rest =>
    let frac : Option Nat :=
      match rest with
      | ['Z'] => some 0
      | '.' :: f =>
        match f.reverse with
        | 'Z' :: fr => if fr.length = 0 ∨ 9 < fr.length then none else number (padNine fr.reverse)
        | _ => none
      | _ => none
    match number [y0, y1, y2, y3], number [m0, m1], number [d0, d1], number [h0, h1],
      number [i0, i1], number [s0, s1], frac with
    | some y, some m, some d, some h, some i, some sec, some ns =>
      if 24 ≤ h ∨ 60 ≤ i ∨ 60 ≤ sec then none
      else
        match dayCount y m d with
        | none => none
        | some days =>
          some (((days * 86400 + h * 3600 + i * 60 + sec) * 1000000000 + ns : Nat) : Int)
    | _, _, _, _, _, _, _ => none
  | _ => none

/-- Hexadecimal digit of a value below 16. -/
def hexChar (n : Nat) : Char := if n < 10 then Char.ofNat (48 + n) else Char.ofNat (87 + n)

/-- Value of a hexadecimal digit. -/
def hexVal (c : Char) : Option Nat :=
  if '0' ≤ c ∧ c ≤ '9' then some (c.toNat - 48)
  else if 'a' ≤ c ∧ c ≤ 'f' then some (c.toNat - 87)
  else if 'A' ≤ c ∧ c ≤ 'F' then some (c.toNat - 55)
  else none

/-- Fixed-width hexadecimal digits of `n`, most significant first. -/
def hexDigits : Nat → Nat → List Char
  | 0, _ => []
  | w + 1, n => hexDigits w (n / 16) ++ [hexChar (n % 16)]

/-- The number written by hexadecimal digits. -/
def hexNumber (cs : List Char) : Option Nat :=
  cs.foldl (fun acc c =>
    match acc, hexVal c with
    | some n, some v => some (n * 16 + v)
    | _, _ => none) (some 0)

/-- The canonical text `xxxxxxxx-xxxx-xxxx-xxxx-xxxxxxxxxxxx` of a UUID. -/
def uuidString (id : UUID) : String :=
  let h := hexDigits 32 id
  String.mk (h.take 8 ++ '-' :: (h.drop 8).take 4 ++ '-' :: (h.drop 12).take 4 ++ '-' ::
    (h.drop 16).take 4 ++ '-' :: h.drop 20)

/-- Parse the canonical 36-character text of a UUID. -/
def uuidParse (s : String) : Option UUID :=
  let cs := s.data
  if cs.length = 36 ∧ cs.get? 8 = some '-' ∧ cs.get? 13 = some '-' ∧ cs.get? 18 = some '-' ∧
      cs.get? 23 = some '-' then
    hexNumber (cs.take 8 ++ (cs.drop 9).take 4 ++ (cs.drop 14).take 4 ++ (cs.drop 19).take 4 ++
      cs.drop 24)
  else none

end Ref

/-- A reference instance of the library codecs, used to run the cursor code on concrete
stores: padded URL-safe base64 of the UTF-8 bytes (the decoder skips CR and LF, as Go's
does), RFC 3339 text in UTC with the fractional second trimmed (instants of the years
1 to 9999 survive the round trip, as in Go), and the canonical text of a UUID.  The
parsers accept the forms the formatters produce. -/
def refCodec : Codec where
  base64Encode := fun s => String.mk (Ref.encodeBytes (s.data.flatMap Ref.utf8EncodeChar))
  base64Decode := fun s =>
    match Ref.decodeChars (s.data.filter fun c => c.toNat ≠ 13 ∧ c.toNat ≠ 10) with
    | none => none
    | some bs => (Ref.utf8Decode bs).map String.mk
  formatTime := Ref.formatTime
  parseTime := Ref.parseTime
  uuidString := Ref.uuidString
  uuidParse := Ref.uuidParse

/-! ## Definitions used to state the properties -/

/-- The validation of `Send` accepts `body`: it is not empty after trimming and has at
most 10000 bytes. -/
def bodyAccepted (body : String) : Prop := TrimSpace body ≠ "" ∧ len (TrimSpace body) ≤ 10000

instance (body : String) : Decidable (bodyAccepted body) :=
  inferInstanceAs (Decidable (_ ∧ _))

/-- The user ids of the active participants of a conversation, in table order, with
the sender removed: the recipients the specification gives a sent message. -/
def otherActiveUsers (db : Db) (conversationID senderID : UUID) : List UUID :=
  ((db.conversation_participants.filter fun p =>
    decide (p.ConversationID = conversationID) && p.LeftAt.isNone).map fun p => p.UserID).filter
      fun u => decide (u ≠ senderID)

/-- The messages of a conversation, in table order. -/
def conversationMessages (db : Db) (conversationID : UUID) : List Message :=
  db.messages.filter fun m => decide (m.ConversationID = conversationID)

/-- A client that pages through the history of a conversation: it calls
`ListByConversation` with `cursor`, and while the page has `HasMore` it calls again with
the page's `NextCursor`.  The result is the list of the pages' items; it is `none` when a
call fails, when a page with `HasMore` carries no cursor, or when `fuel` calls did not
reach the last page. -/
def historyWalk (k : Codec) (db : Db) (conversationID : UUID) (limit : Int) :
    Nat → String → Option (List (List Message))
  | 0, _ => none
  | fuel + 1, cursor =>
    match messageRepo.ListByConversation k db conversationID cursor limit with
    | .error _ => none
    | .ok page =>
      if page.HasMore then
        match page.NextCursor with
        | none => none
        | some next => (historyWalk k db conversationID limit fuel next).map (page.Items :: ·)
      else some [page.Items]

/-- The cursors of the messages of a conversation survive the library codecs: the
cursor built from a stored row is not the empty string and decodes to the row's
timestamp and id. -/
def cursorsRoundTrip (k : Codec) (db : Db) (conversationID : UUID) : Prop :=
  ∀ m ∈ conversationMessages db conversationID,
    encodeTimeCursor k m.CreatedAt m.ID ≠ "" ∧
      decodeTimeCursor k (encodeTimeCursor k m.CreatedAt m.ID) = .ok (m.CreatedAt, m.ID)

instance (k : Codec) (db : Db) (conversationID : UUID) :
    Decidable (cursorsRoundTrip k db conversationID) :=
  inferInstanceAs (Decidable (∀ m ∈ conversationMessages db conversationID, _ ∧ _))

/-- The page size `ListByConversation` works with: the limit, or 50 when the limit is
not in 1..100. -/
def pageSize (limit : Int) : Nat :=
  (if limit ≤ 0 ∨ limit > 100 then (50 : Int) else limit).toNat

/-- The rows the query of `ListByConversation` selects, in its order, before `LIMIT`. -/
def selectedRows (db : Db) (conversationID : UUID) (cur : Option (Time × UUID)) :
    List Message :=
  (db.messages.filter fun m =>
    decide (m.ConversationID = conversationID) &&
      match cur with
      | none => true
      | some cu => rowLt m.key cu).insertionSort msgDesc

/-- The page `ListByConversation` builds when the query without `LIMIT` would return
`rows`: the first `n` rows, `HasMore` when there are more than `n`, and then the cursor
of the last row of the page. -/
def pageOf (k : Codec) (n : Nat) (rows : List Message) : Page Message :=
  let results := rows.take n
  let hasMore := decide (n < rows.length)
  { Items := results
    NextCursor :=
      if hasMore = true ∧ results.length > 0 then
        match results.getLast? with
        | none => none
        | some last => some (encodeTimeCursor k last.CreatedAt last.ID)
      else none
    HasMore := hasMore }

/-- Row `a` comes strictly before row `b` in `ORDER BY created_at DESC, id DESC`. -/
def msgBefore (a b : Message) : Prop := rowLt b.key a.key = true

instance : DecidableRel msgBefore := fun a b => inferInstanceAs (Decidable (rowLt b.key a.key = true))

instance : IsTotal Message msgDesc where
  total a b := by
    have hiff : ∀ x y : Int × Nat, rowLt x y = true ↔ x.1 < y.1 ∨ (x.1 = y.1 ∧ x.2 < y.2) := by
      intro x y; simp [rowLt]
    have h : ∀ x y : Int × Nat, rowLt x y = false ∨ rowLt y x = false := by
      intro x y
      rw [← Bool.not_eq_true, ← Bool.not_eq_true, hiff, hiff]
      omega
    exact h a.key b.key

instance : IsTrans Message msgDesc where
  trans a b c := by
    have hiff : ∀ x y : Int × Nat, rowLt x y = true ↔ x.1 < y.1 ∨ (x.1 = y.1 ∧ x.2 < y.2) := by
      intro x y; simp [rowLt]
    have h : ∀ x y z : Int × Nat, rowLt x y = false → rowLt y z = false → rowLt x z = false := by
      intro x y z
      rw [← Bool.not_eq_true, ← Bool.not_eq_true, ← Bool.not_eq_true, hiff, hiff, hiff]
      omega
    exact h a.key b.key c.key

instance : IsAntisymm Message msgBefore where
  antisymm a b := by
    have hiff : ∀ x y : Int × Nat, rowLt x y = true ↔ x.1 < y.1 ∨ (x.1 = y.1 ∧ x.2 < y.2) := by
      intro x y; simp [rowLt]
    have h : ∀ x y : Int × Nat, rowLt y x = true → rowLt x y = true → False := by
      intro x y
      rw [hiff, hiff]
      omega
    exact fun h1 h2 => (h a.key b.key h1 h2).elim

/-- The cursor clause of `ListByConversation` and `ListByUser`: no bound for the empty
cursor, the decoded bound for a cursor that decodes, and the "cursor" validation error
otherwise. -/
def timeCursorOf (k : Codec) (cursor : String) : Except Error (Option (Time × UUID)) :=
  if cursor ≠ "" then
    match decodeTimeCursor k cursor with
    | .error _ => .error (.ValidationError "cursor" "invalid cursor")
    | .ok c => .ok (some c)
  else .ok none

/-- The cursor clause of `Search`. -/
def nameCursorOf (k : Codec) (cursor : String) : Except Error (Option (String × UUID)) :=
  if cursor ≠ "" then
    match decodeCursor k cursor with
    | .error _ => .error (.ValidationError "cursor" "invalid cursor")
    | .ok c => .ok (some c)
  else .ok none

/-- The page size `ListByUser` and `Search` work with: the limit, or 20 when the limit
is not in 1..100. -/
def pageSize20 (limit : Int) : Nat :=
  (if limit ≤ 0 ∨ limit > 100 then (20 : Int) else limit).toNat

/-- The list item `ListByUser` scans from a row of its query. -/
def summaryOf (c : Conversation) : ConversationSummary :=
  { ID := c.ID, Typ := c.Typ, Name := c.Name }

/-- The list item `Search` scans from a row of its query. -/
def searchResultOf (u : User) : UserSearchResult :=
  { ID := u.ID, DisplayName := u.DisplayName, AvatarURL := u.AvatarURL }

/-- The rows the query of `ListByUser` selects, in its order, before `LIMIT`. -/
def selectedConversations (db : Db) (userID : UUID) (cur : Option (Time × UUID)) :
    List Conversation :=
  ((conversationRepo.joinRows db userID).filter fun c =>
    match cur with
    | none => true
    | some cu => rowLt c.key cu).insertionSort convDesc

/-- The rows the query of `Search` selects, in its order, before `LIMIT`. -/
def selectedUsers (q : SqlText) (db : Db) (query : String) (cur : Option (String × UUID)) :
    List User :=
  (db.users.filter fun u =>
    q.ilike u.DisplayName (query ++ "%") &&
      match cur with
      | none => true
      | some cu => userRowGt q u.key cu).insertionSort (userAsc q)

/-- The page a list query builds when its query without `LIMIT` would return the items
`rows`: the first `n` of them, `HasMore` when there are more than `n`, and then the
cursor `cursorOf` of the last item of the page. -/
def pageFrom {β : Type} (n : Nat) (rows : List β) (cursorOf : β → String) : Page β :=
  let results := rows.take n
  let hasMore := decide (n < rows.length)
  { Items := results
    NextCursor :=
      if hasMore = true ∧ results.length > 0 then
        match results.getLast? with
        | none => none
        | some last => some (cursorOf last)
      else none
    HasMore := hasMore }

/-- The `updated_at` that `ListByUser` fetches again for the cursor of item `last`. -/
def refetchedUpdatedAt (db : Db) (last : ConversationSummary) : Time :=
  match db.conversations.find? fun c => decide (c.ID = last.ID) with
  | none => 0
  | some c => c.UpdatedAt

/-- Conversation `c` is a direct conversation in which `a` and `b` are both active: the
condition of the query of `FindDirectBetween`. -/
def directBetween (db : Db) (a b : UUID) (c : Conversation) : Bool :=
  decide (c.Typ = "direct") &&
    db.conversation_participants.any (activeRow c.ID a) &&
    db.conversation_participants.any (activeRow c.ID b)

/-- At most one conversation of the store is a direct conversation in which `a` and `b`
are both active. -/
def atMostOneDirect (db : Db) (a b : UUID) : Prop :=
  ∀ c1 ∈ db.conversations, ∀ c2 ∈ db.conversations,
    directBetween db a b c1 = true → directBetween db a b c2 = true → c1 = c2

instance (db : Db) (a b : UUID) : Decidable (atMostOneDirect db a b) :=
  inferInstanceAs (Decidable (∀ c1 ∈ db.conversations, ∀ c2 ∈ db.conversations, _ → _ → _))

/-- A time cursor is malformed, in the words of the specification: it is not valid
base64, or the decoded text has no separator, or the part after the first separator is
not a UUID, or the part before it is not a time. -/
def timeCursorMalformed (k : Codec) (cursor : String) : Prop :=
  match k.base64Decode cursor with
  | none => True
  | some raw =>
    match splitBar raw.data with
    | none => True
    | some (p0, p1) => k.uuidParse (String.mk p1) = none ∨ k.parseTime (String.mk p0) = none

/-- A name cursor is malformed: it is not valid base64, or the decoded text has no
separator, or the part after the first separator is not a UUID. -/
def nameCursorMalformed (k : Codec) (cursor : String) : Prop :=
  match k.base64Decode cursor with
  | none => True
  | some raw =>
    match splitBar raw.data with
    | none => True
    | some (_, p1) => k.uuidParse (String.mk p1) = none

/-! ## Definitions used to state the properties of the hub and of the services -/

/-- The number of active participant rows of user `u` in conversation `c` among `rows`. -/
def activeCount (rows : List ConversationParticipant) (c u : UUID) : Nat :=
  rows.countP (activeRow c u)

/-- The results of `uuid.New()` from the `i`-th on are not ids of the participant rows
`rows`. -/
def freshFrom (uuidNew : Nat → UUID) (i : Nat) (rows : List ConversationParticipant) : Prop :=
  ∀ j, i ≤ j → ∀ q ∈ rows, q.ID ≠ uuidNew j

/-- The member rows that the loop of `Create` builds for the ids `ids`, the first with
the `uuid.New()` number `i`. -/
def memberRows (conversationID : UUID) (now : Time) (uuidNew : Nat → UUID) :
    Nat → List UUID → List ConversationParticipant
  | _, [] => []
  | i, pid :: rest =>
    { ID := uuidNew i, ConversationID := conversationID, UserID := pid, Role := "member",
      JoinedAt := now, LeftAt := none } :: memberRows conversationID now uuidNew (i + 1) rest

/-- The limit a service hands to its repository, in the words of the specification: the
requested limit when it is in 1..100, the default when the request is not positive, and
100 when the request is above 100. -/
def serviceLimit (dflt limit : Int) : Int :=
  if limit ≤ 0 then dflt else if limit > 100 then 100 else limit

/-- Client `c` is in the registry: it is a member of the set of its user. -/
def Hub.registered (h : Hub) (c : Client) : Bool :=
  match h.clients c.UserID with
  | none => false
  | some conns => decide (c ∈ conns)

/-- The registry is well formed: the set of a user has no repeated member (it is a set),
holds only clients of that user, and the channel of every member is open. -/
def Hub.wellFormed (h : Hub) : Prop :=
  ∀ u conns, h.clients u = some conns →
    conns.Nodup ∧ ∀ c ∈ conns, c.UserID = u ∧ (h.Send c).closed = false

/-- The outbound queue of the client has room for a frame. -/
def Chan.hasRoom (ch : Chan) : Bool := decide (ch.buf.length < ch.cap)

/-- The states of a connection in section 4.4 of the specification. -/
inductive ConnState where
  | Connecting
  | Registered
  | Closed
  deriving DecidableEq, Repr

/-- The transitions of the state machine of the specification for connection `c`:
`Connecting → Registered` when it is registered, `Registered → Closed` when it is
unregistered; `Closed` is terminal. -/
def connStep (c : Client) : ConnState → HubMsg → ConnState
  | .Connecting, .register c1 => if c1 = c then .Registered else .Connecting
  | .Registered, .unregister c1 => if c1 = c then .Closed else .Registered
  | s, _ => s

/-- The state of connection `c` after the steps `steps`, by the specification. -/
def connState (steps : List HubMsg) (c : Client) : ConnState :=
  steps.foldl (connStep c) .Connecting

/-- The clients registered by the steps, in order. -/
def registrations : List HubMsg → List Client
  | [] => []
  | .register c :: rest => c :: registrations rest
  | .unregister _ :: rest => registrations rest

/-- The hub agrees with the states `m` of the connections: the registry holds exactly
the connections that are `Registered`, the closed queues are exactly those of the
connections that are `Closed`, and the set of a user is never empty, has no repeated
member and holds only clients of that user. -/
def Hub.agrees (h : Hub) (m : Client → ConnState) : Prop :=
  (∀ c, h.registered c = true ↔ m c = .Registered) ∧
  (∀ c, (h.Send c).closed = true ↔ m c = .Closed) ∧
  (∀ u conns, h.clients u = some conns →
    conns ≠ [] ∧ conns.Nodup ∧ ∀ c ∈ conns, c.UserID = u)

/-! ## A concrete store -/

/-- The instant 2025-11-29T08:00:00Z. -/
def t0 : Time := 63900000000000000000

/-- A store with users 1, 2, 3 (and an outsider 4): conversation 10 is a group owned by
user 1 with members 2 and 3, conversation 20 is a direct conversation of users 1 and 2.
Conversation 10 holds five messages, two of them with the same timestamp;
conversation 20 holds one. -/
def exampleDb : Db where
  conversations :=
    [ { ID := 10, Typ := "group", Name := some "team", CreatedBy := 1, CreatedAt := t0,
        UpdatedAt := t0 },
      { ID := 20, Typ := "direct", Name := none, CreatedBy := 1, CreatedAt := t0,
        UpdatedAt := t0 } ]
  conversation_participants :=
    [ { ID := 101, ConversationID := 10, UserID := 1, Role := "owner", JoinedAt := t0,
        LeftAt := none },
      { ID := 102, ConversationID := 10, UserID := 2, Role := "member", JoinedAt := t0,
        LeftAt := none },
      { ID := 103, ConversationID := 10, UserID := 3, Role := "member", JoinedAt := t0,
        LeftAt := none },
      { ID := 104, ConversationID := 20, UserID := 1, Role := "owner", JoinedAt := t0,
        LeftAt := none },
      { ID := 105, ConversationID := 20, UserID := 2, Role := "member", JoinedAt := t0,
        LeftAt := none } ]
  messages :=
    [ { ID := 501, ConversationID := 10, SenderID := 1, Body := "one", Status := "sent",
        CreatedAt := t0 + 1000, UpdatedAt := t0 + 1000 },
      { ID := 502, ConversationID := 10, SenderID := 2, Body := "two", Status := "sent",
        CreatedAt := t0 + 2000, UpdatedAt := t0 + 2000 },
      { ID := 506, ConversationID := 20, SenderID := 2, Body := "direct", Status := "sent",
        CreatedAt := t0 + 2500, UpdatedAt := t0 + 2500 },
      { ID := 504, ConversationID := 10, SenderID := 3, Body := "four", Status := "sent",
        CreatedAt := t0 + 3000, UpdatedAt := t0 + 3000 },
      { ID := 503, ConversationID := 10, SenderID := 1, Body := "three", Status := "sent",
        CreatedAt := t0 + 3000, UpdatedAt := t0 + 3000 },
      { ID := 505, ConversationID := 10, SenderID := 2, Body := "five", Status := "sent",
        CreatedAt := t0 + 5000, UpdatedAt := t0 + 5000 } ]
  message_deliveries := []

/-- The store with no rows. -/
def emptyDb : Db where
  conversations := []
  conversation_participants := []
  messages := []
  message_deliveries := []

/-- The message service on the SQL repositories with the reference codecs; the
database draws the ids 900, 901, ... for delivery rows. -/
def exampleMessages : MessageService Db := sqlMessageService refCodec (t0 + 9000) (fun i => 900 + i)

/-- The conversation service on the SQL repositories with the reference codecs. -/
def exampleConversations : ConversationService Db := sqlConversationService refCodec (t0 + 9000)

/-- A body of 5001 copies of the two-byte character U+00E9. -/
def accentedBody : String := String.mk (List.replicate 5001 (Char.ofNat 0xE9))

/-- The message user 1 sends to conversation 10 in the examples. -/
def helloMessage : Message :=
  { ID := 507, ConversationID := 10, SenderID := 1, Body := "Hello!", Status := "sent",
    CreatedAt := t0 + 9000, UpdatedAt := t0 + 9000 }

/-- The example store after the insert of `helloMessage`. -/
def exampleDbCreated : Db := { exampleDb with messages := exampleDb.messages ++ [helloMessage] }

/-- The example store after `helloMessage` and its two delivery rows were inserted. -/
def exampleDbSent : Db :=
  { exampleDbCreated with
    message_deliveries :=
      [ { ID := 900, MessageID := 507, UserID := 2, Status := none, DeliveredAt := none,
          ReadAt := none },
        { ID := 901, MessageID := 507, UserID := 3, Status := none, DeliveredAt := none,
          ReadAt := none } ] }

namespace Ref

/-- Code point order on texts (the order of the "C" collation). -/
def charsLt : List Char → List Char → Bool
  | [], [] => false
  | [], _ :: _ => true
  | _ :: _, [] => false
  | a :: as, b :: bs => decide (a.toNat < b.toNat) || (decide (a = b) && charsLt as bs)

/-- Case-insensitive `LIKE` on characters: `%` matches any run, `_` any one character;
letters are compared after ASCII lower-casing. -/
def likeChars : List Char → List Char → Bool
  | [], v => v.isEmpty
  | c :: p, v =>
    if c = '%' then v.tails.any (likeChars p)
    else
      match v with
      | [] => false
      | d :: v1 => (decide (c = '_') || decide (c.toLower = d.toLower)) && likeChars p v1

end Ref

/-- A reference instance of the text operators: code point order, and `ILIKE` with
ASCII case folding. -/
def refText : SqlText where
  ilike := fun value pattern => Ref.likeChars pattern.data value.data
  textLt := fun a b => Ref.charsLt a.data b.data

/-- The example store with six users; the display name of user 3 contains the
separator of the cursor format. -/
def exampleUsersDb : Db :=
  { exampleDb with
    users :=
      [ { ID := 1, Email := "alice@example.org", PasswordHash := "h1", DisplayName := "alice",
          AvatarURL := none, Status := "active", CreatedAt := t0, UpdatedAt := t0 },
        { ID := 2, Email := "alan@example.org", PasswordHash := "h2", DisplayName := "Alan",
          AvatarURL := none, Status := "active", CreatedAt := t0, UpdatedAt := t0 },
        { ID := 3, Email := "alex@example.org", PasswordHash := "h3", DisplayName := "al|ex",
          AvatarURL := none, Status := "active", CreatedAt := t0, UpdatedAt := t0 },
        { ID := 4, Email := "bob@example.org", PasswordHash := "h4", DisplayName := "bob",
          AvatarURL := none, Status := "active", CreatedAt := t0, UpdatedAt := t0 },
        { ID := 5, Email := "ally@example.org", PasswordHash := "h5", DisplayName := "ally",
          AvatarURL := none, Status := "active", CreatedAt := t0, UpdatedAt := t0 },
        { ID := 6, Email := "amy@example.org", PasswordHash := "h6", DisplayName := "amy",
          AvatarURL := none, Status := "active", CreatedAt := t0, UpdatedAt := t0 } ] }

/-- The result of the `Create` of a direct conversation of user 1 with user 3 on the
example store, with the ids 700, 701 and 702 drawn by `uuid.New()`. -/
def directResult : CreateResult :=
  { Conversation := Conversation.mk 700 "direct" none 1 t0 t0
    Participants :=
      [ConversationParticipant.mk 701 700 1 "owner" t0 none,
       ConversationParticipant.mk 702 700 3 "member" t0 none]
    Existing := false }

/-- The example store after that `Create`. -/
def exampleDbDirect : Db :=
  { exampleDb with
    conversations := exampleDb.conversations ++ [directResult.Conversation]
    conversation_participants := exampleDb.conversation_participants ++ directResult.Participants }

/-! ## Concrete values for the hub, the handler and the authentication service -/

/-- A stand-in for `json.Marshal`, to evaluate the examples: the raw data "?" plays the
part of raw data that is not JSON, on which `json.Marshal` fails. -/
def refJson : Json where
  marshalEvent e := if e.Data = "?" then none else some (e.Typ ++ " " ++ e.Data)
  marshalMessage m := some m.Body

/-- A hub with two clients of user 2, one client of user 3 whose queue is full, and one
client of user 9. -/
def exampleHub : Hub where
  clients u :=
    if u = 2 then some [Client.mk 1 2, Client.mk 2 2]
    else if u = 3 then some [Client.mk 3 3]
    else if u = 9 then some [Client.mk 4 9]
    else none
  Send c :=
    if c.ptr = 3 then { buf := List.replicate 256 "old", cap := 256, closed := false }
    else { buf := [], cap := 256, closed := false }

/-- The message handler on the example services. -/
def exampleHandler : MessageHandler Db :=
  sqlMessageHandler refCodec (t0 + 9000) (fun i => 900 + i)

/-- Stand-ins for the library functions of the authentication service, to evaluate the
examples: the hash of a password is the password behind a marker, and passwords of more
than 72 bytes are refused as `bcrypt` does. -/
def refAuthLib : AuthLib where
  ToLower := asciiLower
  GenerateFromPassword p := if len p > 72 then none else some ("$2a$" ++ p)
  CompareHashAndPassword hash p := decide (hash = "$2a$" ++ p)
  SignedString secret sub _ _ := some (secret ++ "." ++ refCodec.uuidString sub)
  Sum256 s := s.data.map Char.toNat
  EncodeToString bs := String.mk (bs.map Char.ofNat)

/-- The service of the tests: `NewAuthService(users, sessions, testAuthConfig())`. -/
def exampleAuth : AuthService MockStore :=
  NewAuthService (newMockUserRepo (t0 + 9000)) (newMockSessionRepo (t0 + 9000)) testAuthConfig

/-- The user of `TestLogin_WrongPassword`: Carol with the hash of "correctpass". -/
def carol : User :=
  { ID := 31, Email := "carol@example.com", PasswordHash := "$2a$correctpass",
    DisplayName := "Carol", AvatarURL := none, Status := "offline", CreatedAt := t0,
    UpdatedAt := t0 }

/-- The store of `TestLogin_WrongPassword`. -/
def carolStore : MockStore := { users := [carol], sessions := [] }

/-! ## Membership gates of the message service -/

/-- C1: for a body that passes validation, a sender for whom `IsParticipant` returns
false gets `ErrNotFound` from `Send`, and the store is left as it was (no message and
no delivery row is written). -/
theorem send_not_participant (s : MessageService σ) (st : σ) (now : Time) (newID : UUID)
    (senderID conversationID : UUID) (body : String) (hbody : bodyAccepted body)
    (hnot : s.convos.IsParticipant st conversationID senderID = .ok false) :
    s.Send st now newID senderID conversationID body = (.error .ErrNotFound, st) := by
  obtain ⟨h1, h2⟩ := hbody
  simp only [MessageService.Send, h1, if_false, Nat.not_lt.mpr h2, hnot]

/-- C1, on the SQL store: the outsider 4 sends to conversation 10. -/
theorem send_not_participant_witness :
    bodyAccepted "Should fail" ∧
      conversationRepo.IsParticipant exampleDb 10 4 = .ok false ∧
      exampleMessages.Send exampleDb (t0 + 9000) 507 4 10 "Should fail"
        = (.error .ErrNotFound, exampleDb) :=
  ⟨by decide, by decide,
    send_not_participant exampleMessages exampleDb (t0 + 9000) 507 4 10 "Should fail"
      (by decide) (by decide)⟩

/-- C2: when `IsParticipant` returns false for the user, `GetHistory` (whatever the
cursor and the limit) and `GetByID` (whatever the message id) both return
`ErrNotFound`. -/
theorem history_and_message_not_participant (s : MessageService σ) (st : σ)
    (userID conversationID messageID : UUID) (cursor : String) (limit : Int)
    (hnot : s.convos.IsParticipant st conversationID userID = .ok false) :
    s.GetHistory st userID conversationID cursor limit = .error .ErrNotFound ∧
      s.GetByID st userID conversationID messageID = .error .ErrNotFound := by
  simp only [MessageService.GetHistory, MessageService.GetByID, hnot, and_self]

/-- C2, on the SQL store: the outsider 4 reads conversation 10 with a cursor that does
not decode, and asks for a message that exists in it. -/
theorem history_and_message_not_participant_witness :
    conversationRepo.IsParticipant exampleDb 10 4 = .ok false ∧
      decodeTimeCursor refCodec "not a cursor" = .error (.Wrapped "invalid cursor") ∧
      exampleMessages.GetHistory exampleDb 4 10 "not a cursor" 0 = .error .ErrNotFound ∧
      exampleMessages.GetByID exampleDb 4 10 501 = .error .ErrNotFound :=
  ⟨by decide, by decide,
    history_and_message_not_participant exampleMessages exampleDb 4 10 501 "not a cursor" 0
      (by decide)⟩

/-- C3: `GetByID` returns a message exactly when the user is an active participant of
the requested conversation, the repository finds the message, and the message's
`ConversationID` is the requested conversation; for a participant, a message of another
conversation gives `ErrNotFound`. -/
theorem message_getByID_scoped (s : MessageService σ) (st : σ)
    (userID conversationID messageID : UUID) :
    (∀ msg, s.GetByID st userID conversationID messageID = .ok msg ↔
      (s.convos.IsParticipant st conversationID userID = .ok true ∧
        s.messages.GetByID st messageID = .ok msg ∧ msg.ConversationID = conversationID)) ∧
    (∀ msg, s.convos.IsParticipant st conversationID userID = .ok true →
      s.messages.GetByID st messageID = .ok msg → msg.ConversationID ≠ conversationID →
      s.GetByID st userID conversationID messageID = .error .ErrNotFound) := by
  refine ⟨fun msg => ?_, fun msg hp hm hc => ?_⟩
  · unfold MessageService.GetByID
    cases hp : s.convos.IsParticipant st conversationID userID with
    | error e => simp
    | ok b =>
      cases b with
      | false => simp
      | true =>
        cases hm : s.messages.GetByID st messageID with
        | error e => simp
        | ok m =>
          by_cases hc : m.ConversationID = conversationID
          · simp only [hc, ne_eq, not_true_eq_false, if_false, Except.ok.injEq, true_and]
            constructor
            · intro h; subst h; exact ⟨rfl, hc⟩
            · intro h; exact h.1
          · simp only [ne_eq, hc, not_false_eq_true, if_true, reduceCtorEq, Except.ok.injEq,
              true_and, false_iff, not_and]
            intro h; subst h; exact hc
  · simp only [MessageService.GetByID, hp, hm, ne_eq, hc, not_false_eq_true, if_true]

/-- C3, on the SQL store: user 1 is in conversations 10 and 20; message 506 belongs to
conversation 20 and is not found through conversation 10, message 501 is. -/
theorem message_getByID_scoped_witness :
    exampleMessages.GetByID exampleDb 1 10 506 = .error .ErrNotFound ∧
      (exampleMessages.GetByID exampleDb 1 20 506).isOk = true ∧
      (exampleMessages.GetByID exampleDb 1 10 501).isOk = true :=
  ⟨(message_getByID_scoped exampleMessages exampleDb 1 10 506).2
      { ID := 506, ConversationID := 20, SenderID := 2, Body := "direct", Status := "sent",
        CreatedAt := t0 + 2500, UpdatedAt := t0 + 2500 } (by decide) (by decide) (by decide),
    by decide, by decide⟩

/-! ## Conversation existence is hidden from non-members -/

/-- C4: for a caller for whom `IsParticipant` returns false in both stores, each of the
seven operations addressed to conversation `X` returns the same result in the two
stores, all other inputs being equal, and none of them changes either store: whether
`X` exists is not observable. -/
theorem non_member_cannot_observe (convos : ConversationRepository σ)
    (messages : MessageRepository σ) (st1 st2 : σ) (caller X target messageID newID : UUID)
    (name body cursor : String) (limit : Int) (now : Time) (uuidNew : Nat → UUID)
    (newUserIDs : List UUID)
    (h1 : convos.IsParticipant st1 X caller = .ok false)
    (h2 : convos.IsParticipant st2 X caller = .ok false) :
    let cs : ConversationService σ := { convos := convos }
    let ms : MessageService σ := { messages := messages, convos := convos }
    cs.GetByID st1 caller X = cs.GetByID st2 caller X ∧
    (cs.Update st1 caller X name).1 = (cs.Update st2 caller X name).1 ∧
    (cs.AddParticipants st1 now uuidNew caller X newUserIDs).1
      = (cs.AddParticipants st2 now uuidNew caller X newUserIDs).1 ∧
    (cs.RemoveParticipant st1 caller X target).1 = (cs.RemoveParticipant st2 caller X target).1 ∧
    (ms.Send st1 now newID caller X body).1 = (ms.Send st2 now newID caller X body).1 ∧
    ms.GetHistory st1 caller X cursor limit = ms.GetHistory st2 caller X cursor limit ∧
    ms.GetByID st1 caller X messageID = ms.GetByID st2 caller X messageID ∧
    (cs.Update st1 caller X name).2 = st1 ∧ (cs.Update st2 caller X name).2 = st2 ∧
    (cs.AddParticipants st1 now uuidNew caller X newUserIDs).2 = st1 ∧
    (cs.AddParticipants st2 now uuidNew caller X newUserIDs).2 = st2 ∧
    (cs.RemoveParticipant st1 caller X target).2 = st1 ∧
    (cs.RemoveParticipant st2 caller X target).2 = st2 ∧
    (ms.Send st1 now newID caller X body).2 = st1 ∧
    (ms.Send st2 now newID caller X body).2 = st2 := by
  intro cs ms
  refine ⟨?_, ?_, ?_, ?_, ?_, ?_, ?_, ?_, ?_, ?_, ?_, ?_, ?_, ?_, ?_⟩
  · simp only [cs, ConversationService.GetByID, h1, h2]
  · simp only [cs, ConversationService.Update, h1, h2]; split <;> rfl
  · simp only [cs, ConversationService.AddParticipants, h1, h2]; split <;> rfl
  · simp only [cs, ConversationService.RemoveParticipant, h1, h2]
  · simp only [ms, MessageService.Send, h1, h2]; split_ifs <;> rfl
  · simp only [ms, MessageService.GetHistory, h1, h2]
  · simp only [ms, MessageService.GetByID, h1, h2]
  · simp only [cs, ConversationService.Update, h1]; split <;> rfl
  · simp only [cs, ConversationService.Update, h2]; split <;> rfl
  · simp only [cs, ConversationService.AddParticipants, h1]; split <;> rfl
  · simp only [cs, ConversationService.AddParticipants, h2]; split <;> rfl
  · simp only [cs, ConversationService.RemoveParticipant, h1]
  · simp only [cs, ConversationService.RemoveParticipant, h2]
  · simp only [ms, MessageService.Send, h1]; split_ifs <;> rfl
  · simp only [ms, MessageService.Send, h2]; split_ifs <;> rfl

/-- C4, on the SQL store: conversation 10 exists in `exampleDb` and not in `emptyDb`;
the outsider 4 gets the same answers from both. -/
theorem non_member_cannot_observe_witness :
    (conversationRepo.GetByID exampleDb 10).isOk = true ∧
    conversationRepo.GetByID emptyDb 10 = .error .ErrNotFound ∧
    exampleConversations.GetByID exampleDb 4 10 = exampleConversations.GetByID emptyDb 4 10 ∧
    (exampleMessages.Send exampleDb t0 507 4 10 "hi").1
      = (exampleMessages.Send emptyDb t0 507 4 10 "hi").1 :=
  have h := non_member_cannot_observe (NewConversationRepo refCodec (t0 + 9000))
    (NewMessageRepo refCodec (t0 + 9000) (fun i => 900 + i)) exampleDb emptyDb 4 10 3 501 507
    "renamed" "hi" "" 10 t0 (fun i => 700 + i) [2] (by decide) (by decide)
  ⟨by decide, by decide, h.1, h.2.2.2.2.1⟩

/-! ## Body validation of `Send` -/

/-- C6: a body that is empty after trimming makes `Send` fail with the
`ValidationError` on field "body", which unwraps to `ErrValidation`, whoever the sender
is and whatever the store holds; the store is left as it was. -/
theorem send_empty_body (s : MessageService σ) (st : σ) (now : Time) (newID : UUID)
    (senderID conversationID : UUID) (body : String) (hempty : TrimSpace body = "") :
    ∃ message, s.Send st now newID senderID conversationID body
        = (.error (.ValidationError "body" message), st) ∧
      (Error.ValidationError "body" message).Unwrap = some .ErrValidation ∧
      (Error.ValidationError "body" message).Is .ErrValidation = true := by
  refine ⟨"must not be empty", ?_, rfl, rfl⟩
  simp only [MessageService.Send, hempty, if_true]

/-- C6, on the SQL store: participant 1 and outsider 4 send white space to
conversation 10. -/
theorem send_empty_body_witness :
    TrimSpace " \t\n" = "" ∧
    (∃ message, exampleMessages.Send exampleDb t0 507 1 10 " \t\n"
        = (.error (.ValidationError "body" message), exampleDb) ∧
      (Error.ValidationError "body" message).Unwrap = some .ErrValidation ∧
      (Error.ValidationError "body" message).Is .ErrValidation = true) ∧
    (exampleMessages.Send exampleDb t0 507 4 10 "").1
      = .error (.ValidationError "body" "must not be empty") :=
  ⟨by decide, send_empty_body exampleMessages exampleDb t0 507 1 10 " \t\n" (by decide),
    by decide⟩

/-- Trimming leaves a run of one non-space character as it is. -/
theorem trimSpaceChars_replicate (n : Nat) (c : Char) (hc : isSpace c = false) :
    trimSpaceChars (List.replicate n c) = List.replicate n c := by
  have hdrop : (List.replicate n c).dropWhile isSpace = List.replicate n c := by
    cases n with
    | zero => rfl
    | succ m => simp [List.replicate_succ, List.dropWhile_cons, hc]
  simp only [trimSpaceChars, hdrop, List.reverse_replicate]

/-- The byte length of a run of one character. -/
theorem len_replicate (n : Nat) (c : Char) :
    len (String.mk (List.replicate n c)) = n * c.utf8Size := by
  simp [len, List.map_replicate, List.sum_replicate]

/-- C7, the code at the failing input: the trimmed body has 5001 characters, well
under 10000, but 10002 bytes, and `Send` rejects it for any sender and any store. -/
theorem send_rejects_5001_characters (s : MessageService σ) (st : σ) (now : Time)
    (newID senderID conversationID : UUID) :
    (TrimSpace accentedBody).length = 5001 ∧ TrimSpace accentedBody ≠ "" ∧
      s.Send st now newID senderID conversationID accentedBody
        = (.error (.ValidationError "body" "must be 10000 characters or fewer"), st) := by
  have hsp : isSpace (Char.ofNat 0xE9) = false := by decide
  have htrim : TrimSpace accentedBody = accentedBody := by
    simp only [TrimSpace, accentedBody, trimSpaceChars_replicate _ _ hsp]
  have hlen : len accentedBody = 10002 := by
    rw [accentedBody, len_replicate]; rfl
  have hlength : accentedBody.length = 5001 := by
    show (List.replicate 5001 (Char.ofNat 0xE9)).length = 5001
    exact List.length_replicate ..
  have hne : accentedBody ≠ "" := by
    intro h
    rw [h] at hlength
    exact absurd hlength (by decide)
  refine ⟨?_, ?_, ?_⟩
  · rw [htrim]; exact hlength
  · rw [htrim]; exact hne
  · simp only [MessageService.Send, htrim, hne, if_false, hlen]
    rfl

/-! ## Facts about the SQL statements -/

/-- A successful `messageRepo.Create` appends the row and touches nothing else. -/
theorem messageRepo.Create_ok {db db1 : Db} {msg : Message}
    (h : messageRepo.Create db msg = .ok db1) :
    db1 = { db with messages := db.messages ++ [msg] } := by
  unfold messageRepo.Create at h
  split at h
  · exact (Except.ok.inj h).symm
  · exact absurd h (by simp)

/-- A failing `messageRepo.Create` reports a wrapped driver error. -/
theorem messageRepo.Create_error {db : Db} {msg : Message} {e : Error}
    (h : messageRepo.Create db msg = .error e) : e = .Wrapped "repo: create message" := by
  unfold messageRepo.Create at h
  split at h
  · exact absurd h (by simp)
  · exact (Except.error.inj h).symm

/-- A successful bulk insert appends the rows in order. -/
theorem messageRepo.insertAll_some :
    ∀ (ds rows out : List MessageDelivery), messageRepo.insertAll rows ds = some out →
      out = rows ++ ds
  | [], rows, out, h => by
    simp only [messageRepo.insertAll, Option.some.injEq] at h
    simp [h]
  | d :: ds, rows, out, h => by
    unfold messageRepo.insertAll at h
    split at h
    · exact absurd h (by simp)
    · have := messageRepo.insertAll_some ds (rows ++ [d]) out h
      simpa using this

/-- A successful `messageRepo.CreateDeliveries` appends one row per listed user, in
order, and touches nothing else (for the empty list it appends nothing). -/
theorem messageRepo.CreateDeliveries_ok {gen : Nat → UUID} {db db2 : Db} {messageID : UUID}
    {userIDs : List UUID}
    (h : messageRepo.CreateDeliveries gen db messageID userIDs = .ok db2) :
    db2 = { db with message_deliveries :=
      db.message_deliveries ++ messageRepo.deliveryRows gen messageID 0 userIDs } := by
  unfold messageRepo.CreateDeliveries at h
  split at h
  · rename_i h0
    have hnil : userIDs = [] := List.length_eq_zero.mp h0
    subst hnil
    have := (Except.ok.inj h).symm
    simp [this, messageRepo.deliveryRows]
  · split at h
    · exact absurd h (by simp)
    · rename_i rows hrows
      have := messageRepo.insertAll_some _ _ _ hrows
      rw [← this]
      exact (Except.ok.inj h).symm

/-- A failing `messageRepo.CreateDeliveries` reports a wrapped driver error. -/
theorem messageRepo.CreateDeliveries_error {gen : Nat → UUID} {db : Db} {messageID : UUID}
    {userIDs : List UUID} {e : Error}
    (h : messageRepo.CreateDeliveries gen db messageID userIDs = .error e) :
    e = .Wrapped "repo: create deliveries" := by
  unfold messageRepo.CreateDeliveries at h
  split at h
  · exact absurd h (by simp)
  · split at h
    · exact (Except.error.inj h).symm
    · exact absurd h (by simp)

/-- The user ids of the delivery rows are the listed users. -/
theorem messageRepo.deliveryRows_users (gen : Nat → UUID) (messageID : UUID) :
    ∀ (userIDs : List UUID) (start : Nat),
      (messageRepo.deliveryRows gen messageID start userIDs).map (fun d => d.UserID) = userIDs
  | [], _ => rfl
  | u :: us, start => by
    simp [messageRepo.deliveryRows, messageRepo.deliveryRows_users gen messageID us (start + 1)]

/-- The recipients computed by the loop of `Send` from the active participant rows are
the recipients of the specification. -/
theorem recipientIDs_eq_otherActiveUsers (db : Db) (conversationID senderID : UUID) :
    recipientIDs (db.conversation_participants.filter fun p =>
        decide (p.ConversationID = conversationID) && p.LeftAt.isNone) senderID
      = otherActiveUsers db conversationID senderID := by
  simp only [recipientIDs, otherActiveUsers, List.filter_map]
  rfl

/-- What the length check of `Send` does on the SQL store: for a body that is not empty
after trimming, `Send` fails with the "body" validation error exactly when the trimmed
body has more than 10000 bytes. -/
theorem send_too_long_iff_bytes (k : Codec) (clock : Time) (gen : Nat → UUID) (db : Db)
    (now : Time) (newID senderID conversationID : UUID) (body : String)
    (hne : TrimSpace body ≠ "") :
    (∃ message, ((sqlMessageService k clock gen).Send db now newID senderID conversationID
        body).1 = .error (.ValidationError "body" message)) ↔ 10000 < len (TrimSpace body) := by
  by_cases hlen : 10000 < len (TrimSpace body)
  · simp only [MessageService.Send, hne, if_false, hlen, if_true, Except.error.injEq,
      Error.ValidationError.injEq, true_and, exists_eq', iff_true]
  · simp only [MessageService.Send, hne, if_false, hlen, iff_false, not_exists]
    intro message
    simp only [sqlMessageService, NewConversationRepo, NewMessageRepo,
      conversationRepo.IsParticipant, conversationRepo.GetParticipants]
    cases db.conversation_participants.any (activeRow conversationID senderID) with
    | false => simp
    | true =>
      simp only []
      cases hc : messageRepo.Create db _ with
      | error e => rw [messageRepo.Create_error hc]; simp
      | ok db1 =>
        simp only []
        split
        · cases hd : messageRepo.CreateDeliveries gen db1 newID _ with
          | error e => rw [messageRepo.CreateDeliveries_error hd]; simp
          | ok db2 => simp
        · simp

/-! ## A successful `Send` -/

/-- C8: for an active participant and a body that passes validation, when the insert of
the message and the insert of the delivery rows succeed, `Send` returns a message with
the trimmed body, the given sender and conversation, status "sent" and equal creation
and update times, and the messages table is the old one with exactly that message
appended. -/
theorem send_success (k : Codec) (clock : Time) (gen : Nat → UUID) (db db1 db2 : Db)
    (now : Time) (newID senderID conversationID : UUID) (body : String)
    (hbody : bodyAccepted body)
    (hpart : conversationRepo.IsParticipant db conversationID senderID = .ok true)
    (hcreate : messageRepo.Create db
      { ID := newID, ConversationID := conversationID, SenderID := senderID,
        Body := TrimSpace body, Status := "sent", CreatedAt := now, UpdatedAt := now } = .ok db1)
    (hdeliver : messageRepo.CreateDeliveries gen db1 newID
      (otherActiveUsers db1 conversationID senderID) = .ok db2) :
    ∃ msg, (sqlMessageService k clock gen).Send db now newID senderID conversationID body
        = (.ok msg, db2) ∧
      msg.Body = TrimSpace body ∧ msg.SenderID = senderID ∧
      msg.ConversationID = conversationID ∧ msg.Status = "sent" ∧
      msg.CreatedAt = msg.UpdatedAt ∧ db2.messages = db.messages ++ [msg] := by
  obtain ⟨h1, h2⟩ := hbody
  refine ⟨Message.mk newID conversationID senderID (TrimSpace body) "sent" now now,
    ?_, rfl, rfl, rfl, rfl, rfl, ?_⟩
  · simp only [MessageService.Send, h1, if_false, Nat.not_lt.mpr h2, sqlMessageService,
      NewConversationRepo, NewMessageRepo, hpart, hcreate, conversationRepo.GetParticipants,
      recipientIDs_eq_otherActiveUsers]
    split
    · rw [hdeliver]
    · rename_i hlen
      have hnil : otherActiveUsers db1 conversationID senderID = [] :=
        List.length_eq_zero.mp (by omega)
      rw [hnil] at hdeliver
      simp only [messageRepo.CreateDeliveries, List.length_nil, if_true, Except.ok.injEq]
        at hdeliver
      rw [hdeliver]
  · rw [messageRepo.CreateDeliveries_ok hdeliver, messageRepo.Create_ok hcreate]

/-- C8, on the SQL store: user 1 sends " Hello! " to conversation 10; the trimmed
message is returned and is the one row added to the six stored messages. -/
theorem send_success_witness :
    ∃ msg, exampleMessages.Send exampleDb (t0 + 9000) 507 1 10 " Hello! "
        = (.ok msg, exampleDbSent) ∧
      msg.Body = TrimSpace " Hello! " ∧ msg.SenderID = 1 ∧ msg.ConversationID = 10 ∧
      msg.Status = "sent" ∧ msg.CreatedAt = msg.UpdatedAt ∧
      exampleDbSent.messages = exampleDb.messages ++ [msg] :=
  send_success refCodec (t0 + 9000) (fun i => 900 + i) exampleDb exampleDbCreated exampleDbSent
    (t0 + 9000) 507 1 10 " Hello! " (by decide) (by decide) (by decide) (by decide)

/-- What a successful `Send` on the SQL store has done: the body passed validation, the
sender was an active participant, the returned message is the one built from the
inputs, its insert succeeded, and so did the insert of the delivery rows for the
recipients. -/
theorem send_ok_inv {k : Codec} {clock : Time} {gen : Nat → UUID} {db db2 : Db} {now : Time}
    {newID senderID conversationID : UUID} {body : String} {msg : Message}
    (h : (sqlMessageService k clock gen).Send db now newID senderID conversationID body
      = (.ok msg, db2)) :
    ∃ db1, bodyAccepted body ∧
      conversationRepo.IsParticipant db conversationID senderID = .ok true ∧
      msg = Message.mk newID conversationID senderID (TrimSpace body) "sent" now now ∧
      messageRepo.Create db msg = .ok db1 ∧
      messageRepo.CreateDeliveries gen db1 newID
        (otherActiveUsers db conversationID senderID) = .ok db2 := by
  simp only [MessageService.Send, sqlMessageService, NewConversationRepo, NewMessageRepo,
    conversationRepo.GetParticipants] at h
  split at h
  · simp at h
  · rename_i hne
    split at h
    · simp at h
    · rename_i hlen
      split at h
      · simp at h
      · simp at h
      · rename_i hpart
        split at h
        · simp at h
        · rename_i db1 hcreate
          have hdb1 := messageRepo.Create_ok hcreate
          have hps : db1.conversation_participants = db.conversation_participants := by
            rw [hdb1]
          simp only [recipientIDs_eq_otherActiveUsers] at h
          have hrec : otherActiveUsers db1 conversationID senderID
              = otherActiveUsers db conversationID senderID := by
            simp only [otherActiveUsers, hps]
          rw [hrec] at h
          split at h
          · split at h
            · simp at h
            · rename_i db2' hd
              simp only [Prod.mk.injEq, Except.ok.injEq] at h
              obtain ⟨hm, hdb⟩ := h
              subst hm; subst hdb
              exact ⟨db1, ⟨hne, Nat.le_of_not_lt hlen⟩, hpart, rfl, hcreate, hd⟩
          · rename_i hlen0
            simp only [Prod.mk.injEq, Except.ok.injEq] at h
            obtain ⟨hm, hdb⟩ := h
            subst hm; subst hdb
            have hnil : otherActiveUsers db conversationID senderID = [] :=
              List.length_eq_zero.mp (by omega)
            refine ⟨db1, ⟨hne, Nat.le_of_not_lt hlen⟩, hpart, rfl, hcreate, ?_⟩
            simp [hnil, messageRepo.CreateDeliveries]

/-- C9: after a successful `Send` the delivery table is the old one followed by one row
for each recipient, where the recipients are the user ids of the conversation's active
participants with the sender removed: the rows belong to the new message, their users
are exactly the recipients, the sender is not among them, and when there is no
recipient `CreateDeliveries` is not called (whatever it would do, the result is the
same). -/
theorem send_deliveries (k : Codec) (clock : Time) (gen : Nat → UUID) (db db2 : Db)
    (now : Time) (newID senderID conversationID : UUID) (body : String) (msg : Message)
    (h : (sqlMessageService k clock gen).Send db now newID senderID conversationID body
      = (.ok msg, db2)) :
    let recipients := otherActiveUsers db conversationID senderID
    let rows := messageRepo.deliveryRows gen msg.ID 0 recipients
    db2.message_deliveries = db.message_deliveries ++ rows ∧
    rows.map (fun d => d.UserID) = recipients ∧
    (∀ d ∈ rows, d.MessageID = msg.ID) ∧
    senderID ∉ recipients ∧
    (∀ u, u ∈ recipients ↔ u ≠ senderID ∧
      conversationRepo.IsParticipant db conversationID u = .ok true) ∧
    (recipients = [] → ∀ create : Db → UUID → List UUID → Except Error Db,
      MessageService.Send
        { messages := { NewMessageRepo k clock gen with CreateDeliveries := create },
          convos := NewConversationRepo k clock }
        db now newID senderID conversationID body = (.ok msg, db2)) := by
  intro recipients rows
  obtain ⟨db1, hbody, hpart, hmsg, hcreate, hdeliver⟩ := send_ok_inv h
  have hid : msg.ID = newID := by rw [hmsg]
  refine ⟨?_, ?_, ?_, ?_, ?_, ?_⟩
  · rw [messageRepo.CreateDeliveries_ok hdeliver, messageRepo.Create_ok hcreate]
    simp only [rows, recipients, hid]
  · exact messageRepo.deliveryRows_users gen msg.ID recipients 0
  · have hall : ∀ (us : List UUID) (start : Nat),
        ∀ d ∈ messageRepo.deliveryRows gen msg.ID start us, d.MessageID = msg.ID := by
      intro us
      induction us with
      | nil => intro start d hd; simp [messageRepo.deliveryRows] at hd
      | cons u us ih =>
        intro start d hd
        simp only [messageRepo.deliveryRows, List.mem_cons] at hd
        rcases hd with hd | hd
        · rw [hd]
        · exact ih (start + 1) d hd
    exact hall recipients 0
  · simp [recipients, otherActiveUsers]
  · intro u
    simp only [recipients, otherActiveUsers, List.mem_filter, List.mem_map,
      conversationRepo.IsParticipant, Except.ok.injEq, List.any_eq_true, activeRow,
      Bool.and_eq_true, decide_eq_true_eq, ne_eq, decide_not, Bool.not_eq_true',
      decide_eq_false_iff_not]
    constructor
    · rintro ⟨⟨p, ⟨hp, hc, hl⟩, rfl⟩, hne⟩
      exact ⟨hne, p, hp, ⟨hc, rfl⟩, hl⟩
    · rintro ⟨hne, p, hp, ⟨hc, hu⟩, hl⟩
      exact ⟨⟨p, ⟨hp, hc, hl⟩, hu⟩, hne⟩
  · intro hnil create
    obtain ⟨h1, h2⟩ := hbody
    have hps : db1.conversation_participants = db.conversation_participants := by
      rw [messageRepo.Create_ok hcreate]
    have hrec : otherActiveUsers db1 conversationID senderID = [] := by
      simp only [otherActiveUsers, hps]; exact hnil
    have hdb : db2 = db1 := by
      have := messageRepo.CreateDeliveries_ok hdeliver
      rw [show otherActiveUsers db conversationID senderID = [] from hnil] at this
      simpa [messageRepo.deliveryRows] using this
    rw [hmsg] at hcreate
    simp only [MessageService.Send, h1, if_false, Nat.not_lt.mpr h2, NewConversationRepo,
      NewMessageRepo, hpart, hcreate, conversationRepo.GetParticipants,
      recipientIDs_eq_otherActiveUsers, hrec, List.length_nil, lt_self_iff_false, hmsg, hdb]

/-- C9, on the SQL store: user 1 sends to conversation 10, whose active participants
are 1, 2 and 3; the two new delivery rows are for users 2 and 3. -/
theorem send_deliveries_witness :
    otherActiveUsers exampleDb 10 1 = [2, 3] ∧
      exampleDbSent.message_deliveries = exampleDb.message_deliveries ++
        messageRepo.deliveryRows (fun i => 900 + i) 507 0 [2, 3] ∧
      (messageRepo.deliveryRows (fun i => 900 + i) 507 0 [2, 3]).map (fun d => d.UserID)
        = [2, 3] :=
  have h := send_deliveries refCodec (t0 + 9000) (fun i => 900 + i) exampleDb exampleDbSent
    (t0 + 9000) 507 1 10 " Hello! " helloMessage (by decide)
  ⟨by decide, h.1, h.2.1⟩

/-! ## Removing a participant -/

/-- The update of `RemoveParticipant` on one row, seen by the membership test of any
conversation and user: the row stops matching (X, C) and matches the others as before. -/
theorem activeRow_after_remove (now : Time) (X C c u : UUID) (p : ConversationParticipant) :
    activeRow c u (if activeRow X C p then { p with LeftAt := some now } else p)
      = (!(decide (c = X) && decide (u = C)) && activeRow c u p) := by
  obtain ⟨id, pc, pu, role, joined, left⟩ := p
  cases left with
  | some t => simp [activeRow]
  | none =>
    by_cases h1 : pc = X <;> by_cases h2 : pu = C <;> by_cases h3 : c = X <;>
      by_cases h4 : u = C <;> simp [activeRow, h1, h2, h3, h4] <;> aesop

/-- Membership after the update of `RemoveParticipant`. -/
theorem any_activeRow_after_remove (now : Time) (X C c u : UUID)
    (ps : List ConversationParticipant) :
    (ps.map fun p => if activeRow X C p then { p with LeftAt := some now } else p).any
        (activeRow c u)
      = (!(decide (c = X) && decide (u = C)) && ps.any (activeRow c u)) := by
  induction ps with
  | nil => simp
  | cons p ps ih =>
    simp only [List.map_cons, List.any_cons, ih, activeRow_after_remove]
    cases (decide (c = X) && decide (u = C)) <;> simp

/-- When the target has an active row, `conversationRepo.RemoveParticipant` succeeds; it
leaves the messages alone, ends the membership of the target in the conversation and
keeps every other membership. -/
theorem conversationRepo.RemoveParticipant_ok (now : Time) (db : Db) (X C : UUID)
    (h : db.conversation_participants.any (activeRow X C) = true) :
    ∃ db1, conversationRepo.RemoveParticipant now db X C = .ok db1 ∧
      db1.messages = db.messages ∧
      ∀ c u, db1.conversation_participants.any (activeRow c u)
        = (!(decide (c = X) && decide (u = C)) && db.conversation_participants.any (activeRow c u)) := by
  unfold conversationRepo.RemoveParticipant
  rw [if_pos h]
  exact ⟨_, rfl, rfl, fun c u => any_activeRow_after_remove now X C c u _⟩

/-- The method `ListByConversation` reads the messages table only. -/
theorem messageRepo.ListByConversation_congr (k : Codec) {db db1 : Db}
    (h : db1.messages = db.messages) (conversationID : UUID) (cursor : String) (limit : Int) :
    messageRepo.ListByConversation k db1 conversationID cursor limit
      = messageRepo.ListByConversation k db conversationID cursor limit := by
  simp only [messageRepo.ListByConversation, h]

/-- With the empty cursor, `ListByConversation` returns a page. -/
theorem messageRepo.ListByConversation_empty_ok (k : Codec) (db : Db) (conversationID : UUID)
    (limit : Int) : ∃ page, messageRepo.ListByConversation k db conversationID "" limit = .ok page := by
  simp only [messageRepo.ListByConversation, ne_eq, not_true_eq_false, if_false]
  exact ⟨_, rfl⟩

/-- C5: in a group conversation `X` with active participants `A`, `B` and `C`, the call
`RemoveParticipant(A, X, C)` succeeds; afterwards `IsParticipant(X, C)` is false and
`GetHistory` fails with `ErrNotFound` for `C`, while `IsParticipant` is still true for
`A` and `B` and `GetHistory` answers `B` as before (with a page, for the empty cursor). -/
theorem remove_participant_scenario (k : Codec) (clock : Time) (gen : Nat → UUID) (db : Db)
    (X A B C : UUID) (convo : Conversation)
    (hconv : conversationRepo.GetByID db X = .ok convo) (hgroup : convo.Typ = "group")
    (hA : conversationRepo.IsParticipant db X A = .ok true)
    (hB : conversationRepo.IsParticipant db X B = .ok true)
    (hC : conversationRepo.IsParticipant db X C = .ok true)
    (hAC : A ≠ C) (hBC : B ≠ C) :
    ∃ db1, (sqlConversationService k clock).RemoveParticipant db A X C = (.ok (), db1) ∧
      conversationRepo.IsParticipant db1 X C = .ok false ∧
      (∀ cursor limit, (sqlMessageService k clock gen).GetHistory db1 C X cursor limit
        = .error .ErrNotFound) ∧
      conversationRepo.IsParticipant db1 X A = .ok true ∧
      conversationRepo.IsParticipant db1 X B = .ok true ∧
      (∀ cursor limit, (sqlMessageService k clock gen).GetHistory db1 B X cursor limit
        = (sqlMessageService k clock gen).GetHistory db B X cursor limit) ∧
      (∀ limit, ∃ page, (sqlMessageService k clock gen).GetHistory db1 B X "" limit
        = .ok page) := by
  have hCany : db.conversation_participants.any (activeRow X C) = true := by
    simpa [conversationRepo.IsParticipant] using hC
  have hAany : db.conversation_participants.any (activeRow X A) = true := by
    simpa [conversationRepo.IsParticipant] using hA
  have hBany : db.conversation_participants.any (activeRow X B) = true := by
    simpa [conversationRepo.IsParticipant] using hB
  obtain ⟨db1, hrm, hmsgs, hany⟩ := conversationRepo.RemoveParticipant_ok clock db X C hCany
  refine ⟨db1, ?_, ?_, ?_, ?_, ?_, ?_, ?_⟩
  · simp only [ConversationService.RemoveParticipant, sqlConversationService,
      NewConversationRepo, hA, hconv, hgroup, ne_eq, not_true_eq_false, if_false, hrm]
  · simp [conversationRepo.IsParticipant, hany]
  · intro cursor limit
    simp [MessageService.GetHistory, sqlMessageService, NewConversationRepo,
      conversationRepo.IsParticipant, hany]
  · simp [conversationRepo.IsParticipant, hany, hAC, hAany]
  · simp [conversationRepo.IsParticipant, hany, hBC, hBany]
  · intro cursor limit
    simp only [MessageService.GetHistory, sqlMessageService, NewConversationRepo,
      NewMessageRepo, conversationRepo.IsParticipant, hany, hBC, hBany,
      decide_False, Bool.and_false, Bool.not_false, Bool.and_self]
    exact messageRepo.ListByConversation_congr k hmsgs X cursor _
  · intro limit
    simp only [MessageService.GetHistory, sqlMessageService, NewConversationRepo,
      NewMessageRepo, conversationRepo.IsParticipant, hany, hBC, hBany,
      decide_False, Bool.and_false, Bool.not_false, Bool.and_self]
    exact messageRepo.ListByConversation_empty_ok k _ X _

/-- C5, on the SQL store: in conversation 10 (owner 1, members 2 and 3) user 1 removes
user 3. -/
theorem remove_participant_scenario_witness :
    ∃ db1, exampleConversations.RemoveParticipant exampleDb 1 10 3 = (.ok (), db1) ∧
      conversationRepo.IsParticipant db1 10 3 = .ok false ∧
      exampleMessages.GetHistory db1 3 10 "" 50 = .error .ErrNotFound ∧
      conversationRepo.IsParticipant db1 10 1 = .ok true ∧
      conversationRepo.IsParticipant db1 10 2 = .ok true ∧
      exampleMessages.GetHistory db1 2 10 "" 50 = exampleMessages.GetHistory exampleDb 2 10 "" 50 :=
  have ⟨db1, h1, h2, h3, h4, h5, h6, _⟩ :=
    remove_participant_scenario refCodec (t0 + 9000) (fun i => 900 + i) exampleDb 10 1 2 3
      (Conversation.mk 10 "group" (some "team") 1 t0 t0) (by decide) (by decide) (by decide)
      (by decide) (by decide) (by decide) (by decide)
  ⟨db1, h1, h2, h3 "" 50, h4, h5, h6 "" 50⟩

/-! ## Keyset pagination of the message history -/

/-- The SQL row comparison is the lexicographic order. -/
theorem rowLt_iff (a b : Int × Nat) :
    rowLt a b = true ↔ a.1 < b.1 ∨ (a.1 = b.1 ∧ a.2 < b.2) := by
  simp [rowLt]

/-- The negation of the SQL row comparison. -/
theorem rowLt_false_iff (a b : Int × Nat) :
    rowLt a b = false ↔ b.1 < a.1 ∨ (a.1 = b.1 ∧ b.2 ≤ a.2) := by
  rw [← Bool.not_eq_true, rowLt_iff]
  omega

/-- The page that `ListByConversation` cuts out of the selected rows. -/
theorem page_shape (l : Int) (h1 : 1 ≤ l) (rows : List Message) :
    (if decide (((rows.take (l + 1).toNat).length : Int) > l) = true then
        (rows.take (l + 1).toNat).take l.toNat
      else rows.take (l + 1).toNat) = rows.take l.toNat ∧
    decide (((rows.take (l + 1).toNat).length : Int) > l) = decide (l.toNat < rows.length) := by
  obtain ⟨n, rfl⟩ := Int.eq_ofNat_of_zero_le (by omega : 0 ≤ l)
  have e1 : ((n : Int) + 1).toNat = n + 1 := by omega
  have e2 : ((n : Int)).toNat = n := by omega
  rw [e1, e2]
  by_cases hlt : n < rows.length
  · have hlen : (rows.take (n + 1)).length = n + 1 := by
      rw [List.length_take]; omega
    have hgt : ((rows.take (n + 1)).length : Int) > n := by rw [hlen]; omega
    simp only [hgt, decide_True, if_true, hlt, and_true]
    rw [List.take_take]
    congr 1
    omega
  · have hle : rows.length ≤ n := by omega
    have htake : rows.take (n + 1) = rows := List.take_of_length_le (by omega)
    have hng : ¬ ((rows.length : Int) > n) := by omega
    simp only [htake, hng, decide_False, hlt, and_true, Bool.false_eq_true, if_false]
    exact (List.take_of_length_le hle).symm

/-- The limit `ListByConversation` works with is at least 1. -/
theorem one_le_effective_limit (limit : Int) :
    1 ≤ (if limit ≤ 0 ∨ limit > 100 then (50 : Int) else limit) := by
  split_ifs with h
  · omega
  · omega

/-- The result of `ListByConversation` once the cursor is read. -/
theorem messageRepo.ListByConversation_page (k : Codec) (db : Db) (conversationID : UUID)
    (limit : Int) (cur : Option (Time × UUID)) :
    (let limit : Int := if limit ≤ 0 ∨ limit > 100 then 50 else limit
     let fetchLimit := limit + 1
     let rows := db.messages.filter fun m =>
       decide (m.ConversationID = conversationID) &&
         match cur with
         | none => true
         | some cu => rowLt m.key cu
     let results := (rows.insertionSort msgDesc).take fetchLimit.toNat
     let hasMore := decide ((results.length : Int) > limit)
     let results := if hasMore then results.take limit.toNat else results
     let nextCursor : Option String :=
       if hasMore ∧ results.length > 0 then
         match results.getLast? with
         | none => none
         | some last => some (encodeTimeCursor k last.CreatedAt last.ID)
       else none
     ({ Items := results, NextCursor := nextCursor, HasMore := hasMore } : Page Message))
      = pageOf k (pageSize limit) (selectedRows db conversationID cur) := by
  have h := page_shape _ (one_le_effective_limit limit) (selectedRows db conversationID cur)
  obtain ⟨hitems, hmore⟩ := h
  simp only [pageOf, pageSize]
  simp only [selectedRows] at hitems hmore ⊢
  rw [hitems, hmore]

/-- With the empty cursor `ListByConversation` pages through all rows of the
conversation. -/
theorem messageRepo.ListByConversation_first (k : Codec) (db : Db) (conversationID : UUID)
    (limit : Int) :
    messageRepo.ListByConversation k db conversationID "" limit
      = .ok (pageOf k (pageSize limit) (selectedRows db conversationID none)) := by
  have h := messageRepo.ListByConversation_page k db conversationID limit none
  simp only [messageRepo.ListByConversation, ne_eq, not_true_eq_false, if_false]
  exact congrArg Except.ok h

/-- With a cursor that decodes to `cu`, `ListByConversation` pages through the rows of
the conversation that are below `cu`. -/
theorem messageRepo.ListByConversation_next (k : Codec) (db : Db) (conversationID : UUID)
    (limit : Int) (cursor : String) (cu : Time × UUID) (hne : cursor ≠ "")
    (hdec : decodeTimeCursor k cursor = .ok cu) :
    messageRepo.ListByConversation k db conversationID cursor limit
      = .ok (pageOf k (pageSize limit) (selectedRows db conversationID (some cu))) := by
  have h := messageRepo.ListByConversation_page k db conversationID limit (some cu)
  simp only [messageRepo.ListByConversation, ne_eq, hne, not_false_eq_true, if_true, hdec]
  exact congrArg Except.ok h

/-- Without a cursor the query selects the messages of the conversation, sorted. -/
theorem selectedRows_none (db : Db) (conversationID : UUID) :
    selectedRows db conversationID none
      = (conversationMessages db conversationID).insertionSort msgDesc := by
  simp only [selectedRows, conversationMessages, Bool.and_true]

/-- With a cursor the query selects the messages of the conversation below it, sorted. -/
theorem selectedRows_some (db : Db) (conversationID : UUID) (cu : Time × UUID) :
    selectedRows db conversationID (some cu)
      = ((conversationMessages db conversationID).filter fun m => rowLt m.key cu).insertionSort
          msgDesc := by
  simp only [selectedRows, conversationMessages, List.filter_filter]
  congr 1
  congr 1
  funext m
  exact Bool.and_comm _ _

/-- Two rows in query order with different ids are strictly ordered. -/
theorem msgBefore_of_desc (a b : Message) (h : msgDesc a b) (hne : a.ID ≠ b.ID) :
    msgBefore a b := by
  have hne1 : @Ne Nat a.key.2 b.key.2 := hne
  simp only [msgDesc, rowLt_false_iff] at h
  simp only [msgBefore, rowLt_iff]
  omega

/-- Sorting rows with pairwise different ids gives a strictly ordered list. -/
theorem sorted_strict (xs : List Message) (hnd : (xs.map fun m => m.ID).Nodup) :
    (xs.insertionSort msgDesc).Sorted msgBefore := by
  have hs : (xs.insertionSort msgDesc).Pairwise msgDesc := List.sorted_insertionSort msgDesc xs
  have hperm : ((xs.insertionSort msgDesc).map fun m => m.ID).Perm (xs.map fun m => m.ID) :=
    (List.perm_insertionSort msgDesc xs).map _
  have hnd1 : ((xs.insertionSort msgDesc).map fun m => m.ID).Nodup := hperm.nodup_iff.mpr hnd
  have hp : (xs.insertionSort msgDesc).Pairwise fun a b => a.ID ≠ b.ID :=
    List.pairwise_map.mp hnd1
  exact List.Pairwise.imp₂ (fun a b h1 h2 => msgBefore_of_desc a b h1 h2) hs hp

/-- The messages of a conversation have pairwise different ids when the table has. -/
theorem conversationMessages_nodup (db : Db) (conversationID : UUID)
    (hpk : (db.messages.map fun m => m.ID).Nodup) :
    ((conversationMessages db conversationID).map fun m => m.ID).Nodup :=
  List.Nodup.sublist ((List.filter_sublist _).map _) hpk

/-- In a strictly ordered list, the rows below the key of a row are the rows after it. -/
theorem filter_below_of_sorted (pre suf : List Message) (m : Message)
    (hs : (pre ++ m :: suf).Sorted msgBefore) :
    (pre ++ m :: suf).filter (fun x => rowLt x.key m.key) = suf := by
  have hs1 : (pre ++ m :: suf).Pairwise msgBefore := hs
  rw [List.pairwise_append] at hs1
  obtain ⟨-, hms, hcross⟩ := hs1
  have hpre : pre.filter (fun x => rowLt x.key m.key) = [] := by
    rw [List.filter_eq_nil_iff]
    intro a ha
    have hb : msgBefore a m := hcross a ha m (List.mem_cons_self _ _)
    simp only [msgBefore, rowLt_iff] at hb
    rw [Bool.not_eq_true, rowLt_false_iff]
    omega
  have hm : rowLt m.key m.key = false := by
    rw [rowLt_false_iff]; omega
  have hsuf : suf.filter (fun x => rowLt x.key m.key) = suf := by
    rw [List.filter_eq_self]
    intro b hb
    exact List.rel_of_sorted_cons hms b hb
  rw [List.filter_append, hpre, List.nil_append, List.filter_cons, hm]
  simpa using hsuf

/-- Keyset step: when the sorted messages of the conversation are `pre ++ m :: suf`, the
query with the cursor of `m` selects exactly `suf`. -/
theorem selectedRows_after (db : Db) (conversationID : UUID)
    (hpk : (db.messages.map fun m => m.ID).Nodup) (pre suf : List Message) (m : Message)
    (hsplit : selectedRows db conversationID none = pre ++ m :: suf) :
    selectedRows db conversationID (some m.key) = suf := by
  have hnd := conversationMessages_nodup db conversationID hpk
  have hsorted : (pre ++ m :: suf).Sorted msgBefore := by
    rw [← hsplit, selectedRows_none]
    exact sorted_strict _ hnd
  rw [selectedRows_some, ← filter_below_of_sorted pre suf m hsorted, ← hsplit, selectedRows_none]
  apply List.eq_of_perm_of_sorted (r := msgBefore)
  · exact (List.perm_insertionSort msgDesc _).trans
      ((List.perm_insertionSort msgDesc _).symm.filter _)
  · exact sorted_strict _ (List.Nodup.sublist ((List.filter_sublist _).map _) hnd)
  · exact List.Sorted.filter _ (sorted_strict _ hnd)

/-- The page size is at least 1. -/
theorem one_le_pageSize (limit : Int) : 1 ≤ pageSize limit := by
  have h := one_le_effective_limit limit
  unfold pageSize
  omega

/-- The walk from a cursor whose page is cut out of `rest`, a tail of the sorted
messages of the conversation, returns pages that make up `rest`. -/
theorem historyWalk_from (k : Codec) (db : Db) (conversationID : UUID) (limit : Int)
    (hpk : (db.messages.map fun m => m.ID).Nodup)
    (hrt : cursorsRoundTrip k db conversationID) :
    ∀ (fuel : Nat) (pre rest : List Message) (cursor : String),
      selectedRows db conversationID none = pre ++ rest →
      messageRepo.ListByConversation k db conversationID cursor limit
        = .ok (pageOf k (pageSize limit) rest) →
      rest.length < fuel →
      ∃ pages, historyWalk k db conversationID limit fuel cursor = some pages ∧
        pages.flatten = rest := by
  intro fuel
  induction fuel with
  | zero => intro pre rest cursor _ _ hlen; exact absurd hlen (Nat.not_lt_zero _)
  | succ fuel ih =>
    intro pre rest cursor hsplit hlist hlen
    have hn := one_le_pageSize limit
    by_cases hlt : pageSize limit < rest.length
    · have hmore : (pageOf k (pageSize limit) rest).HasMore = true := by
        simp only [pageOf, hlt, decide_True]
      have htl : (rest.take (pageSize limit)).length = pageSize limit := by
        rw [List.length_take]; omega
      have hne : rest.take (pageSize limit) ≠ [] := by
        intro h0
        rw [h0] at htl
        simp only [List.length_nil] at htl
        omega
      have hlast := List.getLast?_eq_getLast _ hne
      obtain ⟨init, hinit⟩ := List.getLast?_eq_some_iff.mp hlast
      generalize (rest.take (pageSize limit)).getLast hne = m0 at hlast hinit
      have hnext : (pageOf k (pageSize limit) rest).NextCursor
          = some (encodeTimeCursor k m0.CreatedAt m0.ID) := by
        have hpos : (rest.take (pageSize limit)).length > 0 := by omega
        simp only [pageOf, hlt, decide_True, hpos, and_self, if_true, hlast]
      have hrest : rest = init ++ m0 :: rest.drop (pageSize limit) := by
        have h := (List.take_append_drop (pageSize limit) rest).symm
        rw [hinit, List.append_assoc] at h
        exact h
      have hsplit1 : selectedRows db conversationID none
          = (pre ++ init) ++ m0 :: rest.drop (pageSize limit) := by
        rw [hsplit, List.append_assoc, ← hrest]
      have hmem : m0 ∈ conversationMessages db conversationID := by
        have h1 : m0 ∈ selectedRows db conversationID none := by
          rw [hsplit1]; simp
        rw [selectedRows_none] at h1
        exact (List.mem_insertionSort msgDesc).mp h1
      obtain ⟨hcne, hdec⟩ := hrt m0 hmem
      have hsel := selectedRows_after db conversationID hpk (pre ++ init)
        (rest.drop (pageSize limit)) m0 hsplit1
      have hlist1 := messageRepo.ListByConversation_next k db conversationID limit
        (encodeTimeCursor k m0.CreatedAt m0.ID) m0.key hcne hdec
      rw [hsel] at hlist1
      have hsplit2 : selectedRows db conversationID none
          = (pre ++ rest.take (pageSize limit)) ++ rest.drop (pageSize limit) := by
        rw [hsplit, List.append_assoc, List.take_append_drop]
      have hlen1 : (rest.drop (pageSize limit)).length < fuel := by
        rw [List.length_drop]; omega
      obtain ⟨pages, hw, hfl⟩ := ih _ _ _ hsplit2 hlist1 hlen1
      refine ⟨rest.take (pageSize limit) :: pages, ?_, ?_⟩
      · simp only [historyWalk, hlist, hmore, if_true, hnext, hw, Option.map_some']
        rfl
      · simp only [List.flatten_cons, hfl, List.take_append_drop]
    · have hmore : (pageOf k (pageSize limit) rest).HasMore = false := by
        simp only [pageOf, hlt, decide_False]
      have htake : rest.take (pageSize limit) = rest := List.take_of_length_le (by omega)
      refine ⟨[rest], ?_, ?_⟩
      · simp only [historyWalk, hlist, hmore, Bool.false_eq_true, if_false]
        simp only [pageOf, htake]
      · simp

/-- C10: on a store whose messages have pairwise different ids (the primary key) and
whose cursors survive the library codecs, the walk from the empty cursor, with any
limit and enough calls, succeeds and its pages make up the messages of the conversation
sorted by (created_at, id) descending: a permutation of them without duplicates, in
strictly descending order.  Moreover every page started from a cursor that decodes to
`cu` holds only rows of the conversation whose (created_at, id) is strictly below
`cu`. -/
theorem history_walk_complete (k : Codec) (db : Db) (conversationID : UUID) (limit : Int)
    (hpk : (db.messages.map fun m => m.ID).Nodup)
    (hrt : cursorsRoundTrip k db conversationID) :
    (∀ fuel, (conversationMessages db conversationID).length < fuel →
      ∃ pages, historyWalk k db conversationID limit fuel "" = some pages ∧
        pages.flatten = (conversationMessages db conversationID).insertionSort msgDesc) ∧
    ((conversationMessages db conversationID).insertionSort msgDesc).Perm
      (conversationMessages db conversationID) ∧
    ((conversationMessages db conversationID).insertionSort msgDesc).Nodup ∧
    ((conversationMessages db conversationID).insertionSort msgDesc).Sorted msgBefore ∧
    (∀ cursor cu page, cursor ≠ "" → decodeTimeCursor k cursor = .ok cu →
      messageRepo.ListByConversation k db conversationID cursor limit = .ok page →
      ∀ m ∈ page.Items, m.ConversationID = conversationID ∧ rowLt m.key cu = true) := by
  have hnd := conversationMessages_nodup db conversationID hpk
  have hsorted := sorted_strict _ hnd
  refine ⟨?_, List.perm_insertionSort msgDesc _, ?_, hsorted, ?_⟩
  · intro fuel hfuel
    have hlist := messageRepo.ListByConversation_first k db conversationID limit
    have hlen : (selectedRows db conversationID none).length < fuel := by
      rw [selectedRows_none, List.length_insertionSort]; exact hfuel
    have h := historyWalk_from k db conversationID limit hpk hrt fuel []
      (selectedRows db conversationID none) "" rfl hlist hlen
    rw [selectedRows_none] at h
    exact h
  · have hperm : (((conversationMessages db conversationID).insertionSort msgDesc).map
        fun m => m.ID).Perm ((conversationMessages db conversationID).map fun m => m.ID) :=
      (List.perm_insertionSort msgDesc _).map _
    exact List.Nodup.of_map _ (hperm.nodup_iff.mpr hnd)
  · intro cursor cu page hne hdec hpage m hm
    rw [messageRepo.ListByConversation_next k db conversationID limit cursor cu hne hdec] at hpage
    have hp := (Except.ok.inj hpage).symm
    rw [hp] at hm
    simp only [pageOf] at hm
    have h1 := List.mem_of_mem_take hm
    rw [selectedRows_some] at h1
    have h2 := (List.mem_insertionSort msgDesc).mp h1
    rw [List.mem_filter] at h2
    obtain ⟨h3, h4⟩ := h2
    simp only [conversationMessages, List.mem_filter, decide_eq_true_eq] at h3
    exact ⟨h3.2, h4⟩


set_option maxHeartbeats 2000000

/-- C10, on the SQL store with the reference codecs: the five messages of conversation
10 are walked in pages of two; the page boundary falls between the two messages that
share a timestamp. -/
theorem history_walk_complete_witness :
    (exampleDb.messages.map fun m => m.ID).Nodup ∧ cursorsRoundTrip refCodec exampleDb 10 ∧
      (∃ pages, historyWalk refCodec exampleDb 10 2 6 "" = some pages ∧
        pages.flatten = (conversationMessages exampleDb 10).insertionSort msgDesc) ∧
      (historyWalk refCodec exampleDb 10 2 6 "").map
          (fun pages => pages.map fun page => page.map fun m => m.ID)
        = some [[505, 504], [503, 502], [501]] :=
  ⟨by decide, by decide,
    (history_walk_complete refCodec exampleDb 10 2 (by decide) (by decide)).1 6 (by decide),
    by decide⟩

/-! ## Validation in `ConversationService.Create` -/

/-- The SQL `AddParticipant` leaves the conversations table alone. -/
theorem conversationRepo.AddParticipant_conversations {db db1 : Db}
    {p : ConversationParticipant} (h : conversationRepo.AddParticipant db p = .ok db1) :
    db1.conversations = db.conversations := by
  unfold conversationRepo.AddParticipant at h
  split at h
  · rw [← Except.ok.inj h]
  · exact absurd h (by simp)

/-- The member loop of `Create` on the SQL store leaves the conversations table alone. -/
theorem createMembersLoop_conversations (k : Codec) (clock : Time) (cid : UUID) (now : Time)
    (uuidNew : Nat → UUID) :
    ∀ (ids : List UUID) (i : Nat) (db : Db) (all : List ConversationParticipant),
      (createMembersLoop (NewConversationRepo k clock) cid now uuidNew i ids db all).2.conversations
        = db.conversations
  | [], _, _, _ => rfl
  | pid :: rest, i, db, all => by
    simp only [createMembersLoop, NewConversationRepo]
    split
    · rfl
    · rename_i db1 hadd
      have ih := createMembersLoop_conversations k clock cid now uuidNew rest (i + 1) db1
        (all ++ [ConversationParticipant.mk (uuidNew i) cid pid "member" now none])
      simp only [NewConversationRepo] at ih
      rw [ih, conversationRepo.AddParticipant_conversations hadd]

/-- The conversations table after `Create` on the SQL store: the old table, possibly
followed by one row of the normalised type. -/
theorem create_conversations (k : Codec) (clock : Time) (db : Db) (ToLower : String → String)
    (now : Time) (uuidNew : Nat → UUID) (userID : UUID) (convoType : String)
    (name : Option String) (participantIDs : List UUID) :
    let out := (sqlConversationService k clock).Create db ToLower now uuidNew userID convoType
      name participantIDs
    out.2.conversations = db.conversations ∨
      ((TrimSpace (ToLower convoType) = "direct" ∨ TrimSpace (ToLower convoType) = "group") ∧
        out.2.conversations = db.conversations ++
          [Conversation.mk (uuidNew 0) (TrimSpace (ToLower convoType)) name userID now now]) := by
  intro out
  have hnew : ∀ typ : String,
      (createNew (NewConversationRepo k clock) db now uuidNew userID typ name
        participantIDs).2.conversations = db.conversations ∨
      (createNew (NewConversationRepo k clock) db now uuidNew userID typ name
        participantIDs).2.conversations = db.conversations ++
          [Conversation.mk (uuidNew 0) typ name userID now now] := by
    intro typ
    simp only [createNew]
    split
    · left; rfl
    · rename_i db1 hc
      have hdb1 : db1.conversations = db.conversations ++
          [Conversation.mk (uuidNew 0) typ name userID now now] := by
        simp only [NewConversationRepo, conversationRepo.Create] at hc
        split at hc
        · rw [← Except.ok.inj hc]
        · exact absurd hc (by simp)
      right
      split
      · exact hdb1
      · rename_i db2 ho
        have hdb2 : db2.conversations = db1.conversations :=
          conversationRepo.AddParticipant_conversations ho
        have hloop := createMembersLoop_conversations k clock (uuidNew 0) now uuidNew
          participantIDs 2 db2
          [ConversationParticipant.mk (uuidNew 1) (uuidNew 0) userID "owner" now none]
        split
        · rename_i err st3 heq
          rw [heq] at hloop
          simp only at hloop
          rw [hloop, hdb2, hdb1]
        · rename_i allp st3 heq
          rw [heq] at hloop
          simp only at hloop
          rw [hloop, hdb2, hdb1]
  simp only [out, ConversationService.Create, sqlConversationService]
  split
  · left; rfl
  · rename_i hty
    have hok : TrimSpace (ToLower convoType) = "direct" ∨ TrimSpace (ToLower convoType) = "group" := by
      by_contra hcon
      exact hty ⟨fun h => hcon (Or.inl h), fun h => hcon (Or.inr h)⟩
    split
    · split
      · split
        · left; rfl
        · split
          · left; rfl
          · split
            · left; rfl
            · rcases hnew (TrimSpace (ToLower convoType)) with h | h
              · left; exact h
              · right; exact ⟨hok, h⟩
      · left; rfl
    · split
      · left; rfl
      · rcases hnew (TrimSpace (ToLower convoType)) with h | h
        · left; exact h
        · right; exact ⟨hok, h⟩

/-- C16: a type that after lower-casing and trimming is neither "direct" nor "group"
makes `Create` fail with the `ValidationError` on field "type", for every repository
and with the store left as it was; and on the SQL store every conversation that any
call of `Create` adds has type "direct" or "group". -/
theorem create_invalid_type (ToLower : String → String) :
    (∀ (s : ConversationService σ) (st : σ) (now : Time) (uuidNew : Nat → UUID)
        (userID : UUID) (convoType : String) (name : Option String)
        (participantIDs : List UUID),
      TrimSpace (ToLower convoType) ≠ "direct" → TrimSpace (ToLower convoType) ≠ "group" →
      ∃ message, s.Create st ToLower now uuidNew userID convoType name participantIDs
        = (.error (.ValidationError "type" message), st)) ∧
    (∀ (k : Codec) (clock : Time) (db : Db) (now : Time) (uuidNew : Nat → UUID)
        (userID : UUID) (convoType : String) (name : Option String)
        (participantIDs : List UUID),
      ∀ c ∈ ((sqlConversationService k clock).Create db ToLower now uuidNew userID convoType
          name participantIDs).2.conversations,
        c ∈ db.conversations ∨ c.Typ = "direct" ∨ c.Typ = "group") := by
  refine ⟨?_, ?_⟩
  · intro s st now uuidNew userID convoType name participantIDs h1 h2
    simp only [ConversationService.Create, h1, h2, ne_eq, not_false_eq_true, and_self, if_true]
    exact ⟨_, rfl⟩
  · intro k clock db now uuidNew userID convoType name participantIDs c hc
    rcases create_conversations k clock db ToLower now uuidNew userID convoType name
      participantIDs with h | ⟨hty, h⟩
    · left; rw [h] at hc; exact hc
    · rw [h, List.mem_append, List.mem_singleton] at hc
      rcases hc with hc | hc
      · left; exact hc
      · right
        rw [hc]
        exact hty

/-- C16, on the SQL store: the type "invalid" is rejected and nothing is written. -/
theorem create_invalid_type_witness :
    TrimSpace (asciiLower "invalid") ≠ "direct" ∧ TrimSpace (asciiLower "invalid") ≠ "group" ∧
      ∃ message, exampleConversations.Create exampleDb asciiLower t0 (fun i => 700 + i) 1
          "invalid" none [2] = (.error (.ValidationError "type" message), exampleDb) :=
  ⟨by decide, by decide,
    (create_invalid_type asciiLower).1 exampleConversations exampleDb t0 (fun i => 700 + i) 1
      "invalid" none [2] (by decide) (by decide)⟩

/-- C17: for type "direct", a participant list that is not exactly one id, or whose one
id is the creator, makes `Create` fail with a `ValidationError` on "participant_ids";
the error is fixed by the inputs alone, for every repository and every store, and the
store is left as it was. -/
theorem create_direct_bad_participants (ToLower : String → String) (convoType : String)
    (userID : UUID) (participantIDs : List UUID)
    (htyp : TrimSpace (ToLower convoType) = "direct")
    (hbad : participantIDs.length ≠ 1 ∨ participantIDs = [userID]) :
    ∃ message, ∀ (s : ConversationService σ) (st : σ) (now : Time) (uuidNew : Nat → UUID)
        (name : Option String),
      s.Create st ToLower now uuidNew userID convoType name participantIDs
        = (.error (.ValidationError "participant_ids" message), st) := by
  by_cases hself : participantIDs = [userID]
  · refine ⟨"cannot create a direct conversation with yourself", ?_⟩
    intro s st now uuidNew name
    subst hself
    simp [ConversationService.Create, htyp]
  · have hlen : participantIDs.length ≠ 1 := by
      rcases hbad with h | h
      · exact h
      · exact absurd h hself
    refine ⟨"direct conversations require exactly one other participant", ?_⟩
    intro s st now uuidNew name
    cases participantIDs with
    | nil => simp [ConversationService.Create, htyp]
    | cons a rest =>
      cases rest with
      | nil => exact absurd rfl hlen
      | cons b rest2 => simp [ConversationService.Create, htyp]

/-- C17, on the SQL store: user 1 asks for a direct conversation with themselves, and
with two others. -/
theorem create_direct_bad_participants_witness :
    (∃ message, exampleConversations.Create exampleDb asciiLower t0 (fun i => 700 + i) 1
        "direct" none [1] = (.error (.ValidationError "participant_ids" message), exampleDb)) ∧
    (∃ message, exampleConversations.Create exampleDb asciiLower t0 (fun i => 700 + i) 1
        "Direct" none [2, 3] = (.error (.ValidationError "participant_ids" message), exampleDb)) :=
  have ⟨m1, h1⟩ := create_direct_bad_participants (σ := Db) asciiLower "direct" 1 [1]
    (by decide) (by decide)
  have ⟨m2, h2⟩ := create_direct_bad_participants (σ := Db) asciiLower "Direct" 1 [2, 3]
    (by decide) (by decide)
  ⟨⟨m1, h1 exampleConversations exampleDb t0 (fun i => 700 + i) none⟩,
    ⟨m2, h2 exampleConversations exampleDb t0 (fun i => 700 + i) none⟩⟩

/-- The part of the group rule that `Create` checks: an empty participant list is
rejected with a `ValidationError` on "participant_ids", with the store left as it was. -/
theorem create_group_empty (s : ConversationService σ) (st : σ) (ToLower : String → String)
    (now : Time) (uuidNew : Nat → UUID) (userID : UUID) (convoType : String)
    (name : Option String) (htyp : TrimSpace (ToLower convoType) = "group") :
    s.Create st ToLower now uuidNew userID convoType name []
      = (.error (.ValidationError "participant_ids"
          "group conversations require at least one other participant"), st) := by
  simp [ConversationService.Create, htyp]

/-- C18, the code at the failing input: user 1 creates a group whose participant list
is the creator alone.  The list is not empty, so validation passes; the conversation
and the owner row are inserted, the insert of the creator as a member violates the
unique constraint, and `Create` returns `ErrConflict` with both rows left in the
store. -/
theorem create_group_only_creator :
    exampleConversations.Create emptyDb asciiLower t0 (fun i => 700 + i) 1 "group"
        (some "solo") [1]
      = (.error .ErrConflict,
          { emptyDb with
            conversations := [Conversation.mk 700 "group" (some "solo") 1 t0 t0]
            conversation_participants :=
              [ConversationParticipant.mk 701 700 1 "owner" t0 none] }) := by
  decide

/-- What `Update` does for a participant: whatever the type of the conversation, a name
that is not empty after trimming is handed to the repository. -/
theorem update_by_participant (s : ConversationService σ) (st : σ)
    (userID conversationID : UUID) (name : String) (hname : TrimSpace name ≠ "")
    (hpart : s.convos.IsParticipant st conversationID userID = .ok true) :
    s.Update st userID conversationID name
      = match s.convos.Update st conversationID (TrimSpace name) with
        | .error err => (.error err, st)
        | .ok (c, st1) => (.ok c, st1) := by
  simp only [ConversationService.Update, hname, if_false, hpart]

/-- C20, the code at the failing input: conversation 20 is a direct conversation of
users 1 and 2; `Update` by user 1 succeeds, and the stored conversation has the new
name and a new `updated_at`. -/
theorem update_renames_direct :
    conversationRepo.GetByID exampleDb 20 = .ok (Conversation.mk 20 "direct" none 1 t0 t0) ∧
    (exampleConversations.Update exampleDb 1 20 "renamed").1
      = .ok (Conversation.mk 20 "direct" (some "renamed") 1 t0 (t0 + 9000)) ∧
    conversationRepo.GetByID (exampleConversations.Update exampleDb 1 20 "renamed").2 20
      = .ok (Conversation.mk 20 "direct" (some "renamed") 1 t0 (t0 + 9000)) := by
  decide

/-! ## The result of a successful `Create` -/

/-- When the member loop of `Create` ends without error, `allParticipants` is the list
it started with, followed by one member entry per listed id, in order. -/
theorem createMembersLoop_ok (convos : ConversationRepository σ) (cid : UUID) (now : Time)
    (uuidNew : Nat → UUID) :
    ∀ (ids : List UUID) (i : Nat) (st st1 : σ) (all out : List ConversationParticipant),
      createMembersLoop convos cid now uuidNew i ids st all = (.ok out, st1) →
      out.map (fun p => (p.UserID, p.Role))
          = all.map (fun p => (p.UserID, p.Role)) ++ ids.map (fun u => (u, "member")) ∧
        ∀ p ∈ out, p ∈ all ∨ (p.ConversationID = cid ∧ p.LeftAt = none)
  | [], i, st, st1, all, out, h => by
    simp only [createMembersLoop, Prod.mk.injEq, Except.ok.injEq] at h
    obtain ⟨h1, -⟩ := h
    subst h1
    exact ⟨by simp, fun p hp => Or.inl hp⟩
  | pid :: rest, i, st, st1, all, out, h => by
    simp only [createMembersLoop] at h
    split at h
    · simp at h
    · rename_i st2 hadd
      obtain ⟨hmap, hmem⟩ := createMembersLoop_ok convos cid now uuidNew rest (i + 1) st2 st1
        (all ++ [ConversationParticipant.mk (uuidNew i) cid pid "member" now none]) out h
      refine ⟨?_, ?_⟩
      · rw [hmap]; simp
      · intro p hp
        rcases hmem p hp with h1 | h1
        · rw [List.mem_append, List.mem_singleton] at h1
          rcases h1 with h2 | h2
          · exact Or.inl h2
          · right; rw [h2]; exact ⟨rfl, rfl⟩
        · exact Or.inr h1

/-- The result of the creating part of `Create`, when it succeeds. -/
theorem createNew_ok (convos : ConversationRepository σ) (st st1 : σ) (now : Time)
    (uuidNew : Nat → UUID) (userID : UUID) (typ : String) (name : Option String)
    (participantIDs : List UUID) (r : CreateResult)
    (h : createNew convos st now uuidNew userID typ name participantIDs = (.ok r, st1)) :
    r.Conversation = Conversation.mk (uuidNew 0) typ name userID now now ∧
      r.Existing = false ∧
      r.Participants.map (fun p => (p.UserID, p.Role))
        = (userID, "owner") :: participantIDs.map (fun u => (u, "member")) ∧
      ∀ p ∈ r.Participants, p.ConversationID = uuidNew 0 ∧ p.LeftAt = none := by
  simp only [createNew] at h
  split at h
  · simp at h
  · split at h
    · simp at h
    · split at h
      · simp at h
      · rename_i allp st3 hloop
        simp only [Prod.mk.injEq, Except.ok.injEq] at h
        obtain ⟨hr, -⟩ := h
        subst hr
        obtain ⟨hmap, hmem⟩ := createMembersLoop_ok convos (uuidNew 0) now uuidNew
          participantIDs 2 _ _ _ _ hloop
        refine ⟨rfl, rfl, ?_, ?_⟩
        · rw [hmap]; rfl
        · intro p hp
          rcases hmem p hp with h1 | h1
          · rw [List.mem_singleton] at h1
            rw [h1]; exact ⟨rfl, rfl⟩
          · exact h1

/-- C19: when `Create` succeeds with `Existing = false`, the conversation has the
normalised type (which is "direct" or "group"), the given name, the caller as creator
and equal creation and update times, and the participants are the creator as "owner"
followed by the listed ids as "member", in the given order, all in the new
conversation: one more entry than ids, hence two for a direct conversation. -/
theorem create_result_shape (s : ConversationService σ) (st st1 : σ)
    (ToLower : String → String) (now : Time) (uuidNew : Nat → UUID) (userID : UUID)
    (convoType : String) (name : Option String) (participantIDs : List UUID)
    (r : CreateResult)
    (h : s.Create st ToLower now uuidNew userID convoType name participantIDs = (.ok r, st1))
    (hnew : r.Existing = false) :
    r.Conversation.Typ = TrimSpace (ToLower convoType) ∧
    (r.Conversation.Typ = "direct" ∨ r.Conversation.Typ = "group") ∧
    r.Conversation.Name = name ∧ r.Conversation.CreatedBy = userID ∧
    r.Conversation.CreatedAt = r.Conversation.UpdatedAt ∧
    r.Participants.map (fun p => (p.UserID, p.Role))
      = (userID, "owner") :: participantIDs.map (fun u => (u, "member")) ∧
    r.Participants.length = participantIDs.length + 1 ∧
    (∀ p ∈ r.Participants, p.ConversationID = r.Conversation.ID ∧ p.LeftAt = none) ∧
    (r.Conversation.Typ = "direct" → r.Participants.length = 2) := by
  have key : ∃ st0, (TrimSpace (ToLower convoType) = "direct" ∨
        TrimSpace (ToLower convoType) = "group") ∧
      (TrimSpace (ToLower convoType) = "direct" → participantIDs.length = 1) ∧
      createNew s.convos st0 now uuidNew userID (TrimSpace (ToLower convoType)) name
        participantIDs = (.ok r, st1) := by
    simp only [ConversationService.Create] at h
    split at h
    · simp at h
    · rename_i hty
      have hok : TrimSpace (ToLower convoType) = "direct" ∨
          TrimSpace (ToLower convoType) = "group" := by
        by_contra hcon
        exact hty ⟨fun h => hcon (Or.inl h), fun h => hcon (Or.inr h)⟩
      split at h
      · split at h
        · split at h
          · simp at h
          · split at h
            · simp only [Prod.mk.injEq, Except.ok.injEq] at h
              obtain ⟨hr, -⟩ := h
              rw [← hr] at hnew
              simp at hnew
            · split at h
              · simp at h
              · exact ⟨st, hok, fun _ => rfl, h⟩
        · simp at h
      · rename_i hnd
        split at h
        · simp at h
        · exact ⟨st, hok, fun hd => absurd hd hnd, h⟩
  obtain ⟨st0, hok, hone, hcreate⟩ := key
  obtain ⟨hconv, -, hmap, hmem⟩ := createNew_ok s.convos st0 st1 now uuidNew userID _ name
    participantIDs r hcreate
  have hlen : r.Participants.length = participantIDs.length + 1 := by
    have := congrArg List.length hmap
    simpa using this
  have htyp : r.Conversation.Typ = TrimSpace (ToLower convoType) := by rw [hconv]
  refine ⟨htyp, ?_, ?_, ?_, ?_, hmap, hlen, ?_, ?_⟩
  · rw [htyp]; exact hok
  · rw [hconv]
  · rw [hconv]
  · rw [hconv]
  · intro p hp
    rw [hconv]
    exact hmem p hp
  · intro hd
    rw [htyp] at hd
    rw [hlen, hone hd]

/-- C19, on the SQL store: user 1 creates a direct conversation with user 3 and a group
with users 2 and 3. -/
theorem create_result_shape_witness :
    (∃ r db1, exampleConversations.Create exampleDb asciiLower t0 (fun i => 700 + i) 1
        " Direct " none [3] = (.ok r, db1) ∧ r.Existing = false ∧
      r.Conversation.Typ = "direct" ∧
      r.Participants.map (fun p => (p.UserID, p.Role)) = [(1, "owner"), (3, "member")]) ∧
    (∃ r db1, exampleConversations.Create exampleDb asciiLower t0 (fun i => 700 + i) 1
        "group" (some "Test Group") [2, 3] = (.ok r, db1) ∧ r.Existing = false ∧
      r.Conversation.Name = some "Test Group" ∧ r.Participants.length = 3) := by
  have h1 : ((exampleConversations.Create exampleDb asciiLower t0 (fun i => 700 + i) 1
      " Direct " none [3]).1.toOption.map fun r => r.Existing) = some false := by decide
  have h2 : ((exampleConversations.Create exampleDb asciiLower t0 (fun i => 700 + i) 1
      "group" (some "Test Group") [2, 3]).1.toOption.map fun r => r.Existing) = some false := by
    decide
  constructor
  · cases hc : exampleConversations.Create exampleDb asciiLower t0 (fun i => 700 + i) 1
        " Direct " none [3] with
    | mk res db1 =>
      rw [hc] at h1
      cases res with
      | error e => simp [Except.toOption] at h1
      | ok r =>
        have hnew : r.Existing = false := by simpa [Except.toOption] using h1
        have hs := create_result_shape exampleConversations exampleDb db1 asciiLower t0
          (fun i => 700 + i) 1 " Direct " none [3] r hc hnew
        exact ⟨r, db1, rfl, hnew, hs.1.trans (by decide), hs.2.2.2.2.2.1⟩
  · cases hc : exampleConversations.Create exampleDb asciiLower t0 (fun i => 700 + i) 1
        "group" (some "Test Group") [2, 3] with
    | mk res db1 =>
      rw [hc] at h2
      cases res with
      | error e => simp [Except.toOption] at h2
      | ok r =>
        have hnew : r.Existing = false := by simpa [Except.toOption] using h2
        have hs := create_result_shape exampleConversations exampleDb db1 asciiLower t0
          (fun i => 700 + i) 1 "group" (some "Test Group") [2, 3] r hc hnew
        exact ⟨r, db1, rfl, hnew, hs.2.2.1, hs.2.2.2.2.2.2.1⟩

/-! ## One direct conversation per pair -/

/-- A successful SQL `Create` of a conversation: the id was not in the table and the row
is appended. -/
theorem conversationRepo.Create_row_ok {db db1 : Db} {c : Conversation}
    (h : conversationRepo.Create db c = .ok db1) :
    conversationRepo.insertable db c = true ∧
      db1 = { db with conversations := db.conversations ++ [c] } := by
  unfold conversationRepo.Create at h
  split at h
  · rename_i hins
    exact ⟨hins, (Except.ok.inj h).symm⟩
  · exact absurd h (by simp)

/-- A successful SQL `AddParticipant` appends the row as an active one. -/
theorem conversationRepo.AddParticipant_ok {db db1 : Db} {p : ConversationParticipant}
    (h : conversationRepo.AddParticipant db p = .ok db1) :
    db1 = { db with conversation_participants :=
      db.conversation_participants ++ [{ p with LeftAt := none }] } := by
  unfold conversationRepo.AddParticipant at h
  split at h
  · exact (Except.ok.inj h).symm
  · exact absurd h (by simp)

/-- The query of `FindDirectBetween` returns the first conversation that is a direct
conversation between the two users. -/
theorem conversationRepo.FindDirectBetween_eq (db : Db) (a b : UUID) :
    conversationRepo.FindDirectBetween db a b
      = match db.conversations.find? (directBetween db a b) with
        | none => .error .ErrNotFound
        | some c => .ok c := rfl

/-- The condition of `FindDirectBetween` does not depend on the order of the two users. -/
theorem directBetween_comm (db : Db) (a b : UUID) (c : Conversation) :
    directBetween db a b c = directBetween db b a c := by
  simp only [directBetween, Bool.and_assoc]
  rw [Bool.and_comm (db.conversation_participants.any (activeRow c.ID a))]

/-- The query `FindDirectBetween` does not depend on the order of the two users. -/
theorem conversationRepo.FindDirectBetween_comm (db : Db) (a b : UUID) :
    conversationRepo.FindDirectBetween db a b = conversationRepo.FindDirectBetween db b a := by
  rw [conversationRepo.FindDirectBetween_eq, conversationRepo.FindDirectBetween_eq]
  have : directBetween db a b = directBetween db b a := funext (directBetween_comm db a b)
  rw [this]

/-- The rule "at most one direct conversation" does not depend on the order of the pair. -/
theorem atMostOneDirect_comm (db : Db) (a b : UUID) :
    atMostOneDirect db a b ↔ atMostOneDirect db b a := by
  simp only [atMostOneDirect, directBetween_comm db a b]

/-- When `FindDirectBetween` finds a conversation, `Create` of a direct conversation
with one other user returns it with `Existing = true` and leaves the store as it was. -/
theorem create_direct_existing (s : ConversationService σ) (st : σ) (ToLower : String → String)
    (now : Time) (uuidNew : Nat → UUID) (userID other : UUID) (convoType : String)
    (name : Option String) (c : Conversation)
    (htyp : TrimSpace (ToLower convoType) = "direct") (hne : other ≠ userID)
    (hfind : s.convos.FindDirectBetween st userID other = .ok c) :
    ∃ r, s.Create st ToLower now uuidNew userID convoType name [other] = (.ok r, st) ∧
      r.Conversation = c ∧ r.Existing = true := by
  simp only [ConversationService.Create, htyp, ne_eq, not_true_eq_false, false_and, if_false,
    if_true, hne, hfind]
  exact ⟨_, rfl, rfl, rfl⟩

/-- The store after the creating part of `Create` succeeded for one listed user on the
SQL store: the conversation row and the two participant rows are appended, and the id
of the conversation was new. -/
theorem createNew_pair_ok {k : Codec} {clock : Time} {db db1 : Db} {now : Time}
    {uuidNew : Nat → UUID} {a b : UUID} {typ : String} {name : Option String}
    {r : CreateResult}
    (h : createNew (NewConversationRepo k clock) db now uuidNew a typ name [b] = (.ok r, db1)) :
    r.Conversation = Conversation.mk (uuidNew 0) typ name a now now ∧
      conversationRepo.insertable db r.Conversation = true ∧
      db1.conversations = db.conversations ++ [r.Conversation] ∧
      db1.conversation_participants = db.conversation_participants ++
        [ConversationParticipant.mk (uuidNew 1) (uuidNew 0) a "owner" now none,
         ConversationParticipant.mk (uuidNew 2) (uuidNew 0) b "member" now none] := by
  simp only [createNew, NewConversationRepo, createMembersLoop] at h
  split at h
  · simp at h
  · rename_i dbc hc
    obtain ⟨hins, hdbc⟩ := conversationRepo.Create_row_ok hc
    split at h
    · simp at h
    · rename_i dbo ho
      have hdbo := conversationRepo.AddParticipant_ok ho
      split at h
      · rename_i err st3 heq
        simp at h
      · rename_i allp st3 heq
        split at heq
        · simp at heq
        · rename_i dbm hm
          have hdbm := conversationRepo.AddParticipant_ok hm
          simp only [Prod.mk.injEq, Except.ok.injEq] at heq h
          obtain ⟨-, hst3⟩ := heq
          obtain ⟨hr, hdb1⟩ := h
          subst hr
          subst hdb1
          subst hst3
          refine ⟨rfl, hins, ?_, ?_⟩
          · rw [hdbm, hdbo, hdbc]
          · rw [hdbm, hdbo, hdbc]
            simp

/-- Rows of another conversation do not change whether a conversation is a direct
conversation between two users. -/
theorem directBetween_append (db db1 : Db) (a b : UUID) (c : Conversation)
    (rows : List ConversationParticipant)
    (hrows : db1.conversation_participants = db.conversation_participants ++ rows)
    (hother : ∀ p ∈ rows, p.ConversationID ≠ c.ID) :
    directBetween db1 a b c = directBetween db a b c := by
  have hany : ∀ u, rows.any (activeRow c.ID u) = false := by
    intro u
    rw [List.any_eq_false]
    intro p hp
    simp [activeRow, hother p hp]
  simp only [directBetween, hrows, List.any_append, hany, Bool.or_false]

/-- After a successful `Create` of a direct conversation of `a` with `b` on the SQL
store, `FindDirectBetween` finds the returned conversation, and the rule "at most one
direct conversation between `a` and `b`" still holds if it held before. -/
theorem findDirect_after_create {k : Codec} {clock : Time} {db db1 : Db}
    {ToLower : String → String} {now : Time} {uuidNew : Nat → UUID} {a b : UUID}
    {convoType : String} {name : Option String} {r : CreateResult}
    (htyp : TrimSpace (ToLower convoType) = "direct")
    (h : (sqlConversationService k clock).Create db ToLower now uuidNew a convoType name [b]
      = (.ok r, db1)) :
    conversationRepo.FindDirectBetween db1 a b = .ok r.Conversation ∧
      (atMostOneDirect db a b → atMostOneDirect db1 a b) := by
  simp only [ConversationService.Create, sqlConversationService, htyp] at h
  simp only [ne_eq, not_true_eq_false, false_and, if_false, if_true] at h
  split at h
  · simp at h
  · rename_i hne
    split at h
    · rename_i c hfind
      simp only [Prod.mk.injEq, Except.ok.injEq] at h
      obtain ⟨hr, hdb⟩ := h
      subst hr; subst hdb
      exact ⟨hfind, fun hu => hu⟩
    · rename_i err hfind
      split at h
      · simp at h
      · obtain ⟨hconv, hins, hcs, hps⟩ := createNew_pair_ok h
        simp only [NewConversationRepo, conversationRepo.FindDirectBetween_eq] at hfind
        have hnone : db.conversations.find? (directBetween db a b) = none := by
          cases hf : db.conversations.find? (directBetween db a b) with
          | none => rfl
          | some c => rw [hf] at hfind; simp at hfind
        have hold : ∀ c ∈ db.conversations, directBetween db1 a b c = false := by
          intro c hc
          have hid : c.ID ≠ uuidNew 0 := by
            intro heq
            simp only [conversationRepo.insertable, Bool.not_eq_true', List.any_eq_false,
              decide_eq_true_eq] at hins
            exact hins c hc (by rw [hconv]; exact heq)
          rw [directBetween_append db db1 a b c _ hps]
          · have := List.find?_eq_none.mp hnone c hc
            simpa using this
          · intro p hp
            simp only [List.mem_cons, List.mem_singleton, List.not_mem_nil, or_false] at hp
            rcases hp with hp | hp <;> rw [hp] <;> exact fun heq => hid heq.symm
        have hnew : directBetween db1 a b r.Conversation = true := by
          simp only [directBetween, hps, hconv, List.any_append, List.any_cons, List.any_nil,
            activeRow]
          simp
        refine ⟨?_, ?_⟩
        · rw [conversationRepo.FindDirectBetween_eq, hcs, List.find?_append]
          have hn : db.conversations.find? (directBetween db1 a b) = none := by
            rw [List.find?_eq_none]
            intro c hc
            rw [hold c hc]
            simp
          rw [hn]
          simp [List.find?, hnew]
        · intro _ c1 hc1 c2 hc2 h1 h2
          rw [hcs, List.mem_append, List.mem_singleton] at hc1 hc2
          rcases hc1 with hc1 | hc1
          · rw [hold c1 hc1] at h1; exact absurd h1 (by simp)
          · rcases hc2 with hc2 | hc2
            · rw [hold c2 hc2] at h2; exact absurd h2 (by simp)
            · rw [hc1, hc2]

/-- C15: after a successful `Create` of a direct conversation by `A` against `B` on the
SQL store, every further `Create` of a direct conversation for the pair in the store it
leaves, by `A` against `B` or by `B` against `A`, returns the same conversation id with
`Existing = true` and returns the store unchanged; and if the store had at most one
direct conversation in which both are active, so has the store after the call. -/
theorem direct_create_idempotent (k : Codec) (clock : Time) (db db1 : Db)
    (ToLower : String → String) (now : Time) (uuidNew : Nat → UUID) (A B : UUID)
    (convoType : String) (name : Option String) (r : CreateResult) (hAB : A ≠ B)
    (htyp : TrimSpace (ToLower convoType) = "direct")
    (h : (sqlConversationService k clock).Create db ToLower now uuidNew A convoType name [B]
      = (.ok r, db1)) :
    (∀ (now2 : Time) (uuidNew2 : Nat → UUID) (convoType2 : String) (name2 : Option String),
      TrimSpace (ToLower convoType2) = "direct" →
      (∃ r2, (sqlConversationService k clock).Create db1 ToLower now2 uuidNew2 A convoType2
          name2 [B] = (.ok r2, db1) ∧
        r2.Conversation.ID = r.Conversation.ID ∧ r2.Existing = true) ∧
      (∃ r3, (sqlConversationService k clock).Create db1 ToLower now2 uuidNew2 B convoType2
          name2 [A] = (.ok r3, db1) ∧
        r3.Conversation.ID = r.Conversation.ID ∧ r3.Existing = true)) ∧
    (atMostOneDirect db A B → atMostOneDirect db1 A B) ∧
    (atMostOneDirect db B A → atMostOneDirect db1 B A) := by
  obtain ⟨hfind, hkeep⟩ := findDirect_after_create htyp h
  refine ⟨?_, hkeep, ?_⟩
  · intro now2 uuidNew2 convoType2 name2 htyp2
    constructor
    · obtain ⟨r2, h2, hc, he⟩ := create_direct_existing (sqlConversationService k clock) db1
        ToLower now2 uuidNew2 A B convoType2 name2 r.Conversation htyp2 (Ne.symm hAB) hfind
      exact ⟨r2, h2, by rw [hc], he⟩
    · have hfind2 : conversationRepo.FindDirectBetween db1 B A = .ok r.Conversation := by
        rw [conversationRepo.FindDirectBetween_comm]; exact hfind
      obtain ⟨r3, h3, hc, he⟩ := create_direct_existing (sqlConversationService k clock) db1
        ToLower now2 uuidNew2 B A convoType2 name2 r.Conversation htyp2 hAB hfind2
      exact ⟨r3, h3, by rw [hc], he⟩
  · intro hu
    rw [atMostOneDirect_comm] at hu ⊢
    exact hkeep hu

/-- C15, on the SQL store: user 1 creates a direct conversation with user 3; asking
again, from either side, returns conversation 700 as existing and writes nothing. -/
theorem direct_create_idempotent_witness :
    exampleConversations.Create exampleDb asciiLower t0 (fun i => 700 + i) 1 "direct" none [3]
      = (.ok directResult, exampleDbDirect) ∧
    (∃ r2, exampleConversations.Create exampleDbDirect asciiLower (t0 + 1) (fun i => 800 + i) 1
        " Direct" none [3] = (.ok r2, exampleDbDirect) ∧
      r2.Conversation.ID = 700 ∧ r2.Existing = true) ∧
    (∃ r3, exampleConversations.Create exampleDbDirect asciiLower (t0 + 1) (fun i => 800 + i) 3
        " Direct" none [1] = (.ok r3, exampleDbDirect) ∧
      r3.Conversation.ID = 700 ∧ r3.Existing = true) ∧
    atMostOneDirect exampleDbDirect 1 3 :=
  have h := direct_create_idempotent refCodec (t0 + 9000) exampleDb exampleDbDirect asciiLower
    t0 (fun i => 700 + i) 1 3 "direct" none directResult (by decide) (by decide) (by decide)
  ⟨by decide, (h.1 (t0 + 1) (fun i => 800 + i) " Direct" none (by decide)).1,
    (h.1 (t0 + 1) (fun i => 800 + i) " Direct" none (by decide)).2, h.2.1 (by decide)⟩

/-! ## The cursor codec -/

/-- The split at the first separator, read back. -/
theorem splitBar_some : ∀ (l p0 p1 : List Char), splitBar l = some (p0, p1) →
    l = p0 ++ '|' :: p1 ∧ '|' ∉ p0
  | [], p0, p1, h => by simp [splitBar] at h
  | c :: cs, p0, p1, h => by
    unfold splitBar at h
    split at h
    · rename_i hc
      simp only [Option.some.injEq, Prod.mk.injEq] at h
      obtain ⟨h0, h1⟩ := h
      subst h0; subst h1
      simp [hc]
    · rename_i hc
      split at h
      · simp at h
      · rename_i a b hs
        simp only [Option.some.injEq, Prod.mk.injEq] at h
        obtain ⟨h0, h1⟩ := h
        subst h0; subst h1
        obtain ⟨hl, hn⟩ := splitBar_some cs a b hs
        refine ⟨by rw [hl]; rfl, ?_⟩
        simp only [List.mem_cons, not_or]
        exact ⟨fun hcc => hc hcc.symm, hn⟩

/-- A text without separator, followed by a separator, is split there. -/
theorem splitBar_append : ∀ (a b : List Char), '|' ∉ a → splitBar (a ++ '|' :: b) = some (a, b)
  | [], b, _ => by simp [splitBar]
  | c :: cs, b, h => by
    simp only [List.mem_cons, not_or] at h
    have hc : ¬ c = '|' := fun hcc => h.1 hcc.symm
    have ih := splitBar_append cs b h.2
    show splitBar (c :: (cs ++ '|' :: b)) = some (c :: cs, b)
    rw [splitBar, if_neg hc, ih]

/-- The characters of the text that `encodeCursor` encodes. -/
theorem raw_cursor_data (a b : String) : (a ++ "|" ++ b).data = a.data ++ '|' :: b.data := by
  simp [String.data_append]

/-- The name cursor of a display name without separator decodes to the name and the id,
when the library codecs invert each other on it. -/
theorem decodeCursor_encodeCursor (k : Codec) (name : String) (id : UUID)
    (hbar : '|' ∉ name.data)
    (hb64 : k.base64Decode (k.base64Encode (name ++ "|" ++ k.uuidString id))
      = some (name ++ "|" ++ k.uuidString id))
    (huuid : k.uuidParse (k.uuidString id) = some id) :
    decodeCursor k (encodeCursor k name id) = .ok (name, id) := by
  simp only [decodeCursor, encodeCursor, hb64, raw_cursor_data, splitBar_append _ _ hbar]
  show (match k.uuidParse (k.uuidString id) with
    | none => Except.error (Error.Wrapped "invalid cursor uuid")
    | some i => Except.ok (name, i)) = Except.ok (name, id)
  rw [huuid]

/-- The time cursor decodes to the instant and the id, when the library codecs invert
each other on it and the text of the time has no separator. -/
theorem decodeTimeCursor_encodeTimeCursor (k : Codec) (t : Time) (id : UUID)
    (hbar : '|' ∉ (k.formatTime t).data)
    (hb64 : k.base64Decode (k.base64Encode (k.formatTime t ++ "|" ++ k.uuidString id))
      = some (k.formatTime t ++ "|" ++ k.uuidString id))
    (htime : k.parseTime (k.formatTime t) = some t)
    (huuid : k.uuidParse (k.uuidString id) = some id) :
    decodeTimeCursor k (encodeTimeCursor k t id) = .ok (t, id) := by
  simp only [decodeTimeCursor, encodeTimeCursor, hb64, raw_cursor_data,
    splitBar_append _ _ hbar]
  show (match k.parseTime (k.formatTime t) with
    | none => Except.error (Error.Wrapped "invalid cursor time")
    | some t1 =>
      match k.uuidParse (k.uuidString id) with
      | none => Except.error (Error.Wrapped "invalid cursor uuid")
      | some i => Except.ok (t1, i)) = Except.ok (t, id)
  rw [htime, huuid]

/-- For every codec whose base64 decoder inverts its encoder, the name cursor of a
display name that contains the separator does not decode to the name. -/
theorem decodeCursor_separator_in_name (k : Codec) (name : String) (id : UUID)
    (hbar : '|' ∈ name.data)
    (hb64 : k.base64Decode (k.base64Encode (name ++ "|" ++ k.uuidString id))
      = some (name ++ "|" ++ k.uuidString id)) :
    ∀ id1, decodeCursor k (encodeCursor k name id) ≠ .ok (name, id1) := by
  intro id1 h
  simp only [decodeCursor, encodeCursor, hb64] at h
  split at h
  · simp at h
  · rename_i p0 p1 hs
    have hp0 := (splitBar_some _ _ _ hs).2
    split at h
    · simp at h
    · simp only [Except.ok.injEq, Prod.mk.injEq] at h
      have hname : name.data = p0 := by rw [← h.1]
      rw [hname] at hbar
      exact hp0 hbar

/-- C13, the code at the failing input: the display name "al|ex" contains the
separator; its cursor does not decode, and the cursor that `Search` returns for a page
ending at that user is rejected by `Search` as invalid. -/
theorem name_cursor_with_separator :
    decodeCursor refCodec (encodeCursor refCodec "al|ex" 3)
      = .error (.Wrapped "invalid cursor uuid") ∧
    (userRepo.Search refText refCodec exampleUsersDb "a" "" 4).map
        (fun page => (page.Items.map fun u => u.DisplayName, page.HasMore, page.NextCursor))
      = .ok (["Alan", "alice", "ally", "al|ex"], true, some (encodeCursor refCodec "al|ex" 3)) ∧
    userRepo.Search refText refCodec exampleUsersDb "a" (encodeCursor refCodec "al|ex" 3) 4
      = .error (.ValidationError "cursor" "invalid cursor") := by
  decide

/-! ## The pages of the three list queries -/

/-- The page that a list query cuts out of its fetched items, for any item type. -/
theorem page_shape_items {β : Type} (l : Int) (h1 : 1 ≤ l) (rows : List β) :
    (if decide (((rows.take (l + 1).toNat).length : Int) > l) = true then
        (rows.take (l + 1).toNat).take l.toNat
      else rows.take (l + 1).toNat) = rows.take l.toNat ∧
    decide (((rows.take (l + 1).toNat).length : Int) > l) = decide (l.toNat < rows.length) := by
  obtain ⟨n, rfl⟩ := Int.eq_ofNat_of_zero_le (by omega : 0 ≤ l)
  have e1 : ((n : Int) + 1).toNat = n + 1 := by omega
  have e2 : ((n : Int)).toNat = n := by omega
  rw [e1, e2]
  by_cases hlt : n < rows.length
  · have hlen : (rows.take (n + 1)).length = n + 1 := by
      rw [List.length_take]; omega
    have hgt : ((rows.take (n + 1)).length : Int) > n := by rw [hlen]; omega
    simp only [hgt, decide_True, if_true, hlt, and_true]
    rw [List.take_take]
    congr 1
    omega
  · have hle : rows.length ≤ n := by omega
    have htake : rows.take (n + 1) = rows := List.take_of_length_le (by omega)
    have hng : ¬ ((rows.length : Int) > n) := by omega
    simp only [htake, hng, decide_False, hlt, and_true, Bool.false_eq_true, if_false]
    exact (List.take_of_length_le hle).symm

/-- The page that a list query cuts out of its fetched rows, scanned into items. -/
theorem page_shape_map {α β : Type} (f : α → β) (l : Int) (h1 : 1 ≤ l) (rows : List α) :
    (if decide ((((rows.take (l + 1).toNat).map f).length : Int) > l) = true then
        ((rows.take (l + 1).toNat).map f).take l.toNat
      else (rows.take (l + 1).toNat).map f) = (rows.map f).take l.toNat ∧
    decide ((((rows.take (l + 1).toNat).map f).length : Int) > l)
      = decide (l.toNat < (rows.map f).length) := by
  have h := page_shape_items l h1 (rows.map f)
  have e : (rows.take (l + 1).toNat).map f = (rows.map f).take (l + 1).toNat :=
    List.map_take ..
  rw [e]
  exact h

/-- The limit `ListByUser` and `Search` work with is at least 1. -/
theorem one_le_effective_limit20 (limit : Int) :
    1 ≤ (if limit ≤ 0 ∨ limit > 100 then (20 : Int) else limit) := by
  split_ifs with h
  · omega
  · omega

/-- The result of `ListByConversation`, by its cursor clause. -/
theorem messageRepo.ListByConversation_eq (k : Codec) (db : Db) (conversationID : UUID)
    (cursor : String) (limit : Int) :
    messageRepo.ListByConversation k db conversationID cursor limit
      = match timeCursorOf k cursor with
        | .error e => .error e
        | .ok cur => .ok (pageOf k (pageSize limit) (selectedRows db conversationID cur)) := by
  by_cases hc : cursor = ""
  · subst hc
    rw [messageRepo.ListByConversation_first]
    simp [timeCursorOf]
  · cases hdec : decodeTimeCursor k cursor with
    | error e =>
      simp only [messageRepo.ListByConversation, timeCursorOf, ne_eq, hc, not_false_eq_true,
        if_true, hdec]
    | ok cu =>
      rw [messageRepo.ListByConversation_next k db conversationID limit cursor cu hc hdec]
      simp only [timeCursorOf, ne_eq, hc, not_false_eq_true, if_true, hdec]

/-- The result of `ListByUser` once the cursor is read. -/
theorem conversationRepo.ListByUser_page (k : Codec) (db : Db) (userID : UUID) (limit : Int)
    (cur : Option (Time × UUID)) :
    (let limit : Int := if limit ≤ 0 ∨ limit > 100 then 20 else limit
     let fetchLimit := limit + 1
     let rows := (conversationRepo.joinRows db userID).filter fun c =>
       match cur with
       | none => true
       | some cu => rowLt c.key cu
     let fetched := (rows.insertionSort convDesc).take fetchLimit.toNat
     let results : List ConversationSummary :=
       fetched.map fun c => { ID := c.ID, Typ := c.Typ, Name := c.Name }
     let hasMore := decide ((results.length : Int) > limit)
     let results := if hasMore then results.take limit.toNat else results
     let nextCursor : Option String :=
       if hasMore ∧ results.length > 0 then
         match results.getLast? with
         | none => none
         | some last =>
           let lastUpdatedAt : Time :=
             match db.conversations.find? fun c => decide (c.ID = last.ID) with
             | none => 0
             | some c => c.UpdatedAt
           some (encodeTimeCursor k lastUpdatedAt last.ID)
       else none
     ({ Items := results, NextCursor := nextCursor, HasMore := hasMore } :
       Page ConversationSummary))
      = pageFrom (pageSize20 limit) ((selectedConversations db userID cur).map summaryOf)
          (fun last => encodeTimeCursor k (refetchedUpdatedAt db last) last.ID) := by
  have h := page_shape_map summaryOf _ (one_le_effective_limit20 limit)
    (selectedConversations db userID cur)
  obtain ⟨hitems, hmore⟩ := h
  unfold pageFrom pageSize20 refetchedUpdatedAt
  unfold selectedConversations summaryOf at hitems hmore ⊢
  dsimp only at hitems hmore ⊢
  rw [hitems, hmore]
  congr 1
  congr 1
  split <;> rename_i heq <;> simp only [heq]

/-- The result of `ListByUser`, by its cursor clause. -/
theorem conversationRepo.ListByUser_eq (k : Codec) (db : Db) (userID : UUID)
    (cursor : String) (limit : Int) :
    conversationRepo.ListByUser k db userID cursor limit
      = match timeCursorOf k cursor with
        | .error e => .error e
        | .ok cur =>
          .ok (pageFrom (pageSize20 limit) ((selectedConversations db userID cur).map summaryOf)
            (fun last => encodeTimeCursor k (refetchedUpdatedAt db last) last.ID)) := by
  by_cases hc : cursor = ""
  · subst hc
    have h := conversationRepo.ListByUser_page k db userID limit none
    simp only [conversationRepo.ListByUser, timeCursorOf, ne_eq, not_true_eq_false, if_false]
    exact congrArg Except.ok h
  · cases hdec : decodeTimeCursor k cursor with
    | error e =>
      simp only [conversationRepo.ListByUser, timeCursorOf, ne_eq, hc, not_false_eq_true,
        if_true, hdec]
    | ok cu =>
      have h := conversationRepo.ListByUser_page k db userID limit (some cu)
      simp only [conversationRepo.ListByUser, timeCursorOf, ne_eq, hc, not_false_eq_true,
        if_true, hdec]
      exact congrArg Except.ok h

/-- The result of `Search` once the cursor is read. -/
theorem userRepo.Search_page (q : SqlText) (k : Codec) (db : Db) (query : String) (limit : Int)
    (cur : Option (String × UUID)) :
    (let limit : Int := if limit ≤ 0 ∨ limit > 100 then 20 else limit
     let fetchLimit := limit + 1
     let rows := db.users.filter fun u =>
       q.ilike u.DisplayName (query ++ "%") &&
         match cur with
         | none => true
         | some cu => userRowGt q u.key cu
     let fetched := (rows.insertionSort (userAsc q)).take fetchLimit.toNat
     let results : List UserSearchResult :=
       fetched.map fun u => { ID := u.ID, DisplayName := u.DisplayName, AvatarURL := u.AvatarURL }
     let hasMore := decide ((results.length : Int) > limit)
     let results := if hasMore then results.take limit.toNat else results
     let nextCursor : Option String :=
       if hasMore ∧ results.length > 0 then
         match results.getLast? with
         | none => none
         | some last => some (encodeCursor k last.DisplayName last.ID)
       else none
     ({ Items := results, NextCursor := nextCursor, HasMore := hasMore } :
       Page UserSearchResult))
      = pageFrom (pageSize20 limit) ((selectedUsers q db query cur).map searchResultOf)
          (fun last => encodeCursor k last.DisplayName last.ID) := by
  have h := page_shape_map searchResultOf _ (one_le_effective_limit20 limit)
    (selectedUsers q db query cur)
  obtain ⟨hitems, hmore⟩ := h
  unfold pageFrom pageSize20
  unfold selectedUsers searchResultOf at hitems hmore ⊢
  dsimp only at hitems hmore ⊢
  rw [hitems, hmore]
  congr 1
  congr 1
  split <;> rename_i heq <;> simp only [heq]

/-- The result of `Search`, by its cursor clause. -/
theorem userRepo.Search_eq (q : SqlText) (k : Codec) (db : Db) (query : String)
    (cursor : String) (limit : Int) :
    userRepo.Search q k db query cursor limit
      = match nameCursorOf k cursor with
        | .error e => .error e
        | .ok cur =>
          .ok (pageFrom (pageSize20 limit) ((selectedUsers q db query cur).map searchResultOf)
            (fun last => encodeCursor k last.DisplayName last.ID)) := by
  by_cases hc : cursor = ""
  · subst hc
    have h := userRepo.Search_page q k db query limit none
    simp only [userRepo.Search, nameCursorOf, ne_eq, not_true_eq_false, if_false]
    exact congrArg Except.ok h
  · cases hdec : decodeCursor k cursor with
    | error e =>
      simp only [userRepo.Search, nameCursorOf, ne_eq, hc, not_false_eq_true, if_true, hdec]
    | ok cu =>
      have h := userRepo.Search_page q k db query limit (some cu)
      simp only [userRepo.Search, nameCursorOf, ne_eq, hc, not_false_eq_true, if_true, hdec]
      exact congrArg Except.ok h

/-- The page `pageOf` of the message history is the generic page. -/
theorem pageOf_eq_pageFrom (k : Codec) (n : Nat) (rows : List Message) :
    pageOf k n rows = pageFrom n rows fun m => encodeTimeCursor k m.CreatedAt m.ID := by
  unfold pageOf pageFrom
  dsimp only
  congr 1
  congr 1
  split <;> rename_i heq <;> simp only [heq]

/-- The generic page holds the first `n` items, at most `n` of them, and has `HasMore`
exactly when there are at least `n + 1` items. -/
theorem pageFrom_items {β : Type} (n : Nat) (rows : List β) (cursorOf : β → String) :
    (pageFrom n rows cursorOf).Items = rows.take n ∧
      (pageFrom n rows cursorOf).Items.length ≤ n ∧
      ((pageFrom n rows cursorOf).HasMore = true ↔ n + 1 ≤ rows.length) := by
  refine ⟨rfl, ?_, ?_⟩
  · show (rows.take n).length ≤ n
    rw [List.length_take]
    omega
  · show decide (n < rows.length) = true ↔ n + 1 ≤ rows.length
    rw [decide_eq_true_eq]
    omega

/-- The generic page with a page size of at least 1 carries a cursor exactly when it has
`HasMore`, and the cursor is the one of the last item of the page. -/
theorem pageFrom_next {β : Type} (n : Nat) (hn : 1 ≤ n) (rows : List β)
    (cursorOf : β → String) :
    (pageFrom n rows cursorOf).NextCursor.isSome = (pageFrom n rows cursorOf).HasMore ∧
      ∀ c, (pageFrom n rows cursorOf).NextCursor = some c →
        ∃ last, (pageFrom n rows cursorOf).Items.getLast? = some last ∧ c = cursorOf last := by
  by_cases hlt : n < rows.length
  · have htl : (rows.take n).length = n := by
      rw [List.length_take]; omega
    have hne : rows.take n ≠ [] := by
      intro h0
      rw [h0] at htl
      simp only [List.length_nil] at htl
      omega
    have hlast := List.getLast?_eq_getLast _ hne
    have hpos : (rows.take n).length > 0 := by omega
    have hnext : (pageFrom n rows cursorOf).NextCursor
        = some (cursorOf ((rows.take n).getLast hne)) := by
      simp only [pageFrom, hlt, decide_True, hpos, and_self, if_true, hlast]
    have hmore : (pageFrom n rows cursorOf).HasMore = true := by
      simp only [pageFrom, hlt, decide_True]
    refine ⟨by rw [hnext, hmore]; rfl, ?_⟩
    intro c hc
    rw [hnext] at hc
    exact ⟨_, hlast, (Option.some.inj hc).symm⟩
  · have hnext : (pageFrom n rows cursorOf).NextCursor = none := by
      simp only [pageFrom, hlt, decide_False, Bool.false_eq_true, false_and, if_false]
    have hmore : (pageFrom n rows cursorOf).HasMore = false := by
      simp only [pageFrom, hlt, decide_False]
    refine ⟨by rw [hnext, hmore]; rfl, ?_⟩
    intro c hc
    rw [hnext] at hc
    exact absurd hc (by simp)

/-- A limit in 1..100 is the page size of the message history. -/
theorem pageSize_of_valid (N : Nat) (h1 : 1 ≤ N) (h100 : N ≤ 100) : pageSize (N : Int) = N := by
  unfold pageSize
  rw [if_neg (by omega)]
  omega

/-- A limit in 1..100 is the page size of the conversation list and of the search. -/
theorem pageSize20_of_valid (N : Nat) (h1 : 1 ≤ N) (h100 : N ≤ 100) :
    pageSize20 (N : Int) = N := by
  unfold pageSize20
  rw [if_neg (by omega)]
  omega

/-- The page size of the conversation list and of the search is at least 1. -/
theorem one_le_pageSize20 (limit : Int) : 1 ≤ pageSize20 limit := by
  have h := one_le_effective_limit20 limit
  unfold pageSize20
  omega

/-- C11: for a limit `N` in 1..100 and a cursor that is read as the bound `cur`, each of
the three list queries returns a page whose items are the first `N` rows of the rows
its query selects, in the query's order (at most `N` items), and `HasMore` holds
exactly when at least `N + 1` rows are selected. -/
theorem list_page_limit (q : SqlText) (k : Codec) (db : Db) (N : Nat) (h1 : 1 ≤ N)
    (h100 : N ≤ 100) :
    (∀ conversationID cursor cur, timeCursorOf k cursor = .ok cur →
      ∃ page, messageRepo.ListByConversation k db conversationID cursor N = .ok page ∧
        page.Items = (selectedRows db conversationID cur).take N ∧ page.Items.length ≤ N ∧
        (page.HasMore = true ↔ N + 1 ≤ (selectedRows db conversationID cur).length)) ∧
    (∀ userID cursor cur, timeCursorOf k cursor = .ok cur →
      ∃ page, conversationRepo.ListByUser k db userID cursor N = .ok page ∧
        page.Items = ((selectedConversations db userID cur).take N).map summaryOf ∧
        page.Items.length ≤ N ∧
        (page.HasMore = true ↔ N + 1 ≤ (selectedConversations db userID cur).length)) ∧
    (∀ query cursor cur, nameCursorOf k cursor = .ok cur →
      ∃ page, userRepo.Search q k db query cursor N = .ok page ∧
        page.Items = ((selectedUsers q db query cur).take N).map searchResultOf ∧
        page.Items.length ≤ N ∧
        (page.HasMore = true ↔ N + 1 ≤ (selectedUsers q db query cur).length)) := by
  refine ⟨?_, ?_, ?_⟩
  · intro conversationID cursor cur hcur
    rw [messageRepo.ListByConversation_eq, hcur]
    refine ⟨_, rfl, ?_⟩
    · rw [pageSize_of_valid N h1 h100, pageOf_eq_pageFrom]
      exact pageFrom_items N _ _
  · intro userID cursor cur hcur
    rw [conversationRepo.ListByUser_eq, hcur]
    refine ⟨_, rfl, ?_⟩
    · rw [pageSize20_of_valid N h1 h100]
      have h := pageFrom_items N ((selectedConversations db userID cur).map summaryOf)
        (fun last => encodeTimeCursor k (refetchedUpdatedAt db last) last.ID)
      rw [List.length_map] at h
      rw [List.map_take]
      exact h
  · intro query cursor cur hcur
    rw [userRepo.Search_eq, hcur]
    refine ⟨_, rfl, ?_⟩
    · rw [pageSize20_of_valid N h1 h100]
      have h := pageFrom_items N ((selectedUsers q db query cur).map searchResultOf)
        (fun last => encodeCursor k last.DisplayName last.ID)
      rw [List.length_map] at h
      rw [List.map_take]
      exact h

/-- C11, on the SQL store: pages of two messages of conversation 10, of one conversation
of user 1 and of two users whose name starts with "al". -/
theorem list_page_limit_witness :
    (∃ page, messageRepo.ListByConversation refCodec exampleDb 10 "" 2 = .ok page ∧
      page.Items = (selectedRows exampleDb 10 none).take 2 ∧ page.Items.length ≤ 2 ∧
      (page.HasMore = true ↔ 2 + 1 ≤ (selectedRows exampleDb 10 none).length)) ∧
    (messageRepo.ListByConversation refCodec exampleDb 10 "" 2).map
        (fun page => (page.Items.map fun m => m.ID, page.HasMore)) = .ok ([505, 504], true) ∧
    (conversationRepo.ListByUser refCodec exampleDb 1 "" 1).map
        (fun page => (page.Items.map fun c => c.ID, page.HasMore)) = .ok ([20], true) ∧
    (userRepo.Search refText refCodec exampleUsersDb "al" "" 2).map
        (fun page => (page.Items.map fun u => u.DisplayName, page.HasMore))
      = .ok (["Alan", "alice"], true) :=
  ⟨(list_page_limit refText refCodec exampleDb 2 (by decide) (by decide)).1 10 "" none
      (by decide),
    by decide, by decide, by decide⟩

/-! ## Cursors that do not decode -/

/-- The time cursors the specification calls malformed are exactly those
`decodeTimeCursor` rejects. -/
theorem timeCursorMalformed_iff (k : Codec) (cursor : String) :
    timeCursorMalformed k cursor ↔ ∃ e, decodeTimeCursor k cursor = .error e := by
  unfold timeCursorMalformed decodeTimeCursor
  cases h1 : k.base64Decode cursor with
  | none => simp
  | some raw =>
    cases h2 : splitBar raw.data with
    | none => simp [h2]
    | some p =>
      obtain ⟨p0, p1⟩ := p
      cases h3 : k.parseTime ⟨p0⟩ <;> cases h4 : k.uuidParse ⟨p1⟩ <;> simp [h2, h3, h4]

/-- The name cursors the specification calls malformed are exactly those `decodeCursor`
rejects. -/
theorem nameCursorMalformed_iff (k : Codec) (cursor : String) :
    nameCursorMalformed k cursor ↔ ∃ e, decodeCursor k cursor = .error e := by
  unfold nameCursorMalformed decodeCursor
  cases h1 : k.base64Decode cursor with
  | none => simp
  | some raw =>
    cases h2 : splitBar raw.data with
    | none => simp [h2]
    | some p =>
      obtain ⟨p0, p1⟩ := p
      cases h4 : k.uuidParse ⟨p1⟩ <;> simp [h2, h4]

/-- The cursor clause of a time-ordered list rejects a non-empty malformed cursor. -/
theorem timeCursorOf_malformed (k : Codec) (cursor : String) (hne : cursor ≠ "")
    (h : timeCursorMalformed k cursor) :
    timeCursorOf k cursor = .error (.ValidationError "cursor" "invalid cursor") := by
  obtain ⟨e, he⟩ := (timeCursorMalformed_iff k cursor).1 h
  simp only [timeCursorOf, ne_eq, hne, not_false_eq_true, if_true, he]

/-- The cursor clause of the search rejects a non-empty malformed cursor. -/
theorem nameCursorOf_malformed (k : Codec) (cursor : String) (hne : cursor ≠ "")
    (h : nameCursorMalformed k cursor) :
    nameCursorOf k cursor = .error (.ValidationError "cursor" "invalid cursor") := by
  obtain ⟨e, he⟩ := (nameCursorMalformed_iff k cursor).1 h
  simp only [nameCursorOf, ne_eq, hne, not_false_eq_true, if_true, he]

/-- C14: a non-empty cursor that is not valid base64, or whose decoded text has no
separator, or whose part after the first separator is not a UUID (for time cursors
also: whose part before it is not a time) makes `ListByConversation`, `ListByUser` and
`Search` fail with the validation error on field "cursor", which is a validation error
and not `ErrNotFound`; with the empty cursor each of the three returns a page. -/
theorem malformed_cursor_rejected (q : SqlText) (k : Codec) (db : Db) (cursor : String)
    (hne : cursor ≠ "") :
    (timeCursorMalformed k cursor →
      (∀ conversationID limit, messageRepo.ListByConversation k db conversationID cursor limit
        = .error (.ValidationError "cursor" "invalid cursor")) ∧
      (∀ userID limit, conversationRepo.ListByUser k db userID cursor limit
        = .error (.ValidationError "cursor" "invalid cursor"))) ∧
    (nameCursorMalformed k cursor →
      ∀ query limit, userRepo.Search q k db query cursor limit
        = .error (.ValidationError "cursor" "invalid cursor")) ∧
    (Error.ValidationError "cursor" "invalid cursor").Is .ErrValidation = true ∧
    (Error.ValidationError "cursor" "invalid cursor").Is .ErrNotFound = false ∧
    (∀ conversationID limit,
      ∃ page, messageRepo.ListByConversation k db conversationID "" limit = .ok page) ∧
    (∀ userID limit, ∃ page, conversationRepo.ListByUser k db userID "" limit = .ok page) ∧
    (∀ query limit, ∃ page, userRepo.Search q k db query "" limit = .ok page) := by
  refine ⟨?_, ?_, by decide, by decide, ?_, ?_, ?_⟩
  · intro h
    have hc := timeCursorOf_malformed k cursor hne h
    refine ⟨?_, ?_⟩
    · intro conversationID limit
      rw [messageRepo.ListByConversation_eq, hc]
    · intro userID limit
      rw [conversationRepo.ListByUser_eq, hc]
  · intro h query limit
    rw [userRepo.Search_eq, nameCursorOf_malformed k cursor hne h]
  · intro conversationID limit
    rw [messageRepo.ListByConversation_eq]
    exact ⟨_, rfl⟩
  · intro userID limit
    rw [conversationRepo.ListByUser_eq]
    exact ⟨_, rfl⟩
  · intro query limit
    rw [userRepo.Search_eq]
    exact ⟨_, rfl⟩

/-- C14, on the SQL store: the cursor "not a cursor" is not base64 and is rejected by
the three list queries. -/
theorem malformed_cursor_rejected_witness :
    "not a cursor" ≠ "" ∧ timeCursorMalformed refCodec "not a cursor" ∧
      nameCursorMalformed refCodec "not a cursor" ∧
      messageRepo.ListByConversation refCodec exampleDb 10 "not a cursor" 2
        = .error (.ValidationError "cursor" "invalid cursor") ∧
      conversationRepo.ListByUser refCodec exampleDb 1 "not a cursor" 2
        = .error (.ValidationError "cursor" "invalid cursor") ∧
      userRepo.Search refText refCodec exampleUsersDb "al" "not a cursor" 2
        = .error (.ValidationError "cursor" "invalid cursor") :=
  have h := malformed_cursor_rejected refText refCodec exampleDb "not a cursor" (by decide)
  have hu := malformed_cursor_rejected refText refCodec exampleUsersDb "not a cursor" (by decide)
  have hb : refCodec.base64Decode "not a cursor" = none := by decide
  have ht : timeCursorMalformed refCodec "not a cursor" := by
    simp only [timeCursorMalformed, hb]
  have hn : nameCursorMalformed refCodec "not a cursor" := by
    simp only [nameCursorMalformed, hb]
  ⟨by decide, ht, hn, (h.1 ht).1 10 2, (h.1 ht).2 1 2, hu.2.1 hn "al" 2⟩

/-! ## The cursor of a page -/

/-- With unique conversation ids, looking a conversation of the table up by its id finds
that conversation. -/
theorem find?_of_nodup_ids (l : List Conversation) (h : (l.map fun c => c.ID).Nodup)
    (c : Conversation) (hc : c ∈ l) :
    l.find? (fun x => decide (x.ID = c.ID)) = some c := by
  induction l with
  | nil => exact absurd hc (List.not_mem_nil c)
  | cons a t ih =>
    rw [List.map_cons, List.nodup_cons] at h
    rcases List.mem_cons.1 hc with rfl | hm
    · simp only [List.find?_cons, decide_True]
    · have hne : a.ID ≠ c.ID := by
        intro he
        exact h.1 (he ▸ List.mem_map_of_mem (fun c => c.ID) hm)
      simp only [List.find?_cons, hne, decide_False]
      exact ih h.2 hm

/-- The rows the query of `ListByUser` selects are rows of `conversations`. -/
theorem selectedConversations_subset (db : Db) (userID : UUID) (cur : Option (Time × UUID))
    (row : Conversation) (h : row ∈ selectedConversations db userID cur) :
    row ∈ db.conversations := by
  unfold selectedConversations at h
  have h1 := (List.perm_insertionSort convDesc _).subset h
  have h2 := (List.mem_filter.1 h1).1
  simp only [conversationRepo.joinRows, List.mem_flatMap, List.mem_map] at h2
  obtain ⟨c, hc, _, _, rfl⟩ := h2
  exact hc

/-- C12: a page returned by `ListByConversation`, `ListByUser` or `Search` has a
`NextCursor` exactly when `HasMore` is true, and the cursor then encodes the sort key
and id of the last item of `Items`: `created_at` and id of the last message, display name
and id of the last user, and, the conversation ids of the table being unique, `updated_at`
and id of the conversation row of the last summary. -/
theorem next_cursor_last_item (q : SqlText) (k : Codec) (db : Db)
    (hpk : (db.conversations.map fun c => c.ID).Nodup) :
    (∀ conversationID cursor limit page,
      messageRepo.ListByConversation k db conversationID cursor limit = .ok page →
      page.NextCursor.isSome = page.HasMore ∧
      ∀ c, page.NextCursor = some c →
        ∃ last, page.Items.getLast? = some last ∧
          c = encodeTimeCursor k last.CreatedAt last.ID) ∧
    (∀ userID cursor limit page,
      conversationRepo.ListByUser k db userID cursor limit = .ok page →
      page.NextCursor.isSome = page.HasMore ∧
      ∀ c, page.NextCursor = some c →
        ∃ last row, page.Items.getLast? = some last ∧ row ∈ db.conversations ∧
          summaryOf row = last ∧ c = encodeTimeCursor k row.UpdatedAt row.ID) ∧
    (∀ query cursor limit page,
      userRepo.Search q k db query cursor limit = .ok page →
      page.NextCursor.isSome = page.HasMore ∧
      ∀ c, page.NextCursor = some c →
        ∃ last, page.Items.getLast? = some last ∧
          c = encodeCursor k last.DisplayName last.ID) := by
  refine ⟨?_, ?_, ?_⟩
  · intro conversationID cursor limit page h
    rw [messageRepo.ListByConversation_eq] at h
    cases hcur : timeCursorOf k cursor with
    | error e =>
      rw [hcur] at h
      exact absurd h (by simp)
    | ok cur =>
      rw [hcur] at h
      have hp := Except.ok.inj h
      rw [pageOf_eq_pageFrom] at hp
      subst hp
      exact pageFrom_next _ (one_le_pageSize limit) _ _
  · intro userID cursor limit page h
    rw [conversationRepo.ListByUser_eq] at h
    cases hcur : timeCursorOf k cursor with
    | error e =>
      rw [hcur] at h
      exact absurd h (by simp)
    | ok cur =>
      rw [hcur] at h
      have hp := Except.ok.inj h
      subst hp
      obtain ⟨hsome, hnext⟩ := pageFrom_next (pageSize20 limit) (one_le_pageSize20 limit)
        ((selectedConversations db userID cur).map summaryOf)
        (fun last => encodeTimeCursor k (refetchedUpdatedAt db last) last.ID)
      refine ⟨hsome, ?_⟩
      intro c hc
      obtain ⟨last, hlast, hcl⟩ := hnext c hc
      have hmem : last ∈ ((selectedConversations db userID cur).map summaryOf).take
          (pageSize20 limit) := List.mem_of_getLast?_eq_some hlast
      obtain ⟨row, hrow, hsum⟩ := List.mem_map.1 (List.mem_of_mem_take hmem)
      have hin := selectedConversations_subset db userID cur row hrow
      have hid : last.ID = row.ID := by rw [← hsum]; rfl
      have hre : refetchedUpdatedAt db last = row.UpdatedAt := by
        unfold refetchedUpdatedAt
        rw [hid, find?_of_nodup_ids db.conversations hpk row hin]
      refine ⟨last, row, hlast, hin, hsum, ?_⟩
      rw [hcl]
      show encodeTimeCursor k (refetchedUpdatedAt db last) last.ID = _
      rw [hre, hid]
  · intro query cursor limit page h
    rw [userRepo.Search_eq] at h
    cases hcur : nameCursorOf k cursor with
    | error e =>
      rw [hcur] at h
      exact absurd h (by simp)
    | ok cur =>
      rw [hcur] at h
      have hp := Except.ok.inj h
      subst hp
      exact pageFrom_next _ (one_le_pageSize20 limit) _ _

/-- C12, on the SQL store: the page of the two newest messages of conversation 10 ends
with message 504 and carries the cursor of that message. -/
theorem next_cursor_last_item_witness :
    (exampleDb.conversations.map fun c => c.ID).Nodup ∧
      (messageRepo.ListByConversation refCodec exampleDb 10 "" 2).map
          (fun page => (page.Items.map fun m => m.ID, page.NextCursor, page.HasMore))
        = .ok ([505, 504], some (encodeTimeCursor refCodec (t0 + 3000) 504), true) ∧
      ∃ last, (pageOf refCodec 2 (selectedRows exampleDb 10 none)).Items.getLast? = some last ∧
        encodeTimeCursor refCodec (t0 + 3000) 504
          = encodeTimeCursor refCodec last.CreatedAt last.ID :=
  ⟨by decide, by decide,
    ((next_cursor_last_item refText refCodec exampleDb (by decide)).1 10 "" 2
      (pageOf refCodec 2 (selectedRows exampleDb 10 none)) (by decide)).2
      (encodeTimeCursor refCodec (t0 + 3000) 504) (by decide)⟩


/-! ## Direct conversations keep their members -/

/-- C21: in a direct conversation, for a caller who is an active participant,
`AddParticipants` with a non-empty list and `RemoveParticipant` both fail with a
`ValidationError` on field "type", for every repository, and return the store as it
was, so that the active participants are the same. -/
theorem direct_membership_immutable (s : ConversationService σ) (st : σ)
    (userID conversationID : UUID) (convo : Conversation)
    (hpart : s.convos.IsParticipant st conversationID userID = .ok true)
    (hget : s.convos.GetByID st conversationID = .ok convo) (hdirect : convo.Typ = "direct") :
    (∃ message, ∀ (now : Time) (uuidNew : Nat → UUID) (newUserIDs : List UUID),
      newUserIDs ≠ [] →
      s.AddParticipants st now uuidNew userID conversationID newUserIDs
        = (.error (.ValidationError "type" message), st)) ∧
    (∃ message, ∀ targetUserID,
      s.RemoveParticipant st userID conversationID targetUserID
        = (.error (.ValidationError "type" message), st)) ∧
    (∀ message, (Error.ValidationError "type" message).Is .ErrValidation = true) := by
  have hty : convo.Typ ≠ "group" := by rw [hdirect]; decide
  refine ⟨⟨"can only add participants to group conversations", ?_⟩,
    ⟨"can only remove participants from group conversations", ?_⟩, ?_⟩
  · intro now uuidNew newUserIDs hne
    have hlen : newUserIDs.length ≠ 0 := by
      intro h0
      exact hne (List.length_eq_zero.1 h0)
    simp only [ConversationService.AddParticipants, hlen, if_false, hpart, hget, hty, ne_eq,
      not_false_eq_true, if_true]
  · intro targetUserID
    simp only [ConversationService.RemoveParticipant, hpart, hget, hty, ne_eq,
      not_false_eq_true, if_true]
  · intro message
    simp [Error.Is, Error.Unwrap]

/-- C21, on the SQL store: conversation 20 is the direct conversation of users 1 and 2;
user 1 can neither add user 3 nor remove user 2. -/
theorem direct_membership_immutable_witness :
    (∃ message, exampleConversations.AddParticipants exampleDb t0 (fun i => 700 + i) 1 20 [3]
      = (.error (.ValidationError "type" message), exampleDb)) ∧
    (∃ message, exampleConversations.RemoveParticipant exampleDb 1 20 2
      = (.error (.ValidationError "type" message), exampleDb)) :=
  have h := direct_membership_immutable exampleConversations exampleDb 1 20
    (Conversation.mk 20 "direct" none 1 t0 t0) (by decide) (by decide) (by decide)
  ⟨h.1.elim fun m hm => ⟨m, hm t0 (fun i => 700 + i) [3] (by decide)⟩,
    h.2.1.elim fun m hm => ⟨m, hm 2⟩⟩

/-! ## `Create` and a repeated participant -/

/-- C23, the code at the failing input: user 1 creates a group with the participant
list [2, 2].  The conversation, the owner row and the first member row are inserted;
the second insert of user 2 violates the unique constraint, and `Create` returns
`ErrConflict`, leaving the three rows in the store. -/
theorem create_group_repeated_id :
    exampleConversations.Create emptyDb asciiLower t0 (fun i => 700 + i) 1 "group"
        (some "team") [2, 2]
      = (.error .ErrConflict,
          { emptyDb with
            conversations := [Conversation.mk 700 "group" (some "team") 1 t0 t0]
            conversation_participants :=
              [ConversationParticipant.mk 701 700 1 "owner" t0 none,
                ConversationParticipant.mk 702 700 2 "member" t0 none] }) := by
  decide

/-! ## `Create` is not atomic -/

/-- When the member loop of `Create` gets through the ids `pre` and the insert of the next
id fails, the loop ends with that error in the state reached after `pre`. -/
theorem createMembersLoop_fails_at (convos : ConversationRepository σ) (cid : UUID) (now : Time)
    (uuidNew : Nat → UUID) (pid : UUID) (post : List UUID) (err : Error) :
    ∀ (pre : List UUID) (i : Nat) (st st3 : σ) (all all1 : List ConversationParticipant),
      createMembersLoop convos cid now uuidNew i pre st all = (.ok all1, st3) →
      convos.AddParticipant st3
          (ConversationParticipant.mk (uuidNew (i + pre.length)) cid pid "member" now none)
        = .error err →
      createMembersLoop convos cid now uuidNew i (pre ++ pid :: post) st all = (.error err, st3)
  | [], i, st, st3, all, all1, hpre, hfail => by
    simp only [createMembersLoop, Prod.mk.injEq, Except.ok.injEq] at hpre
    obtain ⟨-, rfl⟩ := hpre
    simp only [List.length_nil, Nat.add_zero] at hfail
    simp only [List.nil_append, createMembersLoop, hfail]
  | p :: rest, i, st, st3, all, all1, hpre, hfail => by
    simp only [createMembersLoop] at hpre
    simp only [List.cons_append, createMembersLoop]
    split at hpre
    · simp at hpre
    · rename_i st1 hadd
      have hidx : i + 1 + rest.length = i + (p :: rest).length := by
        simp only [List.length_cons]; omega
      exact createMembersLoop_fails_at convos cid now uuidNew pid post err rest (i + 1) st1 st3
        _ all1 hpre (by rw [hidx]; exact hfail)

/-- On the SQL store, a member loop of `Create` that ends without error has appended the
member rows of its ids to `conversation_participants` and changed nothing else. -/
theorem createMembersLoop_rows (k : Codec) (clock : Time) (cid : UUID) (now : Time)
    (uuidNew : Nat → UUID) :
    ∀ (ids : List UUID) (i : Nat) (db db3 : Db) (all all1 : List ConversationParticipant),
      createMembersLoop (NewConversationRepo k clock) cid now uuidNew i ids db all
        = (.ok all1, db3) →
      db3 = { db with conversation_participants :=
        db.conversation_participants ++ memberRows cid now uuidNew i ids }
  | [], i, db, db3, all, all1, h => by
    simp only [createMembersLoop, Prod.mk.injEq, Except.ok.injEq] at h
    obtain ⟨-, rfl⟩ := h
    simp [memberRows]
  | p :: rest, i, db, db3, all, all1, h => by
    simp only [createMembersLoop] at h
    split at h
    · simp at h
    · rename_i db1 hadd
      have h1 := conversationRepo.AddParticipant_ok hadd
      have h3 := createMembersLoop_rows k clock cid now uuidNew rest (i + 1) db1 db3 _ all1 h
      rw [h3, h1]
      simp [memberRows]

/-- C24: on the SQL store, when `Create` has passed its validation (a group with a
non-empty list, or a direct conversation with one other user and no existing direct
conversation), has inserted the conversation, the owner row and the member rows of the
listed ids `pre`, and the insert of the next listed id `pid` fails with `err`, then
`Create` returns `err` and the store it leaves holds the conversation row, the owner
row and the member rows of `pre`: nothing is rolled back. -/
theorem create_not_atomic (k : Codec) (clock : Time) (db db1 db2 db3 : Db)
    (ToLower : String → String) (now : Time) (uuidNew : Nat → UUID) (userID : UUID)
    (convoType : String) (name : Option String) (pre post : List UUID) (pid : UUID)
    (all : List ConversationParticipant) (err : Error)
    (hval : TrimSpace (ToLower convoType) = "group" ∨
      (TrimSpace (ToLower convoType) = "direct" ∧ pre = [] ∧ post = [] ∧ pid ≠ userID ∧
        conversationRepo.FindDirectBetween db userID pid = .error .ErrNotFound))
    (hconvo : conversationRepo.Create db
      (Conversation.mk (uuidNew 0) (TrimSpace (ToLower convoType)) name userID now now)
        = .ok db1)
    (howner : conversationRepo.AddParticipant db1
      (ConversationParticipant.mk (uuidNew 1) (uuidNew 0) userID "owner" now none) = .ok db2)
    (hpre : createMembersLoop (NewConversationRepo k clock) (uuidNew 0) now uuidNew 2 pre db2
      [ConversationParticipant.mk (uuidNew 1) (uuidNew 0) userID "owner" now none]
        = (.ok all, db3))
    (hfail : conversationRepo.AddParticipant db3
      (ConversationParticipant.mk (uuidNew (2 + pre.length)) (uuidNew 0) pid "member" now none)
        = .error err) :
    (sqlConversationService k clock).Create db ToLower now uuidNew userID convoType name
        (pre ++ pid :: post) = (.error err, db3) ∧
    db3 = { db with
      conversations := db.conversations ++
        [Conversation.mk (uuidNew 0) (TrimSpace (ToLower convoType)) name userID now now]
      conversation_participants := db.conversation_participants ++
        ConversationParticipant.mk (uuidNew 1) (uuidNew 0) userID "owner" now none ::
          memberRows (uuidNew 0) now uuidNew 2 pre } := by
  have hloop := createMembersLoop_fails_at (NewConversationRepo k clock) (uuidNew 0) now uuidNew
    pid post err pre 2 db2 db3 _ all hpre hfail
  have hnew : createNew (NewConversationRepo k clock) db now uuidNew userID
      (TrimSpace (ToLower convoType)) name (pre ++ pid :: post) = (.error err, db3) := by
    simp only [createNew, NewConversationRepo] at hloop ⊢
    simp only [hconvo, howner, hloop]
  refine ⟨?_, ?_⟩
  · rcases hval with htyp | ⟨htyp, hpre0, hpost0, hne, hfind⟩
    · have hlen : (pre ++ pid :: post).length ≠ 0 := by simp
      rw [htyp] at hnew
      simp only [ConversationService.Create, htyp, sqlConversationService]
      simp [hlen, hnew]
    · subst hpre0 hpost0
      rw [htyp] at hnew
      simp only [ConversationService.Create, htyp, sqlConversationService, List.nil_append]
      simp only [NewConversationRepo, hfind] at hnew ⊢
      simp only [List.nil_append] at hnew
      simp [hne, hnew, Error.Is]
  · rw [createMembersLoop_rows k clock (uuidNew 0) now uuidNew pre 2 db2 db3 _ all hpre,
      conversationRepo.AddParticipant_ok howner, (conversationRepo.Create_row_ok hconvo).2]
    simp

/-- C24, on the SQL store: user 1 creates a group with the list [2, 3, 2]; the third
insert fails, and the conversation, the owner and the members 2 and 3 stay. -/
theorem create_not_atomic_witness :
    exampleConversations.Create emptyDb asciiLower t0 (fun i => 700 + i) 1 "group" none
        ([2, 3] ++ 2 :: [])
      = (.error .ErrConflict,
          { emptyDb with
            conversations := [Conversation.mk 700 "group" none 1 t0 t0]
            conversation_participants :=
              [ConversationParticipant.mk 701 700 1 "owner" t0 none,
                ConversationParticipant.mk 702 700 2 "member" t0 none,
                ConversationParticipant.mk 703 700 3 "member" t0 none] }) :=
  (create_not_atomic refCodec (t0 + 9000) emptyDb
    { emptyDb with conversations := [Conversation.mk 700 "group" none 1 t0 t0] }
    { emptyDb with
      conversations := [Conversation.mk 700 "group" none 1 t0 t0]
      conversation_participants := [ConversationParticipant.mk 701 700 1 "owner" t0 none] }
    { emptyDb with
      conversations := [Conversation.mk 700 "group" none 1 t0 t0]
      conversation_participants :=
        [ConversationParticipant.mk 701 700 1 "owner" t0 none,
          ConversationParticipant.mk 702 700 2 "member" t0 none,
          ConversationParticipant.mk 703 700 3 "member" t0 none] }
    asciiLower t0 (fun i => 700 + i) 1 "group" none [2, 3] [] 2
    [ConversationParticipant.mk 701 700 1 "owner" t0 none,
      ConversationParticipant.mk 702 700 2 "member" t0 none,
      ConversationParticipant.mk 703 700 3 "member" t0 none]
    .ErrConflict (Or.inl (by decide)) (by decide) (by decide) (by decide) (by decide)).1

/-! ## Adding participants that are already members -/

/-- The SQL `AddParticipant` either appends the row or reports `ErrConflict`. -/
theorem conversationRepo.AddParticipant_cases (db : Db) (p : ConversationParticipant) :
    (conversationRepo.insertable_participant db p = true ∧
      conversationRepo.AddParticipant db p = .ok { db with conversation_participants :=
        db.conversation_participants ++ [{ p with LeftAt := none }] }) ∨
    (conversationRepo.insertable_participant db p = false ∧
      conversationRepo.AddParticipant db p = .error .ErrConflict) := by
  unfold conversationRepo.AddParticipant
  cases h : conversationRepo.insertable_participant db p
  · right; simp
  · left; simp

/-- Appending a row that the unique constraint admits gives no user a second active row. -/
theorem activeCount_insert (db : Db) (p : ConversationParticipant)
    (h : conversationRepo.insertable_participant db p = true) (c u : UUID) :
    activeCount (db.conversation_participants ++ [{ p with LeftAt := none }]) c u
      ≤ max 1 (activeCount db.conversation_participants c u) ∧
    activeCount db.conversation_participants c u
      ≤ activeCount (db.conversation_participants ++ [{ p with LeftAt := none }]) c u := by
  unfold activeCount
  simp only [List.countP_append, List.countP_cons, List.countP_nil, Nat.zero_add]
  by_cases ha : activeRow c u { p with LeftAt := none } = true
  · have hcu : p.ConversationID = c ∧ p.UserID = u := by
      simp only [activeRow, Bool.and_eq_true, decide_eq_true_eq] at ha
      exact ⟨ha.1.1, ha.1.2⟩
    have hnone : db.conversation_participants.any (activeRow c u) = false := by
      simp only [conversationRepo.insertable_participant, Bool.and_eq_true,
        Bool.not_eq_true', hcu.1, hcu.2] at h
      exact h.2
    have h0 : db.conversation_participants.countP (activeRow c u) = 0 := by
      rw [List.countP_eq_zero]
      intro q hq hact
      have := List.any_eq_true.2 ⟨q, hq, hact⟩
      rw [hnone] at this
      exact absurd this (by simp)
    simp only [ha, if_true, h0]
    omega
  · have ha1 : activeRow c u { p with LeftAt := none } = false := by simpa using ha
    simp only [ha1, Bool.false_eq_true, if_false]
    omega

/-- The loop of `AddParticipants` on the SQL store never ends with an error: every insert
succeeds or is skipped as a conflict.  The state it reaches has the old tables with rows
appended to `conversation_participants`; no user has got a second active row, nobody has
lost one, and with fresh row ids every listed user is active afterwards. -/
theorem addParticipantsLoop_sql (k : Codec) (clock : Time) (conversationID : UUID) (now : Time)
    (uuidNew : Nat → UUID) :
    ∀ (ids : List UUID) (i : Nat) (db : Db),
      ∃ added, addParticipantsLoop (NewConversationRepo k clock) conversationID now uuidNew i
          ids db
        = (none, { db with conversation_participants := db.conversation_participants ++ added }) ∧
      (∀ c u, activeCount (db.conversation_participants ++ added) c u
        ≤ max 1 (activeCount db.conversation_participants c u)) ∧
      (∀ c u, activeCount db.conversation_participants c u
        ≤ activeCount (db.conversation_participants ++ added) c u) ∧
      (Function.Injective uuidNew → freshFrom uuidNew i db.conversation_participants →
        ∀ u ∈ ids, 1 ≤ activeCount (db.conversation_participants ++ added) conversationID u)
  | [], i, db => by
    refine ⟨[], ?_, ?_, ?_, ?_⟩
    · simp [addParticipantsLoop]
    · intro c u; simp only [List.append_nil]; omega
    · intro c u; simp only [List.append_nil]; omega
    · intro _ _ u hu; exact absurd hu (List.not_mem_nil u)
  | uid :: rest, i, db => by
    rcases conversationRepo.AddParticipant_cases db
      (ConversationParticipant.mk (uuidNew i) conversationID uid "member" now none) with
      ⟨hins, hadd⟩ | ⟨hins, hadd⟩
    · obtain ⟨added, hloop, hle, hge, hfresh⟩ := addParticipantsLoop_sql k clock conversationID
        now uuidNew rest (i + 1) { db with conversation_participants :=
          db.conversation_participants ++
            [ConversationParticipant.mk (uuidNew i) conversationID uid "member" now none] }
      have hstep := activeCount_insert db _ hins
      dsimp only at hloop hle hge hfresh hstep
      simp only [List.append_assoc, List.singleton_append] at hloop hle hge hfresh
      refine ⟨ConversationParticipant.mk (uuidNew i) conversationID uid "member" now none :: added,
        ?_, ?_, ?_, ?_⟩
      · simp only [addParticipantsLoop, NewConversationRepo] at hloop ⊢
        simp only [hadd, hloop]
      · intro c u
        have h1 := hle c u
        have h2 := (hstep c u).1
        omega
      · intro c u
        have h1 := hge c u
        have h2 := (hstep c u).2
        omega
      · intro hinj hfr u hu
        have hfr1 : freshFrom uuidNew (i + 1) (db.conversation_participants ++
            [ConversationParticipant.mk (uuidNew i) conversationID uid "member" now none]) := by
          intro j hj q hq
          rcases List.mem_append.1 hq with hq | hq
          · exact hfr j (by omega) q hq
          · rw [List.mem_singleton.1 hq]
            intro heq
            have := hinj heq
            omega
        rcases List.mem_cons.1 hu with rfl | hu
        · have h1 := hge conversationID u
          have h2 : 1 ≤ activeCount (db.conversation_participants ++
              [ConversationParticipant.mk (uuidNew i) conversationID u "member" now none])
              conversationID u := by
            unfold activeCount
            simp [List.countP_append, activeRow]
          omega
        · exact hfresh hinj hfr1 u hu
    · obtain ⟨added, hloop, hle, hge, hfresh⟩ := addParticipantsLoop_sql k clock conversationID
        now uuidNew rest (i + 1) db
      refine ⟨added, ?_, hle, hge, ?_⟩
      · simp only [addParticipantsLoop, NewConversationRepo] at hloop ⊢
        simp only [hadd, hloop]
        simp [Error.Is]
      · intro hinj hfr u hu
        have hfr1 : freshFrom uuidNew (i + 1) db.conversation_participants :=
          fun j hj q hq => hfr j (by omega) q hq
        rcases List.mem_cons.1 hu with rfl | hu
        · have hact : db.conversation_participants.any (activeRow conversationID u) = true := by
            simp only [conversationRepo.insertable_participant, Bool.and_eq_false_iff,
              Bool.not_eq_false', Bool.not_eq_eq_eq_not, Bool.not_true] at hins
            rcases hins with h | h
            · obtain ⟨q, hq, hid⟩ := List.any_eq_true.1 h
              exact absurd (of_decide_eq_true hid) (hfr i (le_refl i) q hq)
            · exact h
          have h1 : 1 ≤ activeCount db.conversation_participants conversationID u := by
            unfold activeCount
            obtain ⟨q, hq, hqa⟩ := List.any_eq_true.1 hact
            exact List.countP_pos_iff.2 ⟨q, hq, hqa⟩
          have h2 := hge conversationID u
          omega
        · exact hfresh hinj hfr1 u hu

/-- A user has an active row in the conversation exactly when the count of these rows is
not zero. -/
theorem any_activeRow_iff (rows : List ConversationParticipant) (c u : UUID) :
    rows.any (activeRow c u) = true ↔ 1 ≤ activeCount rows c u := by
  unfold activeCount
  rw [List.any_eq_true]
  constructor
  · rintro ⟨q, hq, hqa⟩
    exact List.countP_pos_iff.2 ⟨q, hq, hqa⟩
  · intro h
    exact List.countP_pos_iff.1 h

/-- When every listed user is already active, the loop of `AddParticipants` on the SQL
store skips every insert and leaves the store as it was. -/
theorem addParticipantsLoop_all_active (k : Codec) (clock : Time) (conversationID : UUID)
    (now : Time) (uuidNew : Nat → UUID) (db : Db) :
    ∀ (ids : List UUID) (i : Nat),
      (∀ u ∈ ids, db.conversation_participants.any (activeRow conversationID u) = true) →
      addParticipantsLoop (NewConversationRepo k clock) conversationID now uuidNew i ids db
        = (none, db)
  | [], i, _ => by simp [addParticipantsLoop]
  | uid :: rest, i, h => by
    have hact := h uid (List.mem_cons_self _ _)
    have hins : conversationRepo.insertable_participant db
        (ConversationParticipant.mk (uuidNew i) conversationID uid "member" now none) = false := by
      simp only [conversationRepo.insertable_participant, hact, Bool.not_true, Bool.and_false]
    have hadd : conversationRepo.AddParticipant db
        (ConversationParticipant.mk (uuidNew i) conversationID uid "member" now none)
          = .error .ErrConflict := by
      simp only [conversationRepo.AddParticipant, hins, Bool.false_eq_true, if_false]
    have hrest := addParticipantsLoop_all_active k clock conversationID now uuidNew db rest (i + 1)
      (fun u hu => h u (List.mem_cons_of_mem _ hu))
    simp only [addParticipantsLoop, NewConversationRepo] at hrest ⊢
    simp only [hadd, hrest]
    simp [Error.Is]

/-- C22: on the SQL store, whose `AddParticipant` reports `ErrConflict` for a user that
is already active, `AddParticipants` on a group conversation by an active participant
with a non-empty list succeeds whoever of the listed users is already active.  It
returns the active participants of the conversation in the store it leaves; no user has
got a second active row and none has lost one; and when the new row ids are fresh, every
listed user is in the returned roster and the same call made again returns the same
roster and leaves the store unchanged. -/
theorem add_participants_idempotent (k : Codec) (clock : Time) (db : Db) (now : Time)
    (uuidNew : Nat → UUID) (userID conversationID : UUID) (newUserIDs : List UUID)
    (convo : Conversation)
    (hpart : conversationRepo.IsParticipant db conversationID userID = .ok true)
    (hget : conversationRepo.GetByID db conversationID = .ok convo)
    (hgroup : convo.Typ = "group") (hne : newUserIDs ≠ []) :
    ∃ roster db1,
      (sqlConversationService k clock).AddParticipants db now uuidNew userID conversationID
        newUserIDs = (.ok roster, db1) ∧
      conversationRepo.GetParticipants db1 conversationID = .ok roster ∧
      (∀ c u, activeCount db1.conversation_participants c u
        ≤ max 1 (activeCount db.conversation_participants c u)) ∧
      (∀ c u, activeCount db.conversation_participants c u
        ≤ activeCount db1.conversation_participants c u) ∧
      (Function.Injective uuidNew → freshFrom uuidNew 0 db.conversation_participants →
        (∀ u ∈ newUserIDs, u ∈ roster.map fun p => p.UserID) ∧
        ∀ (now2 : Time) (uuidNew2 : Nat → UUID),
          (sqlConversationService k clock).AddParticipants db1 now2 uuidNew2 userID
            conversationID newUserIDs = (.ok roster, db1)) := by
  obtain ⟨added, hloop, hle, hge, hfresh⟩ :=
    addParticipantsLoop_sql k clock conversationID now uuidNew newUserIDs 0 db
  have hlen : newUserIDs.length ≠ 0 := fun h0 => hne (List.length_eq_zero.1 h0)
  have hcall : ∀ (d d1 : Db) (n : Time) (g : Nat → UUID),
      conversationRepo.IsParticipant d conversationID userID = .ok true →
      conversationRepo.GetByID d conversationID = .ok convo →
      addParticipantsLoop (NewConversationRepo k clock) conversationID n g 0 newUserIDs d
        = (none, d1) →
      (sqlConversationService k clock).AddParticipants d n g userID conversationID newUserIDs
        = (conversationRepo.GetParticipants d1 conversationID, d1) := by
    intro d d1 n g hp hg hl
    simp only [ConversationService.AddParticipants, sqlConversationService, hlen, if_false]
    simp only [NewConversationRepo] at hp hg hl ⊢
    simp [hp, hg, hgroup, hl]
  refine ⟨_, { db with conversation_participants := db.conversation_participants ++ added },
    hcall db _ now uuidNew hpart hget hloop, rfl, hle, hge, ?_⟩
  intro hinj hfr
  have hall := hfresh hinj hfr
  refine ⟨?_, ?_⟩
  · intro u hu
    have h1 := (any_activeRow_iff _ conversationID u).2 (hall u hu)
    obtain ⟨q, hq, hqa⟩ := List.any_eq_true.1 h1
    simp only [activeRow, Bool.and_eq_true, decide_eq_true_eq] at hqa
    refine List.mem_map.2 ⟨q, ?_, hqa.1.2⟩
    exact List.mem_filter.2 ⟨hq, by simp [hqa.1.1, hqa.2]⟩
  · intro now2 uuidNew2
    have hp1 : conversationRepo.IsParticipant
        { db with conversation_participants := db.conversation_participants ++ added }
        conversationID userID = .ok true := by
      have h0 : db.conversation_participants.any (activeRow conversationID userID) = true := by
        simpa [conversationRepo.IsParticipant] using hpart
      have h1 := (any_activeRow_iff _ conversationID userID).1 h0
      have h2 := hge conversationID userID
      have h3 := (any_activeRow_iff (db.conversation_participants ++ added) conversationID
        userID).2 (by omega)
      simp only [conversationRepo.IsParticipant, h3]
    have hg1 : conversationRepo.GetByID
        { db with conversation_participants := db.conversation_participants ++ added }
        conversationID = .ok convo := hget
    exact hcall _ _ now2 uuidNew2 hp1 hg1
      (addParticipantsLoop_all_active k clock conversationID now2 uuidNew2 _ newUserIDs 0
        (fun u hu => (any_activeRow_iff _ conversationID u).2 (hall u hu)))

/-- C22, on the SQL store: users 1, 2 and 3 are the active participants of the group
conversation 10; user 1 adds the list [2, 4, 4]. -/
theorem add_participants_idempotent_witness :
    ∃ roster db1,
      exampleConversations.AddParticipants exampleDb t0 (fun i => 700 + i) 1 10 [2, 4, 4]
        = (.ok roster, db1) ∧
      roster.map (fun p => p.UserID) = [1, 2, 3, 4] ∧
      exampleConversations.AddParticipants db1 (t0 + 1) (fun i => 800 + i) 1 10 [2, 4, 4]
        = (.ok roster, db1) := by
  obtain ⟨roster, db1, h1, -, -, -, h5⟩ := add_participants_idempotent refCodec (t0 + 9000)
    exampleDb t0 (fun i => 700 + i) 1 10 [2, 4, 4] (Conversation.mk 10 "group" (some "team") 1 t0 t0)
    (by decide) (by decide) (by decide) (by decide)
  have hb : ∀ q ∈ exampleDb.conversation_participants, q.ID < 700 := by decide
  have hfr : freshFrom (fun i => 700 + i) 0 exampleDb.conversation_participants := by
    intro j _ q hq
    have h2 : q.ID < 700 := hb q hq
    intro heq
    have heq1 : q.ID = 700 + j := heq
    rw [heq1] at h2
    have h3 : (700 + j : Nat) < 700 := h2
    omega
  have hinj : Function.Injective (fun i : Nat => (700 + i : UUID)) := by
    intro a b h
    have h1 : 700 + a = 700 + b := h
    omega
  refine ⟨roster, db1, h1, ?_, (h5 hinj hfr).2 (t0 + 1) (fun i => 800 + i)⟩
  have hev : (exampleConversations.AddParticipants exampleDb t0 (fun i => 700 + i) 1 10
      [2, 4, 4]).1.map (fun r => r.map fun p => p.UserID) = .ok [1, 2, 3, 4] := by decide
  have h1r : (exampleConversations.AddParticipants exampleDb t0 (fun i => 700 + i) 1 10
      [2, 4, 4]).1 = .ok roster := by
    unfold exampleConversations
    rw [h1]
  rw [h1r] at hev
  exact Except.ok.inj hev

/-! ## Fan-out to the connections of the listed users -/

/-- The frame `data` put into the queue of a client when there is room. -/
theorem Chan.trySend_open (ch : Chan) (data : String) (h : ch.closed = false) :
    ch.trySend data
      = .ok (if ch.hasRoom = true then ch.push data else ch) := by
  unfold Chan.trySend Chan.hasRoom
  rw [h]
  by_cases hr : ch.buf.length < ch.cap
  · simp [hr]
  · simp [hr]

/-- The inner loop of `SendToUsers` over a set of clients with open channels: every
member with room in its queue gets the frame once, and no other channel changes. -/
theorem sendToConns_spec (data : String) :
    ∀ (conns : List Client) (send : Client → Chan), conns.Nodup →
      (∀ c ∈ conns, (send c).closed = false) →
      ∃ send1, sendToConns data conns send = .ok send1 ∧
        ∀ c, send1 c = if c ∈ conns ∧ (send c).hasRoom = true then
            (send c).push data
          else send c
  | [], send, _, _ => ⟨send, rfl, fun c => by simp⟩
  | client :: rest, send, hnd, hopen => by
    rw [List.nodup_cons] at hnd
    have hc := Chan.trySend_open (send client) data (hopen client (List.mem_cons_self _ _))
    have hopen1 : ∀ c ∈ rest, ((fun c => if c = client then
        (if (send client).hasRoom = true then
          (send client).push data else send client)
        else send c) c).closed = false := by
      intro c hcr
      have hne : c ≠ client := fun he => hnd.1 (he ▸ hcr)
      simp only [hne, if_false]
      exact hopen c (List.mem_cons_of_mem _ hcr)
    obtain ⟨send1, hrun, hspec⟩ := sendToConns_spec data rest _ hnd.2 hopen1
    refine ⟨send1, ?_, ?_⟩
    · simp only [sendToConns, hc]
      exact hrun
    · intro c
      rw [hspec c]
      by_cases he : c = client
      · subst he
        simp only [hnd.1, false_and, if_false, if_true, List.mem_cons, true_or, true_and]
      · simp only [he, if_false, List.mem_cons, false_or]

/-- Being registered depends on the map `clients` only. -/
theorem Hub.registered_iff (h : Hub) (c : Client) :
    h.registered c = true ↔ ∃ conns, h.clients c.UserID = some conns ∧ c ∈ conns := by
  unfold Hub.registered
  cases hc : h.clients c.UserID with
  | none => simp
  | some conns => simp

/-- The outer loop of `SendToUsers` over distinct user ids, on a well-formed registry:
every registered client of a listed user with room in its queue gets the frame once,
and no other channel changes. -/
theorem sendToUserIDs_spec (clients : UUID → Option (List Client)) (data : String)
    (hset : ∀ u conns, clients u = some conns → conns.Nodup ∧ ∀ c ∈ conns, c.UserID = u) :
    ∀ (userIDs : List UUID) (send : Client → Chan), userIDs.Nodup →
      (∀ u conns, clients u = some conns → ∀ c ∈ conns, (send c).closed = false) →
      ∃ send1, sendToUserIDs clients data userIDs send = .ok send1 ∧
        ∀ c, send1 c =
          if (Hub.mk clients send).registered c = true ∧ c.UserID ∈ userIDs ∧
              (send c).hasRoom = true then
            (send c).push data
          else send c
  | [], send, _, _ => ⟨send, rfl, fun c => by simp⟩
  | uid :: rest, send, hnd, hopen => by
    rw [List.nodup_cons] at hnd
    cases hu : clients uid with
    | none =>
      obtain ⟨send1, hrun, hspec⟩ := sendToUserIDs_spec clients data hset rest send hnd.2 hopen
      refine ⟨send1, ?_, ?_⟩
      · simp only [sendToUserIDs, hu]
        exact hrun
      · intro c
        rw [hspec c]
        have hreg : (Hub.mk clients send).registered c = true → c.UserID ≠ uid := by
          intro hr he
          obtain ⟨conns, hc, -⟩ := (Hub.registered_iff _ c).1 hr
          dsimp only at hc
          rw [he] at hc
          rw [hu] at hc
          exact absurd hc (by simp)
        by_cases hr : (Hub.mk clients send).registered c = true
        · simp only [hr, true_and, List.mem_cons, hreg hr, false_or]
        · simp only [hr, Bool.false_eq_true, false_and, if_false]
    | some conns =>
      obtain ⟨hcn, hcu⟩ := hset uid conns hu
      obtain ⟨send0, hrun0, hspec0⟩ := sendToConns_spec data conns send hcn (hopen uid conns hu)
      have hopen0 : ∀ u conns, clients u = some conns → ∀ c ∈ conns, (send0 c).closed = false := by
        intro u cs hcs c hc
        rw [hspec0 c]
        have := hopen u cs hcs c hc
        split
        · exact this
        · exact this
      obtain ⟨send1, hrun, hspec⟩ := sendToUserIDs_spec clients data hset rest send0 hnd.2 hopen0
      refine ⟨send1, ?_, ?_⟩
      · simp only [sendToUserIDs, hu, hrun0]
        exact hrun
      · intro c
        rw [hspec c]
        have hregsame : (Hub.mk clients send0).registered c = (Hub.mk clients send).registered c :=
          rfl
        by_cases he : c.UserID = uid
        · simp only [hnd.1, false_and, and_false, if_false, List.mem_cons, he, true_or, true_and]
          rw [hspec0 c]
          have hmem : c ∈ conns ↔ (Hub.mk clients send).registered c = true := by
            rw [Hub.registered_iff]
            constructor
            · intro hc
              exact ⟨conns, by rw [he]; exact hu, hc⟩
            · rintro ⟨cs, hcs, hc⟩
              dsimp only at hcs
              rw [he, hu] at hcs
              rw [Option.some.inj hcs]
              exact hc
          simp only [hmem]
        · have hnc : c ∉ conns := fun hc => he (hcu c hc)
          have hsame : send0 c = send c := by
            rw [hspec0 c]
            simp only [hnc, false_and, if_false]
          rw [hsame]
          simp only [hregsame, List.mem_cons, he, false_or]

/-- C25: on a well-formed registry and for distinct user ids, `SendToUsers` with an event
that encodes to `data` appends `data` once to the queue of every registered client of a
listed user whose queue has room, and changes neither the registry nor any other queue:
clients with a full queue, clients of users not listed and clients not registered keep
their queue.  So both of two registered clients of a user get the frame, and a listed
user without clients gets nothing and stops nothing.  An event that does not encode is
dropped. -/
theorem sendToUsers_delivers (marshal : Event → Option String) (h : Hub) (userIDs : List UUID)
    (event : Event) (hwf : h.wellFormed) (hnd : userIDs.Nodup) :
    (∀ data, marshal event = some data →
      ∃ h1, h.SendToUsers marshal userIDs event = .ok h1 ∧ h1.clients = h.clients ∧
        ∀ c, h1.Send c =
          if h.registered c = true ∧ c.UserID ∈ userIDs ∧ (h.Send c).hasRoom = true then
            (h.Send c).push data
          else h.Send c) ∧
    (marshal event = none → h.SendToUsers marshal userIDs event = .ok h) := by
  refine ⟨?_, ?_⟩
  · intro data hm
    obtain ⟨send1, hrun, hspec⟩ := sendToUserIDs_spec h.clients data
      (fun u conns hu => ⟨(hwf u conns hu).1, fun c hc => ((hwf u conns hu).2 c hc).1⟩)
      userIDs h.Send hnd (fun u conns hu c hc => ((hwf u conns hu).2 c hc).2)
    refine ⟨{ h with Send := send1 }, ?_, rfl, hspec⟩
    simp only [Hub.SendToUsers, hm, hrun]
  · intro hm
    simp only [Hub.SendToUsers, hm]

/-- The example hub is well formed. -/
theorem exampleHub_wellFormed : exampleHub.wellFormed := by
  intro u conns hu
  simp only [exampleHub] at hu
  split at hu
  · rename_i h7
    subst h7
    rw [← Option.some.inj hu]
    exact ⟨by decide, by decide⟩
  · split at hu
    · rename_i h8
      subst h8
      rw [← Option.some.inj hu]
      exact ⟨by decide, by decide⟩
    · split at hu
      · rename_i h9
        subst h9
        rw [← Option.some.inj hu]
        exact ⟨by decide, by decide⟩
      · exact absurd hu (by simp)

/-- C25, on the example hub: an event for the users 2, 3 and 5 reaches both clients of
user 2; the client of user 3 has a full queue and the client of user 9 is not
addressed, so their queues stay as they are; user 5 has no client. -/
theorem sendToUsers_delivers_witness :
    ∃ h1, exampleHub.SendToUsers refJson.marshalEvent [2, 3, 5] (Event.mk "message" "hi")
        = .ok h1 ∧
      (h1.Send (Client.mk 1 2)).buf = ["message hi"] ∧
      (h1.Send (Client.mk 2 2)).buf = ["message hi"] ∧
      h1.Send (Client.mk 3 3) = exampleHub.Send (Client.mk 3 3) ∧
      h1.Send (Client.mk 4 9) = exampleHub.Send (Client.mk 4 9) ∧
      exampleHub.clients 5 = none := by
  obtain ⟨h1, hrun, -, hspec⟩ := (sendToUsers_delivers refJson.marshalEvent exampleHub [2, 3, 5]
    (Event.mk "message" "hi") exampleHub_wellFormed (by decide)).1 "message hi" (by decide)
  have hfull : (exampleHub.Send (Client.mk 3 3)).hasRoom = false := by
    show decide ((List.replicate 256 "old").length < 256) = false
    rw [List.length_replicate]
    decide
  refine ⟨h1, hrun, ?_, ?_, ?_, ?_, rfl⟩
  · rw [hspec]; decide
  · rw [hspec]; decide
  · rw [hspec, hfull]; simp
  · rw [hspec]; decide

/-! ## The life of a connection in the hub -/

/-- A step for another connection does not move the state machine of connection `x`. -/
theorem connStep_other (c x : Client) (s : ConnState) (hne : c ≠ x) :
    connStep x s (.register c) = s ∧ connStep x s (.unregister c) = s := by
  cases s <;> simp [connStep, hne]

/-- The state `Closed` is terminal in the state machine. -/
theorem connStep_closed (c : Client) (msg : HubMsg) : connStep c .Closed msg = .Closed := by
  cases msg <;> rfl

/-- The state `Closed` is kept by every sequence of steps. -/
theorem foldl_connStep_closed (c : Client) (steps : List HubMsg) :
    steps.foldl (connStep c) .Closed = .Closed := by
  induction steps with
  | nil => rfl
  | cons msg rest ih => rw [List.foldl_cons, connStep_closed, ih]

/-- Being out of the registry, in terms of the map `clients`. -/
theorem Hub.registered_false_iff (h : Hub) (c : Client) :
    h.registered c = false ↔ ∀ conns, h.clients c.UserID = some conns → c ∉ conns := by
  unfold Hub.registered
  cases hc : h.clients c.UserID with
  | none => simp
  | some conns => simp

/-- What the loop of `Run` does with a client that is not in the registry and asks to
be registered: the client is added to the set of its user. -/
theorem Hub.step_register_spec (h : Hub) (c : Client) (hnot : h.registered c = false) :
    ∃ h1, h.step (.register c) = .ok h1 ∧ h1.Send = h.Send ∧
      (∀ u, u ≠ c.UserID → h1.clients u = h.clients u) ∧
      h1.clients c.UserID = some ((h.clients c.UserID).getD [] ++ [c]) := by
  refine ⟨_, rfl, rfl, ?_, ?_⟩
  · intro u hu
    simp only [hu, if_false]
  · simp only [if_true]
    cases hcs : h.clients c.UserID with
    | none => simp
    | some conns =>
      have := (Hub.registered_false_iff h c).1 hnot conns hcs
      simp [this]

/-- What the loop of `Run` does with a client of the registry that asks to be
unregistered: the client is taken out of the set of its user, the set is dropped when it
becomes empty, and the channel of the client is closed. -/
theorem Hub.step_unregister_spec (h : Hub) (c : Client) (conns : List Client)
    (hcs : h.clients c.UserID = some conns) (hmem : c ∈ conns)
    (hopen : (h.Send c).closed = false) :
    ∃ h1, h.step (.unregister c) = .ok h1 ∧
      h1.Send c = Chan.mk (h.Send c).buf (h.Send c).cap true ∧
      (∀ x, x ≠ c → h1.Send x = h.Send x) ∧
      (∀ u, u ≠ c.UserID → h1.clients u = h.clients u) ∧
      h1.clients c.UserID
        = if (conns.erase c).length = 0 then none else some (conns.erase c) := by
  have hclose : (h.Send c).close = .ok (Chan.mk (h.Send c).buf (h.Send c).cap true) := by
    simp [Chan.close, hopen]
  refine ⟨{ clients := fun u =>
              if u = c.UserID then (if (conns.erase c).length = 0 then none
                else some (conns.erase c))
              else h.clients u
            Send := fun x => if x = c then Chan.mk (h.Send c).buf (h.Send c).cap true
              else h.Send x }, ?_, ?_, ?_, ?_, ?_⟩
  · simp only [Hub.step, hcs, hmem, if_true, hclose]
  · simp
  · intro x hx
    simp [hx]
  · intro u hu
    simp [hu]
  · simp

/-- A client that is not in the registry and asks to be unregistered changes nothing. -/
theorem Hub.step_unregister_absent (h : Hub) (c : Client) (hnot : h.registered c = false) :
    h.step (.unregister c) = .ok h := by
  cases hcs : h.clients c.UserID with
  | none => simp only [Hub.step, hcs]
  | some conns =>
    have := (Hub.registered_false_iff h c).1 hnot conns hcs
    simp only [Hub.step, hcs, this, if_false]

/-- After a client was added to the registry, the registered clients are that client and
those registered before. -/
theorem Hub.registered_after_register (h h1 : Hub) (c : Client)
    (hU : ∀ u, u ≠ c.UserID → h1.clients u = h.clients u)
    (hC : h1.clients c.UserID = some ((h.clients c.UserID).getD [] ++ [c])) (x : Client) :
    h1.registered x = true ↔ x = c ∨ h.registered x = true := by
  rw [Hub.registered_iff, Hub.registered_iff]
  by_cases hu : x.UserID = c.UserID
  · rw [hu, hC]
    cases hcs : h.clients c.UserID with
    | none => simp
    | some conns =>
      simp only [Option.getD_some, Option.some.injEq, exists_eq_left', List.mem_append,
        List.mem_singleton]
      exact or_comm
  · rw [hU _ hu]
    constructor
    · intro hx; exact Or.inr hx
    · rintro (rfl | hx)
      · exact absurd rfl hu
      · exact hx

/-- After a client was taken out of the registry, the registered clients are those
registered before, without that client. -/
theorem Hub.registered_after_unregister (h h1 : Hub) (c : Client) (conns : List Client)
    (hcs : h.clients c.UserID = some conns) (hnd : conns.Nodup)
    (hU : ∀ u, u ≠ c.UserID → h1.clients u = h.clients u)
    (hC : h1.clients c.UserID
      = if (conns.erase c).length = 0 then none else some (conns.erase c)) (x : Client) :
    h1.registered x = true ↔ x ≠ c ∧ h.registered x = true := by
  rw [Hub.registered_iff, Hub.registered_iff]
  by_cases hu : x.UserID = c.UserID
  · rw [hu, hC, hcs]
    by_cases hlen : (conns.erase c).length = 0
    · have hnil : conns.erase c = [] := List.length_eq_zero.1 hlen
      simp only [hlen, if_true, Option.some.injEq, exists_eq_left']
      constructor
      · rintro ⟨cs, hcs1, -⟩
        exact absurd hcs1 (by simp)
      · rintro ⟨hx, hmem⟩
        have : x ∈ conns.erase c := (List.Nodup.mem_erase_iff hnd).2 ⟨hx, hmem⟩
        rw [hnil] at this
        exact absurd this (List.not_mem_nil x)
    · simp only [hlen, if_false, Option.some.injEq, exists_eq_left']
      exact List.Nodup.mem_erase_iff hnd
  · rw [hU _ hu]
    constructor
    · intro hx
      refine ⟨?_, hx⟩
      rintro rfl
      exact hu rfl
    · intro hx; exact hx.2

/-- One iteration of the loop of `Run` keeps the hub in agreement with the state machines
of the connections, when it registers only connections that are `Connecting`. -/
theorem Hub.step_agrees (h : Hub) (m : Client → ConnState) (msg : HubMsg) (hag : h.agrees m)
    (hfirst : ∀ c, msg = .register c → m c = .Connecting) :
    ∃ h1, h.step msg = .ok h1 ∧ h1.agrees fun x => connStep x (m x) msg := by
  obtain ⟨hreg, hclosed, hsets⟩ := hag
  cases msg with
  | register c =>
    have hc := hfirst c rfl
    have hnot : h.registered c = false := by
      cases hr : h.registered c with
      | false => rfl
      | true =>
        have := (hreg c).1 hr
        rw [hc] at this
        exact absurd this (by decide)
    obtain ⟨h1, hstep, hS, hU, hC⟩ := Hub.step_register_spec h c hnot
    have hmc : connStep c (m c) (.register c) = .Registered := by
      rw [hc]; simp [connStep]
    refine ⟨h1, hstep, ?_, ?_, ?_⟩
    · intro x
      rw [Hub.registered_after_register h h1 c hU hC x]
      by_cases hx : x = c
      · subst hx
        simp only [true_or, true_iff]
        exact hmc
      · show _ ↔ connStep x (m x) (.register c) = .Registered
        rw [(connStep_other c x (m x) (Ne.symm hx)).1, ← hreg x]
        simp only [hx, false_or]
    · intro x
      show (h1.Send x).closed = true ↔ connStep x (m x) (.register c) = .Closed
      rw [hS]
      by_cases hx : x = c
      · subst hx
        rw [hmc, hclosed x, hc]
        decide
      · rw [(connStep_other c x (m x) (Ne.symm hx)).1]
        exact hclosed x
    · intro u conns hu
      by_cases huc : u = c.UserID
      · subst huc
        rw [hC] at hu
        have hconns := (Option.some.inj hu).symm
        subst hconns
        have hold : ∀ a ∈ (h.clients c.UserID).getD [], a.UserID = c.UserID ∧ a ≠ c := by
          intro a ha
          cases hcs : h.clients c.UserID with
          | none => rw [hcs] at ha; exact absurd ha (List.not_mem_nil a)
          | some cs =>
            rw [hcs] at ha
            refine ⟨(hsets _ cs hcs).2.2 a ha, ?_⟩
            rintro rfl
            exact (Hub.registered_false_iff h a).1 hnot cs hcs ha
        have hnd : ((h.clients c.UserID).getD []).Nodup := by
          cases hcs : h.clients c.UserID with
          | none => simp
          | some cs => exact (hsets _ cs hcs).2.1
        refine ⟨by simp, ?_, ?_⟩
        · rw [List.nodup_append]
          refine ⟨hnd, List.nodup_singleton c, ?_⟩
          intro a ha hb
          rw [List.mem_singleton] at hb
          exact (hold a ha).2 hb
        · intro a ha
          rcases List.mem_append.1 ha with ha | ha
          · exact (hold a ha).1
          · rw [List.mem_singleton.1 ha]
      · rw [hU u huc] at hu
        exact hsets u conns hu
  | unregister c =>
    cases hr : h.registered c with
    | false =>
      refine ⟨h, Hub.step_unregister_absent h c hr, ?_, ?_, hsets⟩
      · intro x
        show _ ↔ connStep x (m x) (.unregister c) = .Registered
        by_cases hx : x = c
        · subst hx
          have hne : m x ≠ .Registered := fun hm => by
            rw [(hreg x).2 hm] at hr
            exact absurd hr (by decide)
          rw [hr]
          cases hmx : m x with
          | Connecting => simp [connStep]
          | Registered => exact absurd hmx hne
          | Closed => simp [connStep]
        · rw [(connStep_other c x (m x) (Ne.symm hx)).2]
          exact hreg x
      · intro x
        show _ ↔ connStep x (m x) (.unregister c) = .Closed
        by_cases hx : x = c
        · subst hx
          have hne : m x ≠ .Registered := fun hm => by
            rw [(hreg x).2 hm] at hr
            exact absurd hr (by decide)
          rw [hclosed x]
          cases hmx : m x with
          | Connecting => simp [connStep]
          | Registered => exact absurd hmx hne
          | Closed => simp [connStep]
        · rw [(connStep_other c x (m x) (Ne.symm hx)).2]
          exact hclosed x
    | true =>
      obtain ⟨conns, hcs, hmem⟩ := (Hub.registered_iff h c).1 hr
      have hmc : m c = .Registered := (hreg c).1 hr
      have hopen : (h.Send c).closed = false := by
        cases hcl : (h.Send c).closed with
        | false => rfl
        | true =>
          have := (hclosed c).1 hcl
          rw [hmc] at this
          exact absurd this (by decide)
      obtain ⟨-, hnd, hids⟩ := hsets _ conns hcs
      obtain ⟨h1, hstep, hSc, hS, hU, hC⟩ := Hub.step_unregister_spec h c conns hcs hmem hopen
      have hmc1 : connStep c (m c) (.unregister c) = .Closed := by
        rw [hmc]; simp [connStep]
      refine ⟨h1, hstep, ?_, ?_, ?_⟩
      · intro x
        rw [Hub.registered_after_unregister h h1 c conns hcs hnd hU hC x]
        show _ ↔ connStep x (m x) (.unregister c) = .Registered
        by_cases hx : x = c
        · subst hx
          rw [hmc1]
          simp
        · rw [(connStep_other c x (m x) (Ne.symm hx)).2, ← hreg x]
          simp only [ne_eq, hx, not_false_eq_true, true_and]
      · intro x
        show _ ↔ connStep x (m x) (.unregister c) = .Closed
        by_cases hx : x = c
        · subst hx
          rw [hmc1, hSc]
          simp
        · rw [(connStep_other c x (m x) (Ne.symm hx)).2, hS x hx]
          exact hclosed x
      · intro u cs hu
        by_cases huc : u = c.UserID
        · subst huc
          rw [hC] at hu
          by_cases hlen : (conns.erase c).length = 0
          · simp only [hlen, if_true] at hu
            exact absurd hu (by simp)
          · simp only [hlen, if_false, Option.some.injEq] at hu
            subst hu
            refine ⟨?_, hnd.erase c, ?_⟩
            · intro hnil
              rw [hnil] at hlen
              exact hlen rfl
            · intro a ha
              exact hids a (List.mem_of_mem_erase ha)
        · rw [hU u huc] at hu
          exact hsets u cs hu

/-- The loop of `Run` over steps that register each connection at most once, and only
connections that are `Connecting`: it does not panic, and the hub it reaches agrees
with the state machines of the connections. -/
theorem Hub.Run_agrees :
    ∀ (steps : List HubMsg) (h : Hub) (m : Client → ConnState), h.agrees m →
      (registrations steps).Nodup → (∀ c ∈ registrations steps, m c = .Connecting) →
      ∃ h1, h.Run steps = .ok h1 ∧ h1.agrees fun x => steps.foldl (connStep x) (m x)
  | [], h, m, hag, _, _ => ⟨h, rfl, hag⟩
  | msg :: rest, h, m, hag, hnd, hconn => by
    have hfirst : ∀ c, msg = .register c → m c = .Connecting := by
      intro c hm
      subst hm
      exact hconn c (List.mem_cons_self _ _)
    obtain ⟨h1, hstep, hag1⟩ := Hub.step_agrees h m msg hag hfirst
    have hnd1 : (registrations rest).Nodup := by
      cases msg with
      | register c => exact (List.nodup_cons.1 hnd).2
      | unregister c => exact hnd
    have hconn1 : ∀ c ∈ registrations rest, connStep c (m c) msg = .Connecting := by
      intro x hx
      cases msg with
      | register c =>
        have hne : c ≠ x := by
          rintro rfl
          exact (List.nodup_cons.1 hnd).1 hx
        rw [(connStep_other c x (m x) hne).1]
        exact hconn x (List.mem_cons_of_mem _ hx)
      | unregister c =>
        have hmx : m x = .Connecting := hconn x hx
        rw [hmx]
        simp [connStep]
    obtain ⟨h2, hrun, hag2⟩ := Hub.Run_agrees rest h1 _ hag1 hnd1 hconn1
    refine ⟨h2, ?_, hag2⟩
    simp only [Hub.Run, hstep]
    exact hrun

/-- The loop of `Run` over two runs of steps, one after the other. -/
theorem Hub.Run_append (h h1 : Hub) :
    ∀ (steps more : List HubMsg), h.Run steps = .ok h1 → h.Run (steps ++ more) = h1.Run more := by
  intro steps
  induction steps generalizing h with
  | nil =>
    intro more hrun
    simp only [Hub.Run, Except.ok.injEq] at hrun
    subst hrun
    rfl
  | cons msg rest ih =>
    intro more hrun
    simp only [Hub.Run] at hrun
    simp only [List.cons_append, Hub.Run]
    split at hrun
    · exact absurd hrun (by simp)
    · rename_i h2 hstep
      exact ih h2 more hrun

/-- A hub without registered clients and with open channels agrees with the state
machines at their start. -/
theorem Hub.agrees_start (h0 : Hub) (hempty : ∀ u, h0.clients u = none)
    (hopen : ∀ c, (h0.Send c).closed = false) : h0.agrees fun _ => .Connecting := by
  refine ⟨?_, ?_, ?_⟩
  · intro c
    simp [Hub.registered, hempty]
  · intro c
    simp [hopen]
  · intro u conns hu
    rw [hempty u] at hu
    exact absurd hu (by simp)

/-- C26: start from a hub without registered clients whose channels are open, and let
the loop of `Run` take register and unregister steps in which every connection is
registered at most once.  The loop does not panic, and in the hub it reaches: a
connection is in the registry exactly when it is `Registered`, and then its queue is
open; the queue of a connection is closed exactly when the connection is `Closed`; no
user is mapped to an empty set.  To unregister a registered connection takes it out of
the registry and closes its queue, leaving the other connections as they were, and to
unregister it once more changes nothing; to unregister a connection that is not in the
registry changes nothing; and a connection that is `Closed` stays out of the registry
with a closed queue whatever steps follow. -/
theorem hub_lifecycle (h0 : Hub) (steps : List HubMsg) (hempty : ∀ u, h0.clients u = none)
    (hopen : ∀ c, (h0.Send c).closed = false) (honce : (registrations steps).Nodup) :
    ∃ h, h0.Run steps = .ok h ∧
      (∀ c, h.registered c = true ↔ connState steps c = .Registered) ∧
      (∀ c, h.registered c = true → (h.Send c).closed = false) ∧
      (∀ c, (h.Send c).closed = true ↔ connState steps c = .Closed) ∧
      (∀ u, h.clients u ≠ some []) ∧
      (∀ c, h.registered c = true →
        ∃ h1, h.step (.unregister c) = .ok h1 ∧ h1.registered c = false ∧
          (h1.Send c).closed = true ∧
          (∀ x, x ≠ c → h1.registered x = h.registered x ∧ h1.Send x = h.Send x) ∧
          h1.step (.unregister c) = .ok h1) ∧
      (∀ c, h.registered c = false → h.step (.unregister c) = .ok h) ∧
      (∀ c more, connState steps c = .Closed → (registrations (steps ++ more)).Nodup →
        ∃ h2, h.Run more = .ok h2 ∧ h0.Run (steps ++ more) = .ok h2 ∧
          h2.registered c = false ∧ (h2.Send c).closed = true) := by
  have hstart := Hub.agrees_start h0 hempty hopen
  obtain ⟨h, hrun, hag⟩ := Hub.Run_agrees steps h0 _ hstart honce (fun _ _ => rfl)
  have hag0 := hag
  obtain ⟨hreg, hclosed, hsets⟩ := hag
  have hregopen : ∀ c, h.registered c = true → (h.Send c).closed = false := by
    intro c hr
    cases hcl : (h.Send c).closed with
    | false => rfl
    | true =>
      have h1 := (hclosed c).1 hcl
      have h2 := (hreg c).1 hr
      rw [h2] at h1
      exact absurd h1 (by decide)
  refine ⟨h, hrun, hreg, hregopen, hclosed, ?_, ?_, ?_, ?_⟩
  · intro u hu
    exact (hsets u [] hu).1 rfl
  · intro c hr
    obtain ⟨conns, hcs, hmem⟩ := (Hub.registered_iff h c).1 hr
    obtain ⟨-, hnd, -⟩ := hsets _ conns hcs
    obtain ⟨h1, hstep, hSc, hS, hU, hC⟩ :=
      Hub.step_unregister_spec h c conns hcs hmem (hregopen c hr)
    have hafter := Hub.registered_after_unregister h h1 c conns hcs hnd hU hC
    have hout : h1.registered c = false := by
      cases hr1 : h1.registered c with
      | false => rfl
      | true => exact absurd rfl ((hafter c).1 hr1).1
    refine ⟨h1, hstep, hout, by rw [hSc], ?_, Hub.step_unregister_absent h1 c hout⟩
    intro x hx
    refine ⟨?_, hS x hx⟩
    have := hafter x
    cases hr1 : h1.registered x with
    | false =>
      cases hrx : h.registered x with
      | false => rfl
      | true =>
        have h3 := this.2 ⟨hx, hrx⟩
        rw [hr1] at h3
        exact absurd h3 (by decide)
    | true => exact ((this.1 hr1).2).symm
  · intro c hr
    exact Hub.step_unregister_absent h c hr
  · intro c more hc honce2
    obtain ⟨h2, hrun2, hag2⟩ := Hub.Run_agrees (steps ++ more) h0 _ hstart honce2
      (fun _ _ => rfl)
    have hstate : connState (steps ++ more) c = .Closed := by
      unfold connState at hc ⊢
      rw [List.foldl_append, hc, foldl_connStep_closed]
    refine ⟨h2, ?_, hrun2, ?_, ?_⟩
    · rw [← Hub.Run_append h0 h steps more hrun]
      exact hrun2
    · cases hr2 : h2.registered c with
      | false => rfl
      | true =>
        have := (hag2.1 c).1 hr2
        have hs : connState (steps ++ more) c = .Registered := this
        rw [hstate] at hs
        exact absurd hs (by decide)
    · exact (hag2.2.1 c).2 hstate

/-- C26, from the new hub: two clients of user 7 are registered, the first is
unregistered twice, and a client that was never registered is unregistered. -/
theorem hub_lifecycle_witness :
    ∃ h, NewHub.Run [.register (Client.mk 1 7), .register (Client.mk 2 7),
        .unregister (Client.mk 1 7), .unregister (Client.mk 1 7), .unregister (Client.mk 3 8)]
        = .ok h ∧
      h.registered (Client.mk 2 7) = true ∧ (h.Send (Client.mk 2 7)).closed = false ∧
      (h.Send (Client.mk 1 7)).closed = true ∧ h.clients 8 ≠ some [] := by
  obtain ⟨h, hrun, hreg, hopen, hclosed, hsets, -⟩ := hub_lifecycle NewHub
    [.register (Client.mk 1 7), .register (Client.mk 2 7), .unregister (Client.mk 1 7),
      .unregister (Client.mk 1 7), .unregister (Client.mk 3 8)]
    (fun _ => rfl) (fun _ => rfl) (by decide)
  have h2 := (hreg (Client.mk 2 7)).2 (by decide)
  exact ⟨h, hrun, h2, hopen _ h2, (hclosed (Client.mk 1 7)).2 (by decide), hsets 8⟩

/-! ## Persistence comes before the broadcast -/

/-- A broadcast is started by `MessageHandler.Send` only with the message that
`MessageService.Send` has returned, in the store that call has left. -/
theorem MessageHandler.Send_started (h : MessageHandler σ) (st st1 : σ) (now : Time)
    (newID userID : UUID) (idParam : Option UUID) (body : Option String) (resp : Response)
    (b : Broadcast)
    (hs : h.Send st now newID userID idParam body = (resp, st1, some b)) :
    ∃ convoID text msg, idParam = some convoID ∧ body = some text ∧
      h.messages.Send st now newID userID convoID text = (.ok msg, st1) ∧
      b = Broadcast.mk userID convoID msg ∧ resp = .message 201 (toMessageResponse msg) := by
  unfold MessageHandler.Send at hs
  split at hs
  · simp at hs
  · rename_i convoID
    split at hs
    · simp at hs
    · rename_i text
      split at hs
      · simp at hs
      · rename_i msg st2 hsend
        simp only [Prod.mk.injEq, Option.some.injEq] at hs
        obtain ⟨hr, hst, hb⟩ := hs
        subst hst
        exact ⟨convoID, text, msg, rfl, rfl, hsend, hb.symm, hr.symm⟩

/-- When `MessageService.Send` fails, `MessageHandler.Send` writes the error and starts no
broadcast. -/
theorem MessageHandler.Send_failed (h : MessageHandler σ) (st st1 : σ) (now : Time)
    (newID userID convoID : UUID) (text : String) (err : Error)
    (hs : h.messages.Send st now newID userID convoID text = (.error err, st1)) :
    h.Send st now newID userID (some convoID) (some text) = (writeError err, st1, none) := by
  simp only [MessageHandler.Send, hs]

/-- When `MessageService.Send` succeeds, `MessageHandler.Send` answers 201 and starts the
broadcast of the returned message. -/
theorem MessageHandler.Send_succeeded (h : MessageHandler σ) (st st1 : σ) (now : Time)
    (newID userID convoID : UUID) (text : String) (msg : Message)
    (hs : h.messages.Send st now newID userID convoID text = (.ok msg, st1)) :
    h.Send st now newID userID (some convoID) (some text)
      = (.message 201 (toMessageResponse msg), st1, some (Broadcast.mk userID convoID msg)) := by
  simp only [MessageHandler.Send, hs]

/-- On the SQL store, `broadcastMessage` sends to the active participants other than
the sender when the sender is an active participant, the conversation row is found and
there is such a participant; otherwise it sends nothing. -/
theorem broadcastMessage_sql (k : Codec) (clock : Time) (gen : Nat → UUID) (json : Json)
    (db : Db) (hub : Hub) (senderID convoID : UUID) (msg : Message) :
    (conversationRepo.IsParticipant db convoID senderID = .ok true →
      (conversationRepo.GetByID db convoID).toOption.isSome = true →
      otherActiveUsers db convoID senderID ≠ [] →
      (sqlMessageHandler k clock gen).broadcastMessage json db hub senderID convoID msg
        = hub.SendToUsers json.marshalEvent (otherActiveUsers db convoID senderID)
            (Event.mk "message" ((json.marshalMessage (toMessageResponse msg)).getD ""))) ∧
    (¬ (conversationRepo.IsParticipant db convoID senderID = .ok true ∧
        (conversationRepo.GetByID db convoID).toOption.isSome = true ∧
        otherActiveUsers db convoID senderID ≠ []) →
      (sqlMessageHandler k clock gen).broadcastMessage json db hub senderID convoID msg
        = .ok hub) := by
  have hrec := recipientIDs_eq_otherActiveUsers db convoID senderID
  simp only [recipientIDs] at hrec
  have hlen : (otherActiveUsers db convoID senderID).length = 0
      ↔ otherActiveUsers db convoID senderID = [] := List.length_eq_zero
  cases hp : conversationRepo.IsParticipant db convoID senderID with
  | error e =>
    simp [MessageHandler.broadcastMessage, sqlMessageHandler, sqlConversationService,
      ConversationService.GetByID, NewConversationRepo, hp]
  | ok b =>
    cases b with
    | false =>
      simp [MessageHandler.broadcastMessage, sqlMessageHandler, sqlConversationService,
        ConversationService.GetByID, NewConversationRepo, hp]
    | true =>
      cases hg : conversationRepo.GetByID db convoID with
      | error e =>
        simp [MessageHandler.broadcastMessage, sqlMessageHandler, sqlConversationService,
          ConversationService.GetByID, NewConversationRepo, hp, hg, Except.toOption]
      | ok convo =>
        have hb : (sqlMessageHandler k clock gen).broadcastMessage json db hub senderID convoID msg
            = if (otherActiveUsers db convoID senderID).length = 0 then .ok hub
              else hub.SendToUsers json.marshalEvent (otherActiveUsers db convoID senderID)
                (Event.mk "message" ((json.marshalMessage (toMessageResponse msg)).getD "")) := by
          simp only [MessageHandler.broadcastMessage, sqlMessageHandler, sqlConversationService,
            ConversationService.GetByID, NewConversationRepo, hp, hg,
            conversationRepo.GetParticipants, hrec]
        rw [hb]
        by_cases hnil : otherActiveUsers db convoID senderID = []
        · simp [hnil]
        · have hl : ¬ (otherActiveUsers db convoID senderID).length = 0 := fun h0 => hnil (hlen.1 h0)
          simp [hnil, hl, Except.toOption]

/-- C27: on the SQL store, `MessageHandler.Send` starts no broadcast when
`MessageService.Send` fails, whatever the error.  When it starts one, `MessageService.Send`
has returned the message without error, and the store it has left holds the message row
and one delivery row per recipient; the broadcast, run in that store, sends the event to
the active participants other than the sender, the users of these delivery rows (and
sends nothing when there is none or the conversation row is missing). -/
theorem broadcast_after_persist (k : Codec) (clock : Time) (gen : Nat → UUID) (json : Json)
    (db : Db) (now : Time) (newID userID : UUID) :
    (∀ convoID text err db1,
      (sqlMessageService k clock gen).Send db now newID userID convoID text = (.error err, db1) →
      (sqlMessageHandler k clock gen).Send db now newID userID (some convoID) (some text)
        = (writeError err, db1, none)) ∧
    (∀ idParam body resp db1 b,
      (sqlMessageHandler k clock gen).Send db now newID userID idParam body
        = (resp, db1, some b) →
      ∃ convoID text msg, idParam = some convoID ∧ body = some text ∧
        (sqlMessageService k clock gen).Send db now newID userID convoID text = (.ok msg, db1) ∧
        b = Broadcast.mk userID convoID msg ∧
        db1.messages = db.messages ++ [msg] ∧
        db1.message_deliveries = db.message_deliveries ++
          messageRepo.deliveryRows gen msg.ID 0 (otherActiveUsers db1 convoID userID) ∧
        ∀ hub, (sqlMessageHandler k clock gen).broadcastMessage json db1 hub b.senderID
            b.convoID b.msg
          = if (conversationRepo.GetByID db1 convoID).toOption.isSome = true ∧
                otherActiveUsers db1 convoID userID ≠ [] then
              hub.SendToUsers json.marshalEvent (otherActiveUsers db1 convoID userID)
                (Event.mk "message" ((json.marshalMessage (toMessageResponse msg)).getD ""))
            else .ok hub) := by
  refine ⟨?_, ?_⟩
  · intro convoID text err db1 hs
    exact MessageHandler.Send_failed (sqlMessageHandler k clock gen) db db1 now newID userID
      convoID text err hs
  · intro idParam body resp db1 b hs
    obtain ⟨convoID, text, msg, hid, hbody, hsend, hb, -⟩ :=
      MessageHandler.Send_started (sqlMessageHandler k clock gen) db db1 now newID userID idParam
        body resp b hs
    have hsend1 : (sqlMessageService k clock gen).Send db now newID userID convoID text
        = (.ok msg, db1) := hsend
    obtain ⟨dbm, -, hpart, hmsg, hcreate, hdeliv⟩ := send_ok_inv hsend1
    have hdbm := messageRepo.Create_ok hcreate
    have hdb1 := messageRepo.CreateDeliveries_ok hdeliv
    have hrows : db1.conversation_participants = db.conversation_participants := by
      rw [hdb1, hdbm]
    have hconv : db1.conversations = db.conversations := by
      rw [hdb1, hdbm]
    have hother : otherActiveUsers db1 convoID userID = otherActiveUsers db convoID userID := by
      simp only [otherActiveUsers, hrows]
    have hpart1 : conversationRepo.IsParticipant db1 convoID userID = .ok true := by
      simp only [conversationRepo.IsParticipant, hrows] at hpart ⊢
      exact hpart
    have hid1 : msg.ID = newID := by rw [hmsg]
    refine ⟨convoID, text, msg, hid, hbody, hsend1, hb, ?_, ?_, ?_⟩
    · rw [hdb1, hdbm]
    · rw [hother, hid1, hdb1, hdbm]
    · intro hub
      have hbc := broadcastMessage_sql k clock gen json db1 hub userID convoID msg
      rw [hb]
      by_cases hc : (conversationRepo.GetByID db1 convoID).toOption.isSome = true ∧
          otherActiveUsers db1 convoID userID ≠ []
      · rw [if_pos hc]
        exact hbc.1 hpart1 hc.1 hc.2
      · rw [if_neg hc]
        exact hbc.2 (fun hall => hc ⟨hall.2.1, hall.2.2⟩)

/-- C27, on the SQL store: user 1 sends " Hello! " to conversation 10.  The handler
answers 201 and starts the broadcast; the store then holds the message and the delivery
rows of users 2 and 3, and the broadcast is the event for the users 2 and 3. -/
theorem broadcast_after_persist_witness :
    exampleHandler.Send exampleDb (t0 + 9000) 507 1 (some 10) (some " Hello! ")
      = (.message 201 (toMessageResponse helloMessage), exampleDbSent,
          some (Broadcast.mk 1 10 helloMessage)) ∧
    (∃ convoID text msg, some 10 = some convoID ∧ some " Hello! " = some text ∧
      exampleMessages.Send exampleDb (t0 + 9000) 507 1 convoID text = (.ok msg, exampleDbSent) ∧
      Broadcast.mk 1 10 helloMessage = Broadcast.mk 1 convoID msg ∧
      exampleDbSent.messages = exampleDb.messages ++ [msg] ∧
      exampleDbSent.message_deliveries = exampleDb.message_deliveries ++
        messageRepo.deliveryRows (fun i => 900 + i) msg.ID 0
          (otherActiveUsers exampleDbSent convoID 1) ∧
      ∀ hub, exampleHandler.broadcastMessage refJson exampleDbSent hub 1 10 helloMessage
        = if (conversationRepo.GetByID exampleDbSent convoID).toOption.isSome = true ∧
              otherActiveUsers exampleDbSent convoID 1 ≠ [] then
            hub.SendToUsers refJson.marshalEvent (otherActiveUsers exampleDbSent convoID 1)
              (Event.mk "message" ((refJson.marshalMessage (toMessageResponse msg)).getD ""))
          else .ok hub) ∧
    otherActiveUsers exampleDbSent 10 1 = [2, 3] :=
  ⟨by decide,
    (broadcast_after_persist refCodec (t0 + 9000) (fun i => 900 + i) refJson exampleDb
      (t0 + 9000) 507 1).2 (some 10) (some " Hello! ")
      (.message 201 (toMessageResponse helloMessage)) exampleDbSent
      (Broadcast.mk 1 10 helloMessage) (by decide),
    by decide⟩

/-! ## Validation in `AuthService.Register` and the errors of `Login` -/

/-- C28: `Register` checks its input in the order email, password, display name and
fails with the `ValidationError` of the first field that is wrong: "email" when the
lower-cased and trimmed email is empty; else "password" when the password is empty or
shorter than 8 (`len`, the number of bytes); else "display_name" when the trimmed
display name is empty.  This holds for every repository, and the store is returned as
it was: no user and no session is created. -/
theorem register_validation (s : AuthService σ) (lib : AuthLib) (st : σ) (now : Nat → Time)
    (rand : Option (List Nat)) (uuidNew : Nat → UUID) (email password displayName : String) :
    (TrimSpace (lib.ToLower email) = "" →
      ∃ message, s.Register lib st now rand uuidNew email password displayName
        = (.error (.ValidationError "email" message), st)) ∧
    (TrimSpace (lib.ToLower email) ≠ "" → (password = "" ∨ len password < 8) →
      ∃ message, s.Register lib st now rand uuidNew email password displayName
        = (.error (.ValidationError "password" message), st)) ∧
    (TrimSpace (lib.ToLower email) ≠ "" → password ≠ "" → 8 ≤ len password →
      TrimSpace displayName = "" →
      ∃ message, s.Register lib st now rand uuidNew email password displayName
        = (.error (.ValidationError "display_name" message), st)) := by
  refine ⟨?_, ?_, ?_⟩
  · intro he
    exact ⟨"must not be empty", by simp only [AuthService.Register, he, if_true]⟩
  · intro he hp
    by_cases hpe : password = ""
    · exact ⟨"must not be empty", by simp only [AuthService.Register, he, hpe, if_true, if_false]⟩
    · rcases hp with hp | hp
      · exact absurd hp hpe
      · exact ⟨"must be at least 8 characters",
          by simp only [AuthService.Register, he, hpe, hp, if_true, if_false]⟩
  · intro he hpe hlen hd
    have hl : ¬ len password < 8 := by omega
    exact ⟨"must not be empty",
      by simp only [AuthService.Register, he, hpe, hl, hd, if_true, if_false]⟩

/-- C28, on the repositories of the tests: the inputs of `TestRegister_EmptyEmail` and
`TestRegister_ShortPassword`, and an empty display name. -/
theorem register_validation_witness :
    (∃ message, exampleAuth.Register refAuthLib carolStore (fun i => t0 + i) (some [1, 2])
        (fun i => 40 + i) "" "strongpass" "Alice"
      = (.error (.ValidationError "email" message), carolStore)) ∧
    (∃ message, exampleAuth.Register refAuthLib carolStore (fun i => t0 + i) (some [1, 2])
        (fun i => 40 + i) "alice@example.com" "short" "Alice"
      = (.error (.ValidationError "password" message), carolStore)) ∧
    (∃ message, exampleAuth.Register refAuthLib carolStore (fun i => t0 + i) (some [1, 2])
        (fun i => 40 + i) "alice@example.com" "strongpass" "  "
      = (.error (.ValidationError "display_name" message), carolStore)) :=
  ⟨(register_validation exampleAuth refAuthLib carolStore (fun i => t0 + i) (some [1, 2])
      (fun i => 40 + i) "" "strongpass" "Alice").1 (by decide),
    (register_validation exampleAuth refAuthLib carolStore (fun i => t0 + i) (some [1, 2])
      (fun i => 40 + i) "alice@example.com" "short" "Alice").2.1 (by decide)
      (Or.inr (by decide)),
    (register_validation exampleAuth refAuthLib carolStore (fun i => t0 + i) (some [1, 2])
      (fun i => 40 + i) "alice@example.com" "strongpass" "  ").2.2 (by decide) (by decide)
      (by decide) (by decide)⟩

/-- C29, as amended: for an email that is not empty after lower-casing and trimming (not
merely not empty) and a password that is not empty, `Login` returns `ErrNotFound` when
the user repository finds no user with the normalised email, and the same `ErrNotFound`
when it finds one whose stored hash the password does not match.  This holds for every
repository, and the store is returned as it was: no session is created.  The repository
of the tests finds no user exactly when no stored user has the email. -/
theorem login_not_found (s : AuthService σ) (lib : AuthLib) (st : σ) (now : Time)
    (rand : Option (List Nat)) (sessionID : UUID) (email password : String)
    (hemail : TrimSpace (lib.ToLower email) ≠ "") (hpassword : password ≠ "") :
    (s.users.GetByEmail st (TrimSpace (lib.ToLower email)) = .error .ErrNotFound →
      s.Login lib st now rand sessionID email password = (.error .ErrNotFound, st)) ∧
    (∀ user, s.users.GetByEmail st (TrimSpace (lib.ToLower email)) = .ok user →
      lib.CompareHashAndPassword user.PasswordHash password = false →
      s.Login lib st now rand sessionID email password = (.error .ErrNotFound, st)) ∧
    (∀ (m : MockStore) (e : String),
      mockUserRepo.GetByEmail m e = .error .ErrNotFound ↔ ∀ u ∈ m.users, u.Email ≠ e) := by
  refine ⟨?_, ?_, ?_⟩
  · intro hget
    simp only [AuthService.Login, hemail, hpassword, if_false, hget]
  · intro user hget hcmp
    simp only [AuthService.Login, hemail, hpassword, if_false, hget, hcmp, Bool.not_false,
      if_true]
  · intro m e
    unfold mockUserRepo.GetByEmail
    cases hf : m.users.find? fun u => decide (u.Email = e) with
    | none =>
      simp only [true_iff]
      intro u hu
      have := List.find?_eq_none.1 hf u hu
      simpa using this
    | some u =>
      have hmem := List.mem_of_find?_eq_some hf
      have hp := List.find?_some hf
      simp only [decide_eq_true_eq] at hp
      constructor
      · intro h
        exact absurd h (by simp)
      · intro h
        exact absurd hp (h u hmem)

/-- C29, on the repositories of the tests: the inputs of `TestLogin_NotFound` and of
`TestLogin_WrongPassword`. -/
theorem login_not_found_witness :
    exampleAuth.Login refAuthLib carolStore t0 (some [1, 2]) 41 "nobody@example.com" "anypass"
      = (.error .ErrNotFound, carolStore) ∧
    exampleAuth.Login refAuthLib carolStore t0 (some [1, 2]) 41 "carol@example.com" "wrongpass"
      = (.error .ErrNotFound, carolStore) :=
  ⟨(login_not_found exampleAuth refAuthLib carolStore t0 (some [1, 2]) 41 "nobody@example.com"
      "anypass" (by decide) (by decide)).1 (by decide),
    (login_not_found exampleAuth refAuthLib carolStore t0 (some [1, 2]) 41 "carol@example.com"
      "wrongpass" (by decide) (by decide)).2.1 carol (by decide) (by decide)⟩

/-- An email that is empty after lower-casing and trimming is stopped by the validation
of `Login`, before the user repository is asked: the result is the `ValidationError` on
"email", for every repository, and the store is returned as it was. -/
theorem login_blank_email_rejected (s : AuthService σ) (lib : AuthLib) (st : σ) (now : Time)
    (rand : Option (List Nat)) (sessionID : UUID) (email password : String)
    (hemail : TrimSpace (lib.ToLower email) = "") :
    s.Login lib st now rand sessionID email password
      = (.error (.ValidationError "email" "must not be empty"), st) := by
  simp only [AuthService.Login, hemail, if_true]

/-- C29, the counterexample to the claim as worded: the email " " is not empty, the
password "anypass" is not empty, and no user of the store has the email " " or its
normalised form "", yet `Login` returns the `ValidationError` on "email", which is not
`ErrNotFound`. -/
theorem login_blank_email :
    " " ≠ "" ∧ "anypass" ≠ "" ∧
    (∀ u ∈ carolStore.users, u.Email ≠ " " ∧ u.Email ≠ TrimSpace (refAuthLib.ToLower " ")) ∧
    exampleAuth.Login refAuthLib carolStore t0 (some [1, 2]) 41 " " "anypass"
      = (.error (.ValidationError "email" "must not be empty"), carolStore) ∧
    (Error.ValidationError "email" "must not be empty").Is .ErrNotFound = false ∧
    (exampleAuth.Login refAuthLib carolStore t0 (some [1, 2]) 41 " " "anypass").1
      ≠ .error .ErrNotFound := by
  decide

/-! ## The limit a service hands to its repository -/

/-- The limit of the specification is in 1..100 for a default in 1..100. -/
theorem serviceLimit_range (dflt limit : Int) (h1 : 1 ≤ dflt) (h100 : dflt ≤ 100) :
    1 ≤ serviceLimit dflt limit ∧ serviceLimit dflt limit ≤ 100 := by
  unfold serviceLimit
  split
  · exact ⟨h1, h100⟩
  · split
    · exact ⟨by decide, by decide⟩
    · constructor <;> omega

/-- The two clamps of a service compute the limit of the specification. -/
theorem clamp_eq_serviceLimit (dflt limit : Int) (h100 : dflt ≤ 100) :
    (if (if limit ≤ 0 then dflt else limit) > 100 then 100
      else (if limit ≤ 0 then dflt else limit)) = serviceLimit dflt limit := by
  unfold serviceLimit
  by_cases h0 : limit ≤ 0
  · have hd : ¬ dflt > 100 := by omega
    simp only [h0, if_true, hd, if_false]
  · simp only [h0, if_false]

/-- C30: whatever limit is requested, `MessageService.GetHistory` (for a participant),
`ConversationService.List` and `UserService.SearchUsers` (for an accepted query) call
their repository, whichever it is, with the limit of the specification: the request
when it is in 1..100, the default (50, 20, 20) when it is not positive, 100 when it is
above 100.  That limit is in 1..100, so the test `limit <= 0 || limit > 100` of the SQL
repositories is false for it, and a page the SQL repositories return for it has at most
100 items. -/
theorem service_limit_in_range (limit : Int) :
    (∀ (s : MessageService σ) (st : σ) (userID conversationID : UUID) (cursor : String),
      s.convos.IsParticipant st conversationID userID = .ok true →
      s.GetHistory st userID conversationID cursor limit
        = s.messages.ListByConversation st conversationID cursor (serviceLimit 50 limit)) ∧
    (∀ (s : ConversationService σ) (st : σ) (userID : UUID) (cursor : String),
      s.List st userID cursor limit = s.convos.ListByUser st userID cursor (serviceLimit 20 limit)) ∧
    (∀ (s : UserService σ) (st : σ) (query cursor : String),
      TrimSpace query ≠ "" → len (TrimSpace query) ≤ 100 →
      s.SearchUsers st query cursor limit
        = s.repo.Search st (TrimSpace query) cursor (serviceLimit 20 limit)) ∧
    (∀ dflt : Int, 1 ≤ dflt → dflt ≤ 100 →
      1 ≤ serviceLimit dflt limit ∧ serviceLimit dflt limit ≤ 100 ∧
      ¬ (serviceLimit dflt limit ≤ 0 ∨ serviceLimit dflt limit > 100) ∧
      (1 ≤ limit → limit ≤ 100 → serviceLimit dflt limit = limit) ∧
      (limit ≤ 0 → serviceLimit dflt limit = dflt) ∧
      (limit > 100 → serviceLimit dflt limit = 100)) ∧
    (∀ (q : SqlText) (k : Codec) (db : Db) (id : UUID) (text cursor : String),
      (∀ page, messageRepo.ListByConversation k db id cursor (serviceLimit 50 limit) = .ok page →
        page.Items.length ≤ 100) ∧
      (∀ page, conversationRepo.ListByUser k db id cursor (serviceLimit 20 limit) = .ok page →
        page.Items.length ≤ 100) ∧
      (∀ page, userRepo.Search q k db text cursor (serviceLimit 20 limit) = .ok page →
        page.Items.length ≤ 100)) := by
  refine ⟨?_, ?_, ?_, ?_, ?_⟩
  · intro s st userID conversationID cursor hpart
    simp only [MessageService.GetHistory, hpart]
    rw [clamp_eq_serviceLimit 50 limit (by decide)]
  · intro s st userID cursor
    simp only [ConversationService.List]
    rw [clamp_eq_serviceLimit 20 limit (by decide)]
  · intro s st query cursor hq hlen
    have hl : ¬ len (TrimSpace query) > 100 := by omega
    simp only [UserService.SearchUsers, hq, hl, if_false]
    rw [clamp_eq_serviceLimit 20 limit (by decide)]
  · intro dflt h1 h100
    have hr := serviceLimit_range dflt limit h1 h100
    refine ⟨hr.1, hr.2, by omega, ?_, ?_, ?_⟩
    · intro ha hb
      unfold serviceLimit
      rw [if_neg (by omega), if_neg (by omega)]
    · intro ha
      unfold serviceLimit
      rw [if_pos ha]
    · intro ha
      unfold serviceLimit
      rw [if_neg (by omega), if_pos ha]
  · intro q k db id text cursor
    have h50 := serviceLimit_range 50 limit (by decide) (by decide)
    have h20 := serviceLimit_range 20 limit (by decide) (by decide)
    have hs50 : pageSize (serviceLimit 50 limit) ≤ 100 := by
      unfold pageSize
      rw [if_neg (by omega)]
      omega
    have hs20 : pageSize20 (serviceLimit 20 limit) ≤ 100 := by
      unfold pageSize20
      rw [if_neg (by omega)]
      omega
    refine ⟨?_, ?_, ?_⟩
    · intro page hp
      rw [messageRepo.ListByConversation_eq] at hp
      cases hcur : timeCursorOf k cursor with
      | error e => rw [hcur] at hp; exact absurd hp (by simp)
      | ok cur =>
        rw [hcur] at hp
        have := Except.ok.inj hp
        rw [pageOf_eq_pageFrom] at this
        rw [← this]
        exact le_trans (pageFrom_items _ _ _).2.1 hs50
    · intro page hp
      rw [conversationRepo.ListByUser_eq] at hp
      cases hcur : timeCursorOf k cursor with
      | error e => rw [hcur] at hp; exact absurd hp (by simp)
      | ok cur =>
        rw [hcur] at hp
        rw [← Except.ok.inj hp]
        exact le_trans (pageFrom_items _ _ _).2.1 hs20
    · intro page hp
      rw [userRepo.Search_eq] at hp
      cases hcur : nameCursorOf k cursor with
      | error e => rw [hcur] at hp; exact absurd hp (by simp)
      | ok cur =>
        rw [hcur] at hp
        rw [← Except.ok.inj hp]
        exact le_trans (pageFrom_items _ _ _).2.1 hs20

/-- C30, on the SQL store: user 1 asks for the history of conversation 10 with the
limits 0, 500 and 7, which reach the repository as 50, 100 and 7. -/
theorem service_limit_in_range_witness :
    exampleMessages.GetHistory exampleDb 1 10 "" 0
      = messageRepo.ListByConversation refCodec exampleDb 10 "" 50 ∧
    exampleMessages.GetHistory exampleDb 1 10 "" 500
      = messageRepo.ListByConversation refCodec exampleDb 10 "" 100 ∧
    exampleMessages.GetHistory exampleDb 1 10 "" 7
      = messageRepo.ListByConversation refCodec exampleDb 10 "" 7 :=
  ⟨(service_limit_in_range 0).1 exampleMessages exampleDb 1 10 "" (by decide),
    (service_limit_in_range 500).1 exampleMessages exampleDb 1 10 "" (by decide),
    (service_limit_in_range 7).1 exampleMessages exampleDb 1 10 "" (by decide)⟩

end Planning
